import Mathlib

/-!
# GDL `qhull.cpp`: shallow embedding and verified properties

Embedding of the numerical core of `src/src/qhull.cpp`:

* the sub-functions of `qgrid3` (`cross_prod`, `dot_prod3d`, `scalar_triple_prod`,
  `vector_substract`, `box_limits`, `bary_tet`, `is_outside_of_box`, `is_neg`);
* the grid loop of `qgrid3_fun` (global bounding-box test, last-tetrahedron check,
  scan of all tetrahedra, interpolation), as explicit state passing;
* the facet walk and the `BOUNDS` block of `qhull`;
* the `CONNECTIVITY` block of `qhull` (neighbour gathering and serialization);
* the Voronoi diagram decode of `qhull` (2-D and N-D);
* the keyword and input checks of `qhull` and the assembly of its results;
* the keywords `DIMENSION`, `START`, `DELTA`, `MISSING` of `qgrid3_fun`;
* the point matrix built from separate coordinate arrays, in `qhull` and `qgrid3_fun`;
* the sub-functions and the grid loop of `qgrid3_fun` in `double` (every operation rounded
  to binary64), and the output position of line 649 in 32-bit `int`.

Conventions.  In the main embedding `double` values are exact rationals `ℚ` and the
properties proved on it are stated in exact arithmetic; the sections on double precision
and on 32-bit positions embed the same code with the rounding and the wrap-around of the
machine types, and hold the inputs at which the two differ.  A `vector<T>` of three
coordinates is a function `Fin 3 → ℚ`, so that the source's `a[0]`, `a[1]`, `a[2]` read
`a 0`, `a 1`, `a 2`.  `DLong` values are integers `ℤ`.
An out-of-range element access is undefined behaviour in the source; the embedding reads a
default (`0`) there and the theorems carry the range hypotheses they need.  In `ℚ` the
quotient `1 / 0` is `0` (the source yields an infinity); every theorem that depends on the
quotient assumes a non-zero volume.
-/

namespace GDL

/-! ## Sub-functions of `qgrid3` (qhull.cpp, lines 447-519) -/

/-- A point or vector with three coordinates (`vector<T>` indexed by `0, 1, 2`). -/
abbrev Vec3 := Fin 3 → ℚ

/-- Source `cross_prod` (lines 447-451). -/
def cross_prod (a b : Vec3) : Vec3 :=
  ![a 1 * b 2 - a 2 * b 1, b 0 * a 2 - a 0 * b 2, a 0 * b 1 - a 1 * b 0]

/-- Source `dot_prod3d` (lines 453-457). -/
def dot_prod3d (a b : Vec3) : ℚ := a 0 * b 0 + a 1 * b 1 + a 2 * b 2

/-- Source `scalar_triple_prod` (lines 459-463). -/
def scalar_triple_prod (a b c : Vec3) : ℚ := dot_prod3d a (cross_prod b c)

/-- Source `vector_substract` (lines 465-469). -/
def vector_substract (a b : Vec3) : Vec3 := ![a 0 - b 0, a 1 - b 1, a 2 - b 2]

/-- One iteration of the outer loop of `box_limits`: the running minimum and maximum are
updated coordinate by coordinate with the point `p` (lines 477-480). -/
def box_update (mm : Vec3 × Vec3) (p : Vec3) : Vec3 × Vec3 :=
  (fun j => if p j < mm.1 j then p j else mm.1 j,
   fun j => if p j > mm.2 j then p j else mm.2 j)

/-- Source `box_limits` (lines 471-483): both bounds start at `points[0]` and every point
is folded in.  The result pair is `{min_coord, max_coord}`. -/
def box_limits (points : List Vec3) : Vec3 × Vec3 :=
  points.foldl box_update (points.getD 0 0, points.getD 0 0)

/-- Source `bary_tet` (lines 485-505): the four signed-volume ratios. -/
def bary_tet (a b c d p : Vec3) : List ℚ :=
  let vap := vector_substract p a
  let vbp := vector_substract p b
  let vab := vector_substract b a
  let vac := vector_substract c a
  let vad := vector_substract d a
  let vbc := vector_substract c b
  let vbd := vector_substract d b
  let va6 := scalar_triple_prod vbp vbd vbc
  let vb6 := scalar_triple_prod vap vac vad
  let vc6 := scalar_triple_prod vap vad vab
  let vd6 := scalar_triple_prod vap vab vac
  let v6 := 1 / scalar_triple_prod vab vac vad
  [va6 * v6, vb6 * v6, vc6 * v6, vd6 * v6]

/-- Source `is_outside_of_box` (lines 507-512). -/
def is_outside_of_box (min_coord max_coord point : Vec3) : Bool :=
  (decide (point 0 < min_coord 0) || decide (point 0 > max_coord 0))
    || (decide (point 1 < min_coord 1) || decide (point 1 > max_coord 1))
    || (decide (point 2 < min_coord 2) || decide (point 2 > max_coord 2))

/-- Source `is_neg` (line 514). -/
def is_neg (i : ℚ) : Bool := decide (i < 0)

/-- The test `find_if(v.begin(), v.end(), is_neg) == v.end()` of lines 661 and 684:
no element of `v` is negative. -/
def no_neg (v : List ℚ) : Bool := (v.find? is_neg).isNone

/-! ## `qgrid3_fun` (qhull.cpp, lines 528-704) -/

/-- The data `qgrid3_fun` works on once its parameters and keywords are read:
the input points (`points`, line 583), the field values (`func`), the flat list of
tetrahedron vertex ids (`tetra_list`, four per tetrahedron), the number of tetrahedra
(`n_tetra = tetra_list->Dim(1)`), the grid counts (`res_dim_vec`), the grid origin
(`start_coord`), the spacing (`delta`) and the fill value (`missing`). -/
structure GridInput where
  points : List Vec3
  func : List ℚ
  tetra_list : List ℤ
  n_tetra : ℕ
  res_dim_vec : Fin 3 → ℕ
  start_coord : Vec3
  delta : Vec3
  missing : ℚ

/-- The four vertex ids of tetrahedron `tIx`:
`{tetra_list[4*tIx], tetra_list[4*tIx+1], tetra_list[4*tIx+2], tetra_list[4*tIx+3]}`
(lines 630, 657, 675). -/
def tetra_vertices (tetra_list : List ℤ) (tIx : ℕ) : List ℤ :=
  [tetra_list.getD (4 * tIx) 0, tetra_list.getD (4 * tIx + 1) 0,
   tetra_list.getD (4 * tIx + 2) 0, tetra_list.getD (4 * tIx + 3) 0]

/-- The table `tetra_data` (lines 628-634): for every tetrahedron the coordinates of its
four vertices, `points[vertices[0]] .. points[vertices[3]]`. -/
def tetra_data (g : GridInput) : List (List Vec3) :=
  (List.range g.n_tetra).map fun tIx =>
    (tetra_vertices g.tetra_list tIx).map fun v => g.points.getD v.toNat 0

/-- The global bounds `min_coord` of line 592. -/
def min_coord (g : GridInput) : Vec3 := (box_limits g.points).1

/-- The global bounds `max_coord` of line 593. -/
def max_coord (g : GridInput) : Vec3 := (box_limits g.points).2

/-- Barycentric coordinates of `coord` in tetrahedron `tIx`:
`bary_tet(tetrahedron[0], tetrahedron[1], tetrahedron[2], tetrahedron[3], coord)` with
`tetrahedron = tetra_data[tIx]` (lines 658-660 and 676-681). -/
def tetra_bary (g : GridInput) (tIx : ℕ) (coord : Vec3) : List ℚ :=
  let tetrahedron := (tetra_data g).getD tIx []
  bary_tet (tetrahedron.getD 0 0) (tetrahedron.getD 1 0) (tetrahedron.getD 2 0)
    (tetrahedron.getD 3 0) coord

/-- The accumulation `interp_value += bary_coord[vIx] * func[vertices[vIx]]` for
`vIx = 0 .. 3`, starting from `0` (lines 664-665 and 687-688). -/
def interp_value (bary_coord : List ℚ) (func : List ℚ) (vertices : List ℤ) : ℚ :=
  (List.range 4).foldl
    (fun acc vIx => acc + bary_coord.getD vIx 0 * func.getD (vertices.getD vIx 0).toNat 0) 0

/-- The scan of lines 673-693 over the tetrahedron indices still to visit.  A tetrahedron
whose bounding box does not contain `coord` is skipped; the first one whose barycentric
coordinates are all non-negative ends the scan with its index (the new `last_tetra`) and
the interpolated value.  `none` is the case `isInHull == false`. -/
def scan (g : GridInput) (coord : Vec3) : List ℕ → Option (ℕ × ℚ)
  | [] => none
  | tIx :: rest =>
    let vertices := tetra_vertices g.tetra_list tIx
    let tetrahedron := (tetra_data g).getD tIx []
    let tetra_box := box_limits tetrahedron
    if is_outside_of_box tetra_box.1 tetra_box.2 coord then scan g coord rest
    else
      let bary_coord := tetra_bary g tIx coord
      if no_neg bary_coord then some (tIx, interp_value bary_coord g.func vertices)
      else scan g coord rest

/-- Point location for one cell (lines 656-693): the last-hit check on tetrahedron
`last_tetra`, then the scan of all tetrahedra in input order.  The result is the index of
the tetrahedron used (which is also the value of `last_tetra` afterwards) and the
interpolated value, or `none` when no tetrahedron is found. -/
def locate (g : GridInput) (last_tetra : ℕ) (coord : Vec3) : Option (ℕ × ℚ) :=
  let l_vertices := tetra_vertices g.tetra_list last_tetra
  let l_bary_coord := tetra_bary g last_tetra coord
  if no_neg l_bary_coord then some (last_tetra, interp_value l_bary_coord g.func l_vertices)
  else scan g coord (List.range g.n_tetra)

/-- The mutable state of the grid loop: the running coordinate `coord`, the cache
`last_tetra` and the result buffer `res`. -/
structure GridState where
  coord : Vec3
  last_tetra : ℕ
  res : List ℚ

/-- The position `res_index = i + j*res_dim_vec[0] + k*res_dim_vec[0]*res_dim_vec[1]`
(line 649). -/
def res_index (g : GridInput) (i j k : ℕ) : ℕ :=
  i + j * g.res_dim_vec 0 + k * g.res_dim_vec 0 * g.res_dim_vec 1

/-- The statement `coord[2] += delta[2]` (lines 668 and 696). -/
def advance2 (g : GridInput) (coord : Vec3) : Vec3 :=
  Function.update coord 2 (coord 2 + g.delta 2)

/-- Body of the innermost loop (lines 647-696).  When `coord` is outside the global
bounding box the cell is set to `missing` and the iteration ends with `continue`
(lines 651-654): `coord[2]` is not advanced on that path.  Otherwise the cell is located,
the result is stored and `coord[2]` is advanced. -/
def cell_step (g : GridInput) (i j k : ℕ) (s : GridState) : GridState :=
  if is_outside_of_box (min_coord g) (max_coord g) s.coord then
    { s with res := s.res.set (res_index g i j k) g.missing }
  else
    match locate g s.last_tetra s.coord with
    | some (tIx, v) =>
      { coord := advance2 g s.coord, last_tetra := tIx, res := s.res.set (res_index g i j k) v }
    | none =>
      { coord := advance2 g s.coord, last_tetra := s.last_tetra,
        res := s.res.set (res_index g i j k) g.missing }

/-- The innermost loop run for `k = 0 .. n-1` (line 645 has `n = res_dim_vec[2]`). -/
def k_loop (g : GridInput) (i j n : ℕ) (s : GridState) : GridState :=
  (List.range n).foldl (fun s k => cell_step g i j k s) s

/-- The statement `coord[2] = start_coord[2]` opening an iteration of the `j` loop (line 644). -/
def j_enter (g : GridInput) (s : GridState) : GridState :=
  { s with coord := Function.update s.coord 2 (g.start_coord 2) }

/-- Body of the middle loop (lines 644-698): reset `coord[2]`, run the `k` loop, then
`coord[1] += delta[1]`. -/
def j_step (g : GridInput) (i j : ℕ) (s : GridState) : GridState :=
  let s2 := k_loop g i j (g.res_dim_vec 2) (j_enter g s)
  { s2 with coord := Function.update s2.coord 1 (s2.coord 1 + g.delta 1) }

/-- The middle loop run for `j = 0 .. n-1` (line 643 has `n = res_dim_vec[1]`). -/
def j_loop (g : GridInput) (i n : ℕ) (s : GridState) : GridState :=
  (List.range n).foldl (fun s j => j_step g i j s) s

/-- The statement `coord[1] = start_coord[1]` opening an iteration of the `i` loop (line 642). -/
def i_enter (g : GridInput) (s : GridState) : GridState :=
  { s with coord := Function.update s.coord 1 (g.start_coord 1) }

/-- Body of the outer loop (lines 642-700): reset `coord[1]`, run the `j` loop, then
`coord[0] += delta[0]`. -/
def i_step (g : GridInput) (i : ℕ) (s : GridState) : GridState :=
  let s2 := j_loop g i (g.res_dim_vec 1) (i_enter g s)
  { s2 with coord := Function.update s2.coord 0 (s2.coord 0 + g.delta 0) }

/-- The outer loop run for `i = 0 .. n-1` (line 641 has `n = res_dim_vec[0]`). -/
def i_loop (g : GridInput) (n : ℕ) (s : GridState) : GridState :=
  (List.range n).foldl (fun s i => i_step g i s) s

/-- The state before the loops (lines 636-639): `res` is zero-initialised with
`res_dim_vec[0]*res_dim_vec[1]*res_dim_vec[2]` elements, `coord = start_coord`,
`last_tetra = 0`. -/
def init_state (g : GridInput) : GridState :=
  { coord := g.start_coord, last_tetra := 0,
    res := List.replicate (g.res_dim_vec 0 * g.res_dim_vec 1 * g.res_dim_vec 2) 0 }

/-- Source `qgrid3_fun`, from line 636 on: the triple loop and the returned buffer. -/
def qgrid3_fun (g : GridInput) : List ℚ :=
  (i_loop g (g.res_dim_vec 0) (init_state g)).res

/-- The state of the loop when the body of cell `(i, j, k)` starts: `i` full iterations
of the outer loop, then `j` full iterations of the middle loop, then `k` iterations of
the inner loop. -/
def state_at (g : GridInput) (i j k : ℕ) : GridState :=
  k_loop g i j k (j_enter g (j_loop g i j (i_enter g (i_loop g i (init_state g)))))

/-- The grid coordinate `origin + (i*delta0, j*delta1, k*delta2)` of cell `(i, j, k)`. -/
def grid_coord (g : GridInput) (i j k : ℕ) : Vec3 :=
  ![g.start_coord 0 + i * g.delta 0, g.start_coord 1 + j * g.delta 1,
    g.start_coord 2 + k * g.delta 2]

/-- Six times the signed volume of tetrahedron `tIx`, the denominator of `bary_tet`:
`scalar_triple_prod(b - a, c - a, d - a)` for its vertices `a, b, c, d`. -/
def tetra_volume6 (g : GridInput) (tIx : ℕ) : ℚ :=
  let tetrahedron := (tetra_data g).getD tIx []
  scalar_triple_prod (vector_substract (tetrahedron.getD 1 0) (tetrahedron.getD 0 0))
    (vector_substract (tetrahedron.getD 2 0) (tetrahedron.getD 0 0))
    (vector_substract (tetrahedron.getD 3 0) (tetrahedron.getD 0 0))

/-- The four vertex ids of tetrahedron `tIx` index input points. -/
def valid_vertices (g : GridInput) (tIx : ℕ) : Prop :=
  ∀ v ∈ tetra_vertices g.tetra_list tIx, 0 ≤ v ∧ v.toNat < g.points.length

/-- The point `p` is contained in tetrahedron `tIx`: its four barycentric coordinates are
all `>= 0`. -/
def contains (g : GridInput) (tIx : ℕ) (p : Vec3) : Prop :=
  ∀ x ∈ tetra_bary g tIx p, 0 ≤ x

/-! ## `qhull`: facet walk and `BOUNDS` (qhull.cpp, lines 157-218) -/

/-- Modelled from the spec: the integer array type `DLongGDL` is declared outside `src/`.
It is a flat buffer (`data`, first dimension running fastest) together with its two
dimensions (`dim0 = Dim(0)`, `dim1 = Dim(1)`); `SetDim` replaces the dimensions and leaves
the buffer as it is, which is how the index matrix is "shrunk to the true good-facet
count". -/
structure DLongGDL where
  dim0 : ℕ
  dim1 : ℕ
  data : List ℤ

/-- The constructor call `new DLongGDL(dimension(d0, d1), BaseGDL::ZERO)`: a zero-filled
`d0 x d1` array. -/
def DLongGDL.zero (d0 d1 : ℕ) : DLongGDL :=
  { dim0 := d0, dim1 := d1, data := List.replicate (d0 * d1) 0 }

/-- A facet as `qhull` reads it from the engine: the flag `isGood()` and the point ids
`(*vIt).point().id()` of `vertices()`, in iteration order. -/
structure QhullFacet where
  isGood : Bool
  vertices : List ℤ

/-- What `qhull` reads from the engine after `runQhull`: `facetCount()` and `facetList()`. -/
structure QhullRun where
  facetCount : ℕ
  facetList : List QhullFacet

/-- The flag `isDelaunay` (line 100): `DELAUNAY` set, or implied by a Voronoi keyword. -/
def isDelaunay (delaunay isVoronoi : Bool) : Bool := delaunay || isVoronoi

/-- The value of `ndRes` chosen at lines 159-175. -/
def ndRes (nd : ℕ) (delaunay isVoronoi : Bool) : ℕ :=
  if isVoronoi then nd + 1
  else if isDelaunay delaunay isVoronoi then nd + 1
  else nd

/-- The local variables of the facet walk: the buffer of `res`, the write position `ix`
and the counter `bad_facets`. -/
structure WalkState where
  res : List ℤ
  ix : ℕ
  bad_facets : ℕ

/-- Body of the vertex loop (lines 194-195): `(*res)[ix] = id; ix++`. -/
def vertex_step (s : WalkState) (id : ℤ) : WalkState :=
  { s with res := s.res.set s.ix id, ix := s.ix + 1 }

/-- Body of the facet loop (lines 185-196): a facet that is not good is counted and
skipped, a good facet has its vertex ids appended. -/
def facet_step (s : WalkState) (f : QhullFacet) : WalkState :=
  if !f.isGood then { s with bad_facets := s.bad_facets + 1 }
  else f.vertices.foldl vertex_step s

/-- The facet loop of lines 180-197, started with `ix = 0` and `bad_facets = 0`. -/
def facet_walk (facets : List QhullFacet) (res : List ℤ) : WalkState :=
  facets.foldl facet_step { res := res, ix := 0, bad_facets := 0 }

/-- The index result of `qhull` (lines 177-205): a zero-filled `ndRes x facetCount()` array,
the facet walk, and the `SetDim` of lines 199-205 when some facet was not good. -/
def qhull_indices (nd : ℕ) (delaunay isVoronoi : Bool) (q : QhullRun) : DLongGDL :=
  let res := DLongGDL.zero (ndRes nd delaunay isVoronoi) q.facetCount
  let w := facet_walk q.facetList res.data
  if w.bad_facets > 0 then
    if isDelaunay delaunay isVoronoi then
      { dim0 := nd + 1, dim1 := q.facetCount - w.bad_facets, data := w.res }
    else
      { dim0 := nd, dim1 := q.facetCount - w.bad_facets, data := w.res }
  else { res with data := w.res }

/-- Body of the `BOUNDS` loop (lines 211-212): `x` is pushed on `boundsV` when
`find(boundsV.begin(), boundsV.end(), x) == boundsV.end()`. -/
def bounds_step (boundsV : List ℤ) (x : ℤ) : List ℤ :=
  if x ∈ boundsV then boundsV else boundsV ++ [x]

/-- The `BOUNDS` block (lines 207-218): the elements `(*res)[i]`, `i < Dim(0)*Dim(1)`,
are visited in flat order; the keyword receives a copy of `boundsV`. -/
def qhull_bounds (res : DLongGDL) : List ℤ :=
  (List.range (res.dim0 * res.dim1)).foldl
    (fun boundsV i => bounds_step boundsV (res.data.getD i 0)) []

/-- The flat index matrix: the first `Dim(0)*Dim(1)` elements of the buffer, column after
column. -/
def index_matrix (res : DLongGDL) : List ℤ := res.data.take (res.dim0 * res.dim1)

/-- The good facets of the engine result, in facet-list order. -/
def good_facets (q : QhullRun) : List QhullFacet := q.facetList.filter fun f => f.isGood

/-- Validity of the vertex ids is decided by inspecting the four ids. -/
instance (g : GridInput) (t : ℕ) : Decidable (valid_vertices g t) := by
  unfold valid_vertices
  infer_instance

/-- Containment is decided by evaluating the four coordinates. -/
instance (g : GridInput) (t : ℕ) (p : Vec3) : Decidable (contains g t p) := by
  unfold contains
  infer_instance


/-! ## Sample inputs -/

/-- Two tetrahedra sharing the face `x + y + z = 1` of the unit corner. -/
def g_two : GridInput :=
  { points := [![0, 0, 0], ![1, 0, 0], ![0, 1, 0], ![0, 0, 1], ![1, 1, 1]],
    func := [0, 1, 2, 3, 6], tetra_list := [0, 1, 2, 3, 1, 2, 3, 4], n_tetra := 2,
    res_dim_vec := ![2, 2, 2], start_coord := ![0, 0, 0], delta := ![1/2, 1/2, 1/2],
    missing := -1 }

/-- The input `g_two` with its two tetrahedra exchanged. -/
def g_two_swapped : GridInput := { g_two with tetra_list := [1, 2, 3, 4, 0, 1, 2, 3] }

/-- The value stored by the body of the innermost loop, read off `cell_step`: `missing`
on the bounding-box path and when no tetrahedron is found, the interpolated value
otherwise. -/
def cell_value (g : GridInput) (s : GridState) : ℚ :=
  if is_outside_of_box (min_coord g) (max_coord g) s.coord then g.missing
  else
    match locate g s.last_tetra s.coord with
    | some (_, v) => v
    | none => g.missing

/-- Two tetrahedra (the unit corner, with field values `[0, 0, 0, 1]` at its vertices, and
its neighbour across the face `x + y + z = 1`); the grid is one column of three cells along
the third axis that starts below the bounding box: `START = [1/4, 1/4, -1/4]`,
`DELTA = [1/4, 1/4, 1/4]`, `DIMENSION = [1, 1, 3]`, `MISSING = -1`. -/
def g_below : GridInput :=
  { points := [![0, 0, 0], ![1, 0, 0], ![0, 1, 0], ![0, 0, 1], ![1, 1, 1]],
    func := [0, 0, 0, 1, 1], tetra_list := [0, 1, 2, 3, 1, 2, 3, 4], n_tetra := 2,
    res_dim_vec := ![1, 1, 3], start_coord := ![1/4, 1/4, -1/4], delta := ![1/4, 1/4, 1/4],
    missing := -1 }

/-- The input `g_below` with the grid started on the lower face of the bounding box
(`START = [1/4, 1/4, 0]`). -/
def g_on : GridInput := { g_below with start_coord := ![1/4, 1/4, 0] }

/-- The vertex ids of the good facets, facet after facet in facet-list order. -/
def good_vertex_ids (facets : List QhullFacet) : List ℤ :=
  (facets.filter fun f => f.isGood).flatMap fun f => f.vertices

/-- The number of facets that are not good. -/
def bad_count (facets : List QhullFacet) : ℕ := (facets.filter fun f => !f.isGood).length

/-- A Delaunay run in the plane (`nd = 2`) with four facets, two of them not good. -/
def q_sample : QhullRun :=
  { facetCount := 4,
    facetList := [⟨true, [2, 0, 1]⟩, ⟨false, [9, 9, 9]⟩, ⟨true, [3, 1, 2]⟩, ⟨false, [7, 7, 7]⟩] }

/-! ## `qhull`: the `CONNECTIVITY` block (qhull.cpp, lines 220-266) -/

/-- A vertex as the `CONNECTIVITY` block reads it from the engine: the point id
`vertex.point().id()` and the incident facets `vertex.neighborFacets()`, in iteration
order. -/
structure QhullVertex where
  id : ℤ
  neighborFacets : List QhullFacet

/-- The local variables of the gathering loop that persist over one vertex: the list
`neighborsV` and the counter `connCount`. -/
structure NeighborState where
  neighborsV : List ℤ
  connCount : ℕ

/-- Body of the innermost loop (lines 242-248): the point id `pid` of a facet vertex is
pushed, and counted, when it is not in `neighborsV` yet and differs from `vertexId`. -/
def neighbor_step (vertexId : ℤ) (s : NeighborState) (pid : ℤ) : NeighborState :=
  if pid ∉ s.neighborsV ∧ pid ≠ vertexId then
    { neighborsV := s.neighborsV ++ [pid], connCount := s.connCount + 1 }
  else s

/-- Body of the loop over the incident facets (lines 237-249): a facet that is not good is
skipped, the vertices of a good facet are visited in order. -/
def neighbor_facet_step (vertexId : ℤ) (s : NeighborState) (neighbor : QhullFacet) :
    NeighborState :=
  if !neighbor.isGood then s else neighbor.vertices.foldl (neighbor_step vertexId) s

/-- The neighbour list built for one vertex (lines 230-250), `neighborsV` starting empty,
together with the running value of `connCount`. -/
def vertex_neighbors (vertex : QhullVertex) (connCount : ℕ) : NeighborState :=
  vertex.neighborFacets.foldl (neighbor_facet_step vertex.id)
    { neighborsV := [], connCount := connCount }

/-- The variables of the loop over the vertices: the table `connV` and `connCount`. -/
structure GatherState where
  connV : List (List ℤ)
  connCount : ℕ

/-- Body of the loop over the vertices (lines 230-251).  The assignment
`connV.at(vertexId) = neighborsV` is range-checked: an id outside `0 .. connV.size()-1`
raises `std::out_of_range`, which is the result `none`. -/
def gather_step (s : Option GatherState) (vertex : QhullVertex) : Option GatherState :=
  s.bind fun s =>
    let r := vertex_neighbors vertex s.connCount
    if 0 ≤ vertex.id ∧ vertex.id.toNat < s.connV.length then
      some { connV := s.connV.set vertex.id.toNat r.neighborsV, connCount := r.connCount }
    else none

/-- The gathering loop (lines 222-252): `connV` starts as `vertexCount()` empty lists and
`connCount` as `0`. -/
def conn_gather (vertexCount : ℕ) (vertices : List QhullVertex) : Option GatherState :=
  vertices.foldl gather_step (some { connV := List.replicate vertexCount [], connCount := 0 })

/-- The copy loop of line 261: `(*conn)[writeIx+j] = neighborsV.at(j)` for
`j = 0 .. neighborsV.size()-1`. -/
def conn_write (neighborsV : List ℤ) (conn : List ℤ) (writeIx : ℕ) : List ℤ :=
  (List.range neighborsV.length).foldl
    (fun conn j => conn.set (writeIx + j) (neighborsV.getD j 0)) conn

/-- The variables of the serialization loop: the buffer `conn` and `writeIx`. -/
structure SerialState where
  conn : List ℤ
  writeIx : ℕ

/-- Body of the serialization loop (lines 260-263): the list of vertex `i` is copied at
`writeIx`, header slot `i` receives `writeIx`, and `writeIx` moves past the list. -/
def serial_step (connV : List (List ℤ)) (s : SerialState) (i : ℕ) : SerialState :=
  let neighborsV := connV.getD i []
  { conn := (conn_write neighborsV s.conn s.writeIx).set i (s.writeIx : ℤ),
    writeIx := s.writeIx + neighborsV.length }

/-- The serialization (lines 254-264): a zero-filled buffer of `np + 1 + connCount`
elements, the total length in slot `np`, then the loop over `i = 0 .. connV.size()-1`
started with `writeIx = np + 1`. -/
def conn_serialize (np connCount : ℕ) (connV : List (List ℤ)) : List ℤ :=
  let conn := (List.replicate (np + 1 + connCount) (0 : ℤ)).set np ((np + 1 + connCount : ℕ) : ℤ)
  ((List.range connV.length).foldl (serial_step connV) { conn := conn, writeIx := np + 1 }).conn

/-- The `CONNECTIVITY` result (lines 220-266) for `np` input points, or `none` when the
range check of `connV.at` fails. -/
def qhull_conn (np vertexCount : ℕ) (vertices : List QhullVertex) : Option (List ℤ) :=
  (conn_gather vertexCount vertices).map fun s => conn_serialize np s.connCount s.connV

/-- The position `np + 1 + |L_0| + .. + |L_{i-1}|` at which the list of vertex `i` starts
in the buffer. -/
def conn_offset (np : ℕ) (connV : List (List ℤ)) (i : ℕ) : ℕ :=
  np + 1 + ((connV.take i).map List.length).sum

/-- Four points in the plane: the facet `{1, 2, 3}` is good, the facet `{0, 1, 2}` is not,
so point `0` has no neighbour through a good facet. -/
def v_sample : List QhullVertex :=
  [ { id := 0, neighborFacets := [⟨false, [0, 1, 2]⟩] },
    { id := 1, neighborFacets := [⟨true, [1, 2, 3]⟩, ⟨false, [0, 1, 2]⟩] },
    { id := 2, neighborFacets := [⟨false, [0, 1, 2]⟩, ⟨true, [1, 2, 3]⟩] },
    { id := 3, neighborFacets := [⟨true, [1, 2, 3]⟩] } ]

/-! ## `qhull`: the Voronoi diagram decode (qhull.cpp, lines 316-439)

The text that the engine writes for option `Fv` is read with `ss >> current_int`; it is
modelled by the list of the integers read. -/

/-- The variables of the reading loops: the position `line_ix` in the current group, the
count `n_indices` of the group, the current `line`, the decoded rows `q_vdiag`, and (N-D
only) the running `vdiag_length`. -/
structure ParseState where
  line_ix : ℤ
  n_indices : ℤ
  line : List ℤ
  q_vdiag : List (List ℤ)
  vdiag_length : ℤ

/-- The state before the first integer is read.  `n_indices` is not initialised in the
source; it is assigned by the first integer before it is read. -/
def parse_init : ParseState :=
  { line_ix := 0, n_indices := 0, line := [], q_vdiag := [], vdiag_length := 0 }

/-- Body of the 2-D reading loop (lines 339-349): the first integer of a group is its
count and is not kept, the others are appended to `line`; when `n_indices + 1` integers
are read the line is pushed. -/
def parse2_step (s : ParseState) (current_int : ℤ) : ParseState :=
  let s1 := if s.line_ix = 0 then { s with n_indices := current_int }
            else { s with line := s.line ++ [current_int] }
  let s2 := { s1 with line_ix := s1.line_ix + 1 }
  if s2.line_ix = s2.n_indices + 1 then
    { s2 with q_vdiag := s2.q_vdiag ++ [s2.line], line := [], line_ix := 0 }
  else s2

/-- The 2-D reading loop (lines 337-351): the rows `q_vdiag`. -/
def parse2 (tokens : List ℤ) : List (List ℤ) := (tokens.foldl parse2_step parse_init).q_vdiag

/-- Body of the N-D reading loop (lines 395-403): as in 2-D, but the count is kept as the
first element of the line, and `vdiag_length` grows by `n_indices + 1` per line. -/
def parseN_step (s : ParseState) (current_int : ℤ) : ParseState :=
  let s1 := if s.line_ix = 0 then { s with n_indices := current_int } else s
  let s2 := { s1 with line := s1.line ++ [current_int], line_ix := s1.line_ix + 1 }
  if s2.line_ix = s2.n_indices + 1 then
    { s2 with q_vdiag := s2.q_vdiag ++ [s2.line],
              vdiag_length := s2.vdiag_length + (s2.n_indices + 1), line := [], line_ix := 0 }
  else s2

/-- The N-D reading loop (lines 393-405): the final state, with `q_vdiag` and
`vdiag_length`. -/
def parseN (tokens : List ℤ) : ParseState := tokens.foldl parseN_step parse_init

/-- The loop over `k` of lines 357-362 and 411-416: the first index `k` of the table
`normsVertId` whose entries `[1]` and `[2]` are the point pair `(a, b)`. -/
def find_norm (a b : ℤ) (normsVertId : List (List ℤ)) : Option ℕ :=
  (List.range normsVertId.length).find? fun k =>
    decide (a = (normsVertId.getD k []).getD 1 0) && decide (b = (normsVertId.getD k []).getD 2 0)

/-- The loop over `j` of lines 355-365 and 409-419 for one row, `js` being the values of
`j` still to visit and `(pa, pb)` the positions of the point pair in the row.  At the first
`j` with `row[j] == 0` the element is replaced by `-k` for the first matching `k` (left as
it is when there is none) and the loop ends with `break`. -/
def unbounded_row (normsVertId : List (List ℤ)) (pa pb : ℕ) (row : List ℤ) : List ℕ → List ℤ
  | [] => row
  | j :: js =>
    if row.getD j 0 = 0 then
      match find_norm (row.getD pa 0) (row.getD pb 0) normsVertId with
      | some k => row.set j (-(k : ℤ))
      | none => row
    else unbounded_row normsVertId pa pb row js

/-- The 2-D handling of unbounded half-spaces (lines 354-366): `j = 2, 3`, point pair at
positions `0` and `1`. -/
def unbounded2 (normsVertId : List (List ℤ)) (q_vdiag : List (List ℤ)) : List (List ℤ) :=
  q_vdiag.map fun row => unbounded_row normsVertId 0 1 row [2, 3]

/-- The N-D handling of unbounded half-spaces (lines 408-420): `j` runs from `2` while
`j < q_vdiag.size()`, the number of rows; point pair at positions `1` and `2`. -/
def unboundedN (normsVertId : List (List ℤ)) (q_vdiag : List (List ℤ)) : List (List ℤ) :=
  q_vdiag.map fun row =>
    unbounded_row normsVertId 1 2 row (List.range' 2 (q_vdiag.length - 2))

/-- Body of the 2-D output loop (lines 371-380) for row `i`, with `nd = 2`: both inner
loops repeat their two assignments `nd` times. -/
def vdiag2_row (vdiag : List ℤ) (i : ℕ) (row : List ℤ) : List ℤ :=
  let nd := 2
  let v1 := (List.range nd).foldl
    (fun v _ => (v.set (i * 2 * nd) (row.getD 0 0)).set (i * 2 * nd + 1) (row.getD 1 0)) vdiag
  (List.range nd).foldl
    (fun v _ => (v.set (i * 2 * nd + 2) (row.getD 2 0 - 1)).set (i * 2 * nd + 3)
      (row.getD 3 0 - 1)) v1

/-- The 2-D output (lines 368-381): a zero-filled `2*nd x nVdiag` array filled row by row. -/
def vdiag2_output (q_vdiag : List (List ℤ)) : DLongGDL :=
  { dim0 := 2 * 2, dim1 := q_vdiag.length,
    data := (List.range q_vdiag.length).foldl
      (fun vdiag i => vdiag2_row vdiag i (q_vdiag.getD i []))
      (DLongGDL.zero (2 * 2) q_vdiag.length).data }

/-- The `VDIAGRAM` result in the 2-D case (lines 329-383). -/
def qhull_vdiag2 (tokens : List ℤ) (normsVertId : List (List ℤ)) : DLongGDL :=
  vdiag2_output (unbounded2 normsVertId (parse2 tokens))

/-- The variables of the N-D output loop: the buffer `vdiag` and `writeIx`. -/
structure OutState where
  vdiag : List ℤ
  writeIx : ℕ

/-- Body of the N-D output loop (lines 426-435) for one row: the elements `0, 1, 2` are
copied, the elements from `3` on are written less one. -/
def vdiagN_row (s : OutState) (row : List ℤ) : OutState :=
  let s1 := (List.range 3).foldl
    (fun s j => { vdiag := s.vdiag.set s.writeIx (row.getD j 0), writeIx := s.writeIx + 1 }) s
  (List.range' 3 (row.length - 3)).foldl
    (fun s j => { vdiag := s.vdiag.set s.writeIx (row.getD j 0 - 1), writeIx := s.writeIx + 1 })
    s1

/-- The N-D output (lines 422-436): a zero-filled buffer of `vdiag_length` elements. -/
def vdiagN_output (vdiag_length : ℤ) (q_vdiag : List (List ℤ)) : List ℤ :=
  (q_vdiag.foldl vdiagN_row
    { vdiag := List.replicate vdiag_length.toNat 0, writeIx := 0 }).vdiag

/-- The `VDIAGRAM` result in the N-D case (lines 384-438). -/
def qhull_vdiagN (tokens : List ℤ) (normsVertId : List (List ℤ)) : List ℤ :=
  vdiagN_output (parseN tokens).vdiag_length (unboundedN normsVertId (parseN tokens).q_vdiag)

/-! ## `qhull`: keywords, input checks and the assembled results
(qhull.cpp, lines 76-175 and 207-442) -/

/-- A `double` as the finite check of line 152 sees it: a finite value, a NaN, or an
infinity of either sign. -/
inductive DDouble where
  | finite (q : ℚ)
  | nan
  | inf (negative : Bool)
  deriving DecidableEq

/-- The test `isfinite(x)`. -/
def isfinite : DDouble → Bool
  | .finite _ => true
  | .nan => false
  | .inf _ => false

/-- The keywords of `qhull` as the flags of lines 79-100 read them: `KeywordPresent` for
all of them but `DELAUNAY`, which is read with `KeywordSet`. -/
structure QhullKeywords where
  CONNECTIVITY : Bool
  BOUNDS : Bool
  VNORMALS : Bool
  VDIAGRAM : Bool
  VVERTICES : Bool
  SPHERE : Bool
  DELAUNAY : Bool

/-- The flag `isVoronoi` (line 94). -/
def QhullKeywords.isVoronoi (kw : QhullKeywords) : Bool :=
  kw.VNORMALS || kw.VDIAGRAM || kw.VVERTICES

/-- The errors `qhull` can end with: those raised by `e->Throw` at lines 102, 104, 133,
141, 143 and 152, the `std::out_of_range` of a failed `at`, and the `e->Throw` of line 120
(separate coordinate arrays). -/
inductive QhullError where
  | connectivity_requires_delaunay
  | sphere_not_implemented
  | not_two_dimensions
  | not_enough_points (np need : ℕ)
  | not_enough_points_available
  | non_finite
  | out_of_range
  | separated_arrays
  deriving DecidableEq

/-- The text of each error, as written in the source; `out_of_range` stands for the
library exception `std::out_of_range`, whose text is not part of the source. -/
def QhullError.text : QhullError → String
  | .connectivity_requires_delaunay =>
    "Keyword CONNECTIVITY requires the presence of keyword DELAUNAY/SPHERE.\nSPHERE is not implemented yet."
  | .sphere_not_implemented => "SPHERE is not implemented yet."
  | .not_two_dimensions => "qhull input error: array must have 2 dimensions"
  | .not_enough_points np need =>
    "qhull input error: not enough points (" ++ toString np
      ++ ") to construct initial simplex (need " ++ toString need ++ ")"
  | .not_enough_points_available => "qhull input error: not enough points available"
  | .non_finite => "Infinite or invalid (NaN) operands not allowed."
  | .out_of_range => "std::out_of_range"
  | .separated_arrays =>
    "qhull input error: separated input arrays must have same length and be 1 dimensional"

/-- The checks made before the engine is called, in source order (lines 102, 104, 133,
136-144, 150-153): the first error raised, or `none` when all pass.  `nd = p0->Dim(0)`,
`np = p0->Dim(1)` and `p0` holds the elements of the point matrix. -/
def qhull_checks (kw : QhullKeywords) (nd np : ℕ) (p0 : List DDouble) : Option QhullError :=
  if kw.CONNECTIVITY && !isDelaunay kw.DELAUNAY kw.isVoronoi then
    some .connectivity_requires_delaunay
  else if kw.SPHERE then some .sphere_not_implemented
  else if nd = 0 ∨ np = 0 then some .not_two_dimensions
  else if np ≤ nd then some (.not_enough_points np (nd + 1))
  else if np ≤ nd + 1 ∧ isDelaunay kw.DELAUNAY kw.isVoronoi = true then
    some .not_enough_points_available
  else if p0.any (fun x => !isfinite x) then some .non_finite
  else none

/-- What `qhull` reads from the engine after `runQhull`: the facets, the vertices with
their incident facets, the centre `getCenter()` of every facet (in facet-list order), the
rows written for option `Fo` (`doublesVector()` and `intsVector()`), and the integers of
the text written for option `Fv`. -/
structure QhullSession extends QhullRun where
  vertexCount : ℕ
  vertexList : List QhullVertex
  centers : List (List ℚ)
  normsPars : List (List ℚ)
  normsVertId : List (List ℤ)
  fvInts : List ℤ

/-- The engine call `runQhull(comment, nd, np, coordinates, options)`. -/
abbrev QhullEngine := ℕ → ℕ → List DDouble → String → QhullSession

/-- The option string passed to the engine (lines 159-175). -/
def qhull_options (kw : QhullKeywords) : String :=
  if kw.isVoronoi then "QJ v Qbb Pp"
  else if isDelaunay kw.DELAUNAY kw.isVoronoi then "QJ d Pp"
  else "QJ Pp"

/-- The results `qhull` sets: the positional result `res` and one value per keyword that
is present. -/
structure QhullOutput where
  res : DLongGDL
  bounds : Option (List ℤ)
  conn : Option (List ℤ)
  vvert : Option (List ℚ)
  vnorm : Option (List ℚ)
  vdiag : Option (List ℤ)

/-- The centres of the good facets, `vVertices` (lines 278-284). -/
def voronoi_vertices (s : QhullSession) : List (List ℚ) :=
  ((s.facetList.zip s.centers).filter fun fc => fc.1.isGood).map fun fc => fc.2

/-- The part of `qhull` after the checks (lines 146-442): the engine call and the results.
The range-checked accesses `connV.at` and `vVertices.at(i).at(j)` end the call with
`out_of_range` when they fail (keyword values set before such a failure are not
represented). -/
def qhull_results (kw : QhullKeywords) (nd np : ℕ) (p0 : List DDouble) (engine : QhullEngine) :
    Except QhullError QhullOutput :=
  let s := engine nd np p0 (qhull_options kw)
  let res := qhull_indices nd kw.DELAUNAY kw.isVoronoi s.toQhullRun
  let bounds := if kw.BOUNDS then some (qhull_bounds res) else none
  if kw.CONNECTIVITY ∧ (qhull_conn np s.vertexCount s.vertexList).isNone then
    .error .out_of_range
  else
    let conn := if kw.CONNECTIVITY then qhull_conn np s.vertexCount s.vertexList else none
    if kw.isVoronoi ∧ kw.VVERTICES ∧ (voronoi_vertices s).any (fun c => decide (c.length < nd))
    then .error .out_of_range
    else
      let vvert := if kw.isVoronoi ∧ kw.VVERTICES then
        some ((voronoi_vertices s).flatMap fun c => c.take nd) else none
      let vnorm := if kw.isVoronoi ∧ kw.VNORMALS then
        some (s.normsPars.flatMap fun r => (List.range (nd + 1)).map fun j => r.getD j 0)
        else none
      let vdiag := if kw.isVoronoi ∧ kw.VDIAGRAM then
        some (if nd = 2 then (qhull_vdiag2 s.fvInts s.normsVertId).data
              else qhull_vdiagN s.fvInts s.normsVertId)
        else none
      .ok { res := res, bounds := bounds, conn := conn, vvert := vvert, vnorm := vnorm,
            vdiag := vdiag }

/-- Source `qhull` (lines 76-443) on a point matrix: the checks, then the engine call and
the results. -/
def qhull (kw : QhullKeywords) (nd np : ℕ) (p0 : List DDouble) (engine : QhullEngine) :
    Except QhullError QhullOutput :=
  match qhull_checks kw nd np p0 with
  | some e => .error e
  | none => qhull_results kw nd np p0 engine

/-- An engine that reports no facet and no vertex, whatever it is given. -/
def engine_empty : QhullEngine := fun _ _ _ _ =>
  { facetCount := 0, facetList := [], vertexCount := 0, vertexList := [], centers := [],
    normsPars := [], normsVertId := [], fvInts := [] }

/-- No keyword present. -/
def kw_none : QhullKeywords :=
  { CONNECTIVITY := false, BOUNDS := false, VNORMALS := false, VDIAGRAM := false,
    VVERTICES := false, SPHERE := false, DELAUNAY := false }

/-! ## Point location without the bounding-box test -/

/-- The scan of lines 673-693 as the design describes it without its pruning step: every
tetrahedron has its barycentric coordinates computed, and the first one whose coordinates
are all non-negative is accepted.  It is `scan` with lines 677-679 (the bounding-box
rejection) left out, for comparison with `scan`. -/
def scan_without_box (g : GridInput) (coord : Vec3) : List ℕ → Option (ℕ × ℚ)
  | [] => none
  | tIx :: rest =>
    let vertices := tetra_vertices g.tetra_list tIx
    let bary_coord := tetra_bary g tIx coord
    if no_neg bary_coord then some (tIx, interp_value bary_coord g.func vertices)
    else scan_without_box g coord rest

/-- The tetrahedra of `g_two` on a column of two cells that runs from the inside of
tetrahedron `1` down to the edge shared with tetrahedron `0`:
`START = [1/2, 1/2, 1/2]`, `DELTA = [0, 0, -1/2]`, `DIMENSION = [1, 1, 2]`. -/
def g_tie : GridInput :=
  { g_two with res_dim_vec := ![1, 1, 2], start_coord := ![1/2, 1/2, 1/2],
               delta := ![0, 0, -1/2] }

/-! ## `qgrid3_fun`: the keywords `DIMENSION`, `START`, `DELTA`, `MISSING`
(qhull.cpp, lines 567-625) -/

/-- The keyword arrays of `qgrid3_fun`, `none` when the keyword is not present. -/
structure GridKeywords where
  DIMENSION : Option (List ℤ)
  START : Option (List ℚ)
  DELTA : Option (List ℚ)
  MISSING : Option (List ℚ)

/-- The ways the keyword handling can end without a grid: one of the three `e->Throw` of
lines 577, 604 and 619, or an element read outside the keyword array (undefined behaviour
in the source). -/
inductive GridError where
  | dimension_elements
  | start_elements
  | delta_elements
  | read_out_of_bounds
  deriving DecidableEq

/-- The text of the three errors raised by `e->Throw`. -/
def GridError.text : GridError → String
  | .dimension_elements => "Keyword array parameter DIMENSION must have from 1 to 3 elements."
  | .start_elements => "Keyword array parameter START must have from 1 to 3 elements."
  | .delta_elements => "Keyword array parameter DELTA must have from 1 to 3 elements."
  | .read_out_of_bounds => "element read outside the keyword array"

/-- The element indices read from `dimPar` at line 575:
`0`, `(dimNelem>1)`, `2*(dimNelem>1)`. -/
def dimension_indices (dimNelem : ℕ) : List ℕ :=
  [0, if dimNelem > 1 then 1 else 0, 2 * (if dimNelem > 1 then 1 else 0)]

/-- The element indices read from `startPar` at line 602:
`0`, `(startNelem>1)`, `2*(startNelem>2)`. -/
def start_indices (startNelem : ℕ) : List ℕ :=
  [0, if startNelem > 1 then 1 else 0, 2 * (if startNelem > 2 then 1 else 0)]

/-- The element indices read from `deltaPar` at line 617:
`0`, `(deltaNelem>1)`, `2*(deltaNelem>2)`. -/
def delta_indices (deltaNelem : ℕ) : List ℕ :=
  [0, if deltaNelem > 1 then 1 else 0, 2 * (if deltaNelem > 2 then 1 else 0)]

/-- The elements of a keyword array at the given indices; `none` when an index is outside
the array. -/
def read_elements {α : Type} (par : List α) : List ℕ → Option (List α)
  | [] => some []
  | ix :: rest =>
    match par[ix]?, read_elements par rest with
    | some x, some v => some (x :: v)
    | _, _ => none

/-- The value of `res_dim_vec` (lines 569-579): `{25, 25, 25}` unless `DIMENSION` is
present with one to three elements. -/
def read_dimension (kw : GridKeywords) : Except GridError (List ℤ) :=
  match kw.DIMENSION with
  | none => .ok [25, 25, 25]
  | some dimPar =>
    if dimPar.length ≤ 3 ∧ dimPar.length > 0 then
      match read_elements dimPar (dimension_indices dimPar.length) with
      | some v => .ok v
      | none => .error .read_out_of_bounds
    else .error .dimension_elements

/-- The value of `start_coord` (lines 596-606): `min_coord` unless `START` is present with
one to three elements. -/
def read_start (kw : GridKeywords) (min_coord : Vec3) : Except GridError (List ℚ) :=
  match kw.START with
  | none => .ok [min_coord 0, min_coord 1, min_coord 2]
  | some startPar =>
    if startPar.length ≤ 3 ∧ startPar.length > 0 then
      match read_elements startPar (start_indices startPar.length) with
      | some v => .ok v
      | none => .error .read_out_of_bounds
    else .error .start_elements

/-- The value of `delta` (lines 609-621): `(max_coord[i] - start_coord[i]) / res_dim_vec[i]`
unless `DELTA` is present with one to three elements. -/
def read_delta (kw : GridKeywords) (max_coord : Vec3) (start_coord : List ℚ)
    (res_dim_vec : List ℤ) : Except GridError (List ℚ) :=
  match kw.DELTA with
  | none =>
    .ok ((List.range 3).map fun i =>
      (max_coord i - start_coord.getD i 0) / ((res_dim_vec.getD i 0 : ℤ) : ℚ))
  | some deltaPar =>
    if deltaPar.length ≤ 3 ∧ deltaPar.length > 0 then
      match read_elements deltaPar (delta_indices deltaPar.length) with
      | some v => .ok v
      | none => .error .read_out_of_bounds
    else .error .delta_elements

/-- The value of `missing` (lines 623-625). -/
def read_missing (kw : GridKeywords) : ℚ :=
  match kw.MISSING with
  | none => 0
  | some missingPar => missingPar.getD 0 0

/-- The grid `qgrid3_fun` works on, from its parameters and keywords (lines 563-625).  A
negative count runs no iteration of its loop, as the count `0` does. -/
def grid_setup (points : List Vec3) (func : List ℚ) (tetra_list : List ℤ) (n_tetra : ℕ)
    (kw : GridKeywords) : Except GridError GridInput :=
  match read_dimension kw with
  | .error e => .error e
  | .ok res_dim_vec =>
    match read_start kw (box_limits points).1 with
    | .error e => .error e
    | .ok start_coord =>
      match read_delta kw (box_limits points).2 start_coord res_dim_vec with
      | .error e => .error e
      | .ok delta =>
        .ok { points := points, func := func, tetra_list := tetra_list, n_tetra := n_tetra,
              res_dim_vec := fun c => (res_dim_vec.getD c 0).toNat,
              start_coord := fun c => start_coord.getD c 0,
              delta := fun c => delta.getD c 0,
              missing := read_missing kw }

/-- Source `qgrid3_fun` with its keywords: the grid is set up, then the loops run. -/
def qgrid3_fun_kw (points : List Vec3) (func : List ℚ) (tetra_list : List ℤ) (n_tetra : ℕ)
    (kw : GridKeywords) : Except GridError (List ℚ) :=
  match grid_setup points func tetra_list n_tetra kw with
  | .error e => .error e
  | .ok g => .ok (qgrid3_fun g)

/-- No keyword present. -/
def gkw_none : GridKeywords := { DIMENSION := none, START := none, DELTA := none, MISSING := none }

/-- Only `DIMENSION = [2, 2, 2]` is present: origin and spacing take their defaults. -/
def gkw_dimension : GridKeywords := { gkw_none with DIMENSION := some [2, 2, 2] }

/-- An engine that reports the four facets of `q_sample`, two of them not good, and nothing
else, whatever it is given. -/
def engine_sample : QhullEngine := fun _ _ _ _ =>
  { q_sample with vertexCount := 0, vertexList := [], centers := [], normsPars := [],
                  normsVertId := [], fvInts := [] }

/-- The state of the serialization loop of `conn_serialize` after `n` iterations. -/
def serial_state_at (np connCount : ℕ) (connV : List (List ℤ)) (n : ℕ) : SerialState :=
  let conn := (List.replicate (np + 1 + connCount) (0 : ℤ)).set np ((np + 1 + connCount : ℕ) : ℤ)
  (List.range n).foldl (serial_step connV) { conn := conn, writeIx := np + 1 }

/-- The positions of `conn` assigned by iteration `i` of the serialization loop started in
state `s`: `writeIx + j` for `j = 0 .. neighborsV.size()-1` (line 261), then `i`
(line 262). -/
def serial_writes (connV : List (List ℤ)) (s : SerialState) (i : ℕ) : List ℕ :=
  ((List.range (connV.getD i []).length).map fun j => s.writeIx + j) ++ [i]

/-! ## `qhull` and `qgrid3_fun`: coordinates given as separate arrays
(qhull.cpp, lines 106-126 and 546-560) -/

/-- Modelled from the spec: the array type `DDoubleGDL` is declared outside `src/`.  It is
a flat buffer (`data`, first dimension running fastest) together with the list of its
dimensions; a scalar has no dimension. -/
structure DDoubleGDL where
  dim : List ℕ
  data : List DDouble

/-- Modelled from the spec: `Dim(i)` is the extent of dimension `i`, and `0` when the array
has no dimension `i`. -/
def DDoubleGDL.Dim (a : DDoubleGDL) (i : ℕ) : ℕ := a.dim.getD i 0

/-- The constructor call `new DDoubleGDL(dimension(d0, d1), BaseGDL::ZERO)`: a zero-filled
`d0 x d1` array. -/
def DDoubleGDL.zero (d0 d1 : ℕ) : DDoubleGDL :=
  { dim := [d0, d1], data := List.replicate (d0 * d1) (.finite 0) }

/-- An argument that is an array: it has at least one dimension, no dimension is empty, and
the buffer holds one element per index. -/
def DDoubleGDL.isArray (a : DDoubleGDL) : Prop :=
  a.dim ≠ [] ∧ (∀ d ∈ a.dim, 1 ≤ d) ∧ a.data.length = a.dim.prod

/-- The copy loop of lines 122 and 558: `(*p0)[i+j*n] = (*par)[j]` for `j = 0 .. inDim-1`,
`n` being the number of coordinate arrays. -/
def copy_column (n inDim : ℕ) (par : DDoubleGDL) (i : ℕ) (p0 : List DDouble) : List DDouble :=
  (List.range inDim).foldl (fun p0 j => p0.set (i + j * n) (par.data.getD j (.finite 0))) p0

/-- Body of the loop over the coordinate arrays (lines 116-123 and 552-559): the check
`par->Dim(0) != inDim || par->Dim(1) != 0` ends the call (`none`), otherwise array `i` is
copied. -/
def separate_step (pars : List DDoubleGDL) (inDim : ℕ) (p0 : Option (List DDouble)) (i : ℕ) :
    Option (List DDouble) :=
  p0.bind fun p0 =>
    let par := pars.getD i ⟨[], []⟩
    if par.Dim 0 ≠ inDim ∨ par.Dim 1 ≠ 0 then none
    else some (copy_column pars.length inDim par i p0)

/-- The matrix built from the coordinate arrays `pars` (lines 111-124 and 549-560):
`inDim` is `Dim(0)` of the first one, `p0` starts as a zero-filled `n x inDim` array, and
the arrays are checked and copied in order.  `none` is the `e->Throw` of the check. -/
def separate_arrays (pars : List DDoubleGDL) : Option DDoubleGDL :=
  let inDim := (pars.getD 0 ⟨[], []⟩).Dim 0
  let p0 := DDoubleGDL.zero pars.length inDim
  ((List.range pars.length).foldl (separate_step pars inDim) (some p0.data)).map
    fun data => { p0 with data := data }

/-- The point matrix `p0` of `qhull` from its positional arguments other than the output
(lines 108-125): the argument itself when there is one, the matrix built from the
coordinate arrays otherwise. -/
def qhull_normalize (pars : List DDoubleGDL) : Except QhullError DDoubleGDL :=
  if pars.length = 1 then .ok (pars.getD 0 ⟨[], []⟩)
  else
    match separate_arrays pars with
    | none => .error .separated_arrays
    | some p0 => .ok p0

/-- Source `qhull` (lines 76-443) on its positional arguments: the two keyword checks of
lines 102 and 104, the point matrix, then the checks on the matrix, the engine call and the
results. -/
def qhull_call (kw : QhullKeywords) (pars : List DDoubleGDL) (engine : QhullEngine) :
    Except QhullError QhullOutput :=
  if kw.CONNECTIVITY && !isDelaunay kw.DELAUNAY kw.isVoronoi then
    .error .connectivity_requires_delaunay
  else if kw.SPHERE then .error .sphere_not_implemented
  else
    match qhull_normalize pars with
    | .error e => .error e
    | .ok p0 => qhull kw (p0.Dim 0) (p0.Dim 1) p0.data engine

/-- The text of the error raised at line 556, in `qgrid3_fun`, by the same check on its
three coordinate arrays. -/
def qgrid3_separated_text : String :=
  "separated input arrays must have same length and be 1 dimensional"

/-- The point matrix `p0` of `qgrid3_fun` from three coordinate arrays (lines 549-560), or
the text of the error raised. -/
def qgrid3_normalize (x y z : DDoubleGDL) : Except String DDoubleGDL :=
  match separate_arrays [x, y, z] with
  | none => .error qgrid3_separated_text
  | some p0 => .ok p0

/-- Three coordinate arrays of four points each. -/
def xyz_sample : List DDoubleGDL :=
  [ ⟨[4], [.finite 0, .finite 1, .finite 0, .finite 0]⟩,
    ⟨[4], [.finite 0, .finite 0, .finite 1, .finite 0]⟩,
    ⟨[4], [.finite 0, .finite 0, .finite 0, .finite 1]⟩ ]

/-! ## Double precision

The sub-functions of `qgrid3` are templates instantiated at `T = double`, and the grid loop
of `qgrid3_fun` computes in `double`.  This section embeds them with every arithmetic
operation rounded once to binary64 (round to nearest, ties to even, subnormal numbers
included).  A `double` is an `Option ℚ`: `some x` is the finite value `x`, and `none`
stands for every value that is not finite (an infinity or a NaN).  An operation with an
operand that is not finite, a quotient by zero, and an operation whose rounded result
overflows all give `none`; a computation that reaches a comparison with such a value has
the result `none` as a whole.  Comparisons of finite values are exact, so `box_limits`,
`is_outside_of_box`, `is_neg` and `no_neg` are used as they are (a negative zero compares
as zero). -/

/-- With enough `fuel`, the integer part of the binary logarithm of `n >= 1`. -/
def log2_fuel : ℕ → ℕ → ℕ
  | 0, _ => 0
  | fuel + 1, n => if n < 2 then 0 else log2_fuel fuel (n / 2) + 1

/-- The exponent `e` of a positive rational `a`: `2^e <= a < 2^(e+1)`. -/
def floor_log2 (a : ℚ) : ℤ :=
  let e0 : ℤ := (log2_fuel a.num.natAbs a.num.natAbs : ℤ) - (log2_fuel a.den a.den : ℤ)
  if (if 0 ≤ e0 then decide (a.den * 2 ^ e0.toNat ≤ a.num.natAbs)
      else decide (a.den ≤ a.num.natAbs * 2 ^ (-e0).toNat)) then e0 else e0 - 1

/-- The integer nearest to `n / d`, the even one of the two on a tie. -/
def round_half_even (n : ℤ) (d : ℕ) : ℤ :=
  let q := n / d
  let r := n % d
  if 2 * r < d then q
  else if 2 * r > d then q + 1
  else if q % 2 = 0 then q else q + 1

/-- Rounding to binary64 with the exponent range unbounded above: the nearest multiple of
`2^(e - 52)`, ties to even, where `e` is the exponent of `x` and at least `-1022` (below
`2^-1022` the spacing is that of the subnormal numbers, `2^-1074`). -/
def round_double (x : ℚ) : ℚ :=
  if x = 0 then 0
  else
    let e := max (floor_log2 |x|) (-1022)
    let q := e - 52
    if 0 ≤ q then
      ((round_half_even x.num (x.den * 2 ^ q.toNat) * 2 ^ q.toNat : ℤ) : ℚ)
    else
      ((round_half_even (x.num * 2 ^ (-q).toNat) x.den : ℤ) : ℚ) / ((2 ^ (-q).toNat : ℕ) : ℚ)

/-- The `double` result of an operation whose exact result is `x`: the rounded value, or
`none` when it overflows (magnitude `2^1024` or more after rounding). -/
def to_double (x : ℚ) : Option ℚ :=
  if |round_double x| < ((2 ^ 1024 : ℕ) : ℚ) then some (round_double x) else none

/-- The operation `a + b` on `double`. -/
def double_add (a b : Option ℚ) : Option ℚ :=
  match a, b with
  | some x, some y => to_double (x + y)
  | _, _ => none

/-- The operation `a - b` on `double`. -/
def double_sub (a b : Option ℚ) : Option ℚ :=
  match a, b with
  | some x, some y => to_double (x - y)
  | _, _ => none

/-- The operation `a * b` on `double`. -/
def double_mul (a b : Option ℚ) : Option ℚ :=
  match a, b with
  | some x, some y => to_double (x * y)
  | _, _ => none

/-- The operation `a / b` on `double`; a quotient by zero is an infinity or a NaN. -/
def double_div (a b : Option ℚ) : Option ℚ :=
  match a, b with
  | some x, some y => if y = 0 then none else to_double (x / y)
  | _, _ => none

/-- A `vector<double>` with three coordinates. -/
abbrev DVec3 := Fin 3 → Option ℚ

/-- A vector of finite coordinates as a `vector<double>`. -/
def Vec3.toDouble (v : Vec3) : DVec3 := fun j => some (v j)

/-- The elements of a `vector<double>` when all of them are finite. -/
def all_finite : List (Option ℚ) → Option (List ℚ)
  | [] => some []
  | x :: rest =>
    match x, all_finite rest with
    | some v, some vs => some (v :: vs)
    | _, _ => none

/-- Source `cross_prod` (lines 447-451) at `T = double`. -/
def cross_prod_double (a b : DVec3) : DVec3 :=
  ![double_sub (double_mul (a 1) (b 2)) (double_mul (a 2) (b 1)),
    double_sub (double_mul (b 0) (a 2)) (double_mul (a 0) (b 2)),
    double_sub (double_mul (a 0) (b 1)) (double_mul (a 1) (b 0))]

/-- Source `dot_prod3d` (lines 453-457) at `T = double`: the sum is taken left to right. -/
def dot_prod3d_double (a b : DVec3) : Option ℚ :=
  double_add (double_add (double_mul (a 0) (b 0)) (double_mul (a 1) (b 1)))
    (double_mul (a 2) (b 2))

/-- Source `scalar_triple_prod` (lines 459-463) at `T = double`. -/
def scalar_triple_prod_double (a b c : DVec3) : Option ℚ :=
  dot_prod3d_double a (cross_prod_double b c)

/-- Source `vector_substract` (lines 465-469) at `T = double`. -/
def vector_substract_double (a b : DVec3) : DVec3 :=
  ![double_sub (a 0) (b 0), double_sub (a 1) (b 1), double_sub (a 2) (b 2)]

/-- Source `bary_tet` (lines 485-505) at `T = double`. -/
def bary_tet_double (a b c d p : DVec3) : List (Option ℚ) :=
  let vap := vector_substract_double p a
  let vbp := vector_substract_double p b
  let vab := vector_substract_double b a
  let vac := vector_substract_double c a
  let vad := vector_substract_double d a
  let vbc := vector_substract_double c b
  let vbd := vector_substract_double d b
  let va6 := scalar_triple_prod_double vbp vbd vbc
  let vb6 := scalar_triple_prod_double vap vac vad
  let vc6 := scalar_triple_prod_double vap vad vab
  let vd6 := scalar_triple_prod_double vap vab vac
  let v6 := double_div (some 1) (scalar_triple_prod_double vab vac vad)
  [double_mul va6 v6, double_mul vb6 v6, double_mul vc6 v6, double_mul vd6 v6]

/-- Barycentric coordinates of `coord` in tetrahedron `tIx` as the loop computes them
(lines 658-660 and 676-681), or `none` when one of them is not finite. -/
def tetra_bary_double (g : GridInput) (tIx : ℕ) (coord : Vec3) : Option (List ℚ) :=
  let tetrahedron := (tetra_data g).getD tIx []
  all_finite (bary_tet_double (tetrahedron.getD 0 0).toDouble (tetrahedron.getD 1 0).toDouble
    (tetrahedron.getD 2 0).toDouble (tetrahedron.getD 3 0).toDouble coord.toDouble)

/-- The accumulation `interp_value += bary_coord[vIx] * func[vertices[vIx]]` of lines
664-665 and 687-688 in `double`: one rounded product and one rounded sum per vertex. -/
def interp_value_double (bary_coord : List ℚ) (func : List ℚ) (vertices : List ℤ) : Option ℚ :=
  (List.range 4).foldl
    (fun acc vIx => double_add acc
      (double_mul (some (bary_coord.getD vIx 0)) (some (func.getD (vertices.getD vIx 0).toNat 0))))
    (some 0)

/-- The scan of lines 673-693 in `double`.  The outer `none` is a run that meets a value
that is not finite; `some none` is the case `isInHull == false`. -/
def scan_double (g : GridInput) (coord : Vec3) : List ℕ → Option (Option (ℕ × ℚ))
  | [] => some none
  | tIx :: rest =>
    let vertices := tetra_vertices g.tetra_list tIx
    let tetrahedron := (tetra_data g).getD tIx []
    let tetra_box := box_limits tetrahedron
    if is_outside_of_box tetra_box.1 tetra_box.2 coord then scan_double g coord rest
    else
      match tetra_bary_double g tIx coord with
      | none => none
      | some bary_coord =>
        if no_neg bary_coord then
          (interp_value_double bary_coord g.func vertices).map fun v => some (tIx, v)
        else scan_double g coord rest

/-- The scan in `double` with lines 677-679 (the bounding-box rejection) left out, for
comparison with `scan_double`. -/
def scan_without_box_double (g : GridInput) (coord : Vec3) : List ℕ → Option (Option (ℕ × ℚ))
  | [] => some none
  | tIx :: rest =>
    let vertices := tetra_vertices g.tetra_list tIx
    match tetra_bary_double g tIx coord with
    | none => none
    | some bary_coord =>
      if no_neg bary_coord then
        (interp_value_double bary_coord g.func vertices).map fun v => some (tIx, v)
      else scan_without_box_double g coord rest

/-- Point location for one cell (lines 656-693) in `double`: the last-hit check, then the
scan. -/
def locate_double (g : GridInput) (last_tetra : ℕ) (coord : Vec3) : Option (Option (ℕ × ℚ)) :=
  let l_vertices := tetra_vertices g.tetra_list last_tetra
  match tetra_bary_double g last_tetra coord with
  | none => none
  | some l_bary_coord =>
    if no_neg l_bary_coord then
      (interp_value_double l_bary_coord g.func l_vertices).map fun v => some (last_tetra, v)
    else scan_double g coord (List.range g.n_tetra)

/-- The statement `coord[c] += delta[c]` in `double`. -/
def advance_double (g : GridInput) (c : Fin 3) (coord : Vec3) : Option Vec3 :=
  (double_add (some (coord c)) (some (g.delta c))).map fun x => Function.update coord c x

/-- Body of the innermost loop (lines 647-696) in `double`; `cell_step` with the point
location and the advance of `coord[2]` computed in `double`. -/
def cell_step_double (g : GridInput) (i j k : ℕ) (s : GridState) : Option GridState :=
  if is_outside_of_box (min_coord g) (max_coord g) s.coord then
    some { s with res := s.res.set (res_index g i j k) g.missing }
  else
    match locate_double g s.last_tetra s.coord with
    | none => none
    | some (some (tIx, v)) =>
      (advance_double g 2 s.coord).map fun coord =>
        { coord := coord, last_tetra := tIx, res := s.res.set (res_index g i j k) v }
    | some none =>
      (advance_double g 2 s.coord).map fun coord =>
        { coord := coord, last_tetra := s.last_tetra,
          res := s.res.set (res_index g i j k) g.missing }

/-- The innermost loop in `double`, run for `k = 0 .. n-1`. -/
def k_loop_double (g : GridInput) (i j n : ℕ) (s : Option GridState) : Option GridState :=
  (List.range n).foldl (fun s k => s.bind (cell_step_double g i j k)) s

/-- Body of the middle loop (lines 644-698) in `double`. -/
def j_step_double (g : GridInput) (i j : ℕ) (s : GridState) : Option GridState :=
  (k_loop_double g i j (g.res_dim_vec 2) (some (j_enter g s))).bind fun s2 =>
    (advance_double g 1 s2.coord).map fun coord => { s2 with coord := coord }

/-- The middle loop in `double`, run for `j = 0 .. n-1`. -/
def j_loop_double (g : GridInput) (i n : ℕ) (s : Option GridState) : Option GridState :=
  (List.range n).foldl (fun s j => s.bind (j_step_double g i j)) s

/-- Body of the outer loop (lines 642-700) in `double`. -/
def i_step_double (g : GridInput) (i : ℕ) (s : GridState) : Option GridState :=
  (j_loop_double g i (g.res_dim_vec 1) (some (i_enter g s))).bind fun s2 =>
    (advance_double g 0 s2.coord).map fun coord => { s2 with coord := coord }

/-- The outer loop in `double`, run for `i = 0 .. n-1`. -/
def i_loop_double (g : GridInput) (n : ℕ) (s : Option GridState) : Option GridState :=
  (List.range n).foldl (fun s i => s.bind (i_step_double g i)) s

/-- Source `qgrid3_fun`, from line 636 on, in `double`: the returned buffer, or `none` for
a run that meets a value that is not finite. -/
def qgrid3_fun_double (g : GridInput) : Option (List ℚ) :=
  (i_loop_double g (g.res_dim_vec 0) (some (init_state g))).map fun s => s.res

/-- The `double` nearest to `1/10`, the value of the literal `0.1`. -/
def d01 : ℚ := round_double (1 / 10)

/-- The `double` nearest to `4/5`, the value of the literal `0.8`. -/
def d08 : ℚ := round_double (4 / 5)

/-- The smallest positive `double`, `2^-1074`. -/
def d_min : ℚ := 1 / ((2 ^ 1074 : ℕ) : ℚ)

/-- One tetrahedron, the unit corner, with the field `z` at its vertices, and a grid of one
cell at `START = [0.1, 0.1, 0.8]`; `MISSING = -1`. -/
def g_round : GridInput :=
  { points := [![0, 0, 0], ![1, 0, 0], ![0, 1, 0], ![0, 0, 1]],
    func := [0, 0, 0, 1], tetra_list := [0, 1, 2, 3], n_tetra := 1,
    res_dim_vec := ![1, 1, 1], start_coord := ![d01, d01, d08], delta := ![0, 0, 0],
    missing := -1 }

/-- The unit corner with the affine field `x + 2y + 3z` at its vertices, and a grid of one
cell at `START = [0.1, 0.1, 0.1]`; `MISSING = -1`. -/
def g_affine : GridInput :=
  { points := [![0, 0, 0], ![1, 0, 0], ![0, 1, 0], ![0, 0, 1]],
    func := [0, 1, 2, 3], tetra_list := [0, 1, 2, 3], n_tetra := 1,
    res_dim_vec := ![1, 1, 1], start_coord := ![d01, d01, d01], delta := ![0, 0, 0],
    missing := -1 }

/-- Two tetrahedra, `(0,0,0), (1,0,0), (0,1/2,0), (0,0,1/2)` and its neighbour with apex
`(1,1,1)`, with a grid of one cell at `START = [-2^-1074, 0, 0]`. -/
def g_tiny : GridInput :=
  { points := [![0, 0, 0], ![1, 0, 0], ![0, 1/2, 0], ![0, 0, 1/2], ![1, 1, 1]],
    func := [0, 0, 0, 0, 0], tetra_list := [0, 1, 2, 3, 1, 2, 3, 4], n_tetra := 2,
    res_dim_vec := ![1, 1, 1], start_coord := ![-d_min, 0, 0], delta := ![0, 0, 0],
    missing := -1 }

/-! ## The output position in 32-bit arithmetic -/

/-- The value of an `int` operation whose exact result is `x`: the result modulo `2^32` in
the range `-2^31 .. 2^31 - 1`.  (Signed overflow is undefined behaviour in the source
language; this is the two's-complement result.) -/
def wrap_int32 (x : ℤ) : ℤ := (x + 2147483648) % 4294967296 - 2147483648

/-- The position `res_index = i + j*res_dim_vec[0] + k*res_dim_vec[0]*res_dim_vec[1]` of
line 649 as computed there, in `int`: the products and sums are taken left to right, each
one an `int` operation. -/
def res_index_int32 (g : GridInput) (i j k : ℕ) : ℤ :=
  wrap_int32
    (wrap_int32 ((i : ℤ) + wrap_int32 ((j : ℤ) * (g.res_dim_vec 0 : ℤ)))
      + wrap_int32 (wrap_int32 ((k : ℤ) * (g.res_dim_vec 0 : ℤ)) * (g.res_dim_vec 1 : ℤ)))

/-- The tetrahedra of `g_two` with `DIMENSION = [1300, 1300, 1300]`. -/
def g_large : GridInput := { g_two with res_dim_vec := ![1300, 1300, 1300] }

/-! ## Barycentric coordinates -/

theorem stp_affine (x y q u v : Vec3) (s t : ℚ) (hst : s + t = 1) :
    scalar_triple_prod (vector_substract (s • x + t • y) q) u v
      = s * scalar_triple_prod (vector_substract x q) u v
        + t * scalar_triple_prod (vector_substract y q) u v := by
  obtain rfl : t = 1 - s := by linarith
  simp [scalar_triple_prod, dot_prod3d, cross_prod, vector_substract]
  ring

theorem bary_tet_forall (a b c d p : Vec3) (P : ℚ → Prop) :
    (∀ x ∈ bary_tet a b c d p, P x) ↔
      P (scalar_triple_prod (vector_substract p b) (vector_substract d b) (vector_substract c b)
          * (1 / scalar_triple_prod (vector_substract b a) (vector_substract c a) (vector_substract d a))) ∧
      P (scalar_triple_prod (vector_substract p a) (vector_substract c a) (vector_substract d a)
          * (1 / scalar_triple_prod (vector_substract b a) (vector_substract c a) (vector_substract d a))) ∧
      P (scalar_triple_prod (vector_substract p a) (vector_substract d a) (vector_substract b a)
          * (1 / scalar_triple_prod (vector_substract b a) (vector_substract c a) (vector_substract d a))) ∧
      P (scalar_triple_prod (vector_substract p a) (vector_substract b a) (vector_substract c a)
          * (1 / scalar_triple_prod (vector_substract b a) (vector_substract c a) (vector_substract d a))) := by
  simp [bary_tet]

theorem bary_sum (a b c d p : Vec3)
    (h : scalar_triple_prod (vector_substract b a) (vector_substract c a) (vector_substract d a) ≠ 0) :
    (bary_tet a b c d p).sum = 1 := by
  have key : scalar_triple_prod (vector_substract p b) (vector_substract d b) (vector_substract c b)
      + scalar_triple_prod (vector_substract p a) (vector_substract c a) (vector_substract d a)
      + scalar_triple_prod (vector_substract p a) (vector_substract d a) (vector_substract b a)
      + scalar_triple_prod (vector_substract p a) (vector_substract b a) (vector_substract c a)
      = scalar_triple_prod (vector_substract b a) (vector_substract c a) (vector_substract d a) := by
    simp [scalar_triple_prod, dot_prod3d, cross_prod, vector_substract]
    ring
  simp only [bary_tet, List.sum_cons, List.sum_nil, add_zero]
  rw [← add_mul, ← add_mul, ← add_mul, one_div, ← add_assoc, ← add_assoc, key]
  exact mul_inv_cancel₀ h

theorem bary_convex (a b c d : Vec3) :
    Convex ℚ {p : Vec3 | ∀ x ∈ bary_tet a b c d p, 0 ≤ x} := by
  intro x hx y hy s t hs ht hst
  simp only [Set.mem_setOf_eq, bary_tet_forall] at hx hy ⊢
  obtain ⟨hx1, hx2, hx3, hx4⟩ := hx
  obtain ⟨hy1, hy2, hy3, hy4⟩ := hy
  simp only [stp_affine _ _ _ _ _ s t hst, add_mul, mul_assoc]
  exact ⟨add_nonneg (mul_nonneg hs hx1) (mul_nonneg ht hy1),
    add_nonneg (mul_nonneg hs hx2) (mul_nonneg ht hy2),
    add_nonneg (mul_nonneg hs hx3) (mul_nonneg ht hy3),
    add_nonneg (mul_nonneg hs hx4) (mul_nonneg ht hy4)⟩

theorem bary_vertices (a b c d : Vec3)
    (h : scalar_triple_prod (vector_substract b a) (vector_substract c a) (vector_substract d a) ≠ 0) :
    bary_tet a b c d a = [1, 0, 0, 0] ∧ bary_tet a b c d b = [0, 1, 0, 0] ∧
    bary_tet a b c d c = [0, 0, 1, 0] ∧ bary_tet a b c d d = [0, 0, 0, 1] := by
  have hD : scalar_triple_prod (vector_substract b a) (vector_substract c a) (vector_substract d a)
      * (1 / scalar_triple_prod (vector_substract b a) (vector_substract c a) (vector_substract d a)) = 1 := by
    rw [one_div]; exact mul_inv_cancel₀ h
  have e1 : scalar_triple_prod (vector_substract a b) (vector_substract d b) (vector_substract c b)
      = scalar_triple_prod (vector_substract b a) (vector_substract c a) (vector_substract d a) := by
    simp [scalar_triple_prod, dot_prod3d, cross_prod, vector_substract]; ring
  have e2 : scalar_triple_prod (vector_substract c a) (vector_substract d a) (vector_substract b a)
      = scalar_triple_prod (vector_substract b a) (vector_substract c a) (vector_substract d a) := by
    simp [scalar_triple_prod, dot_prod3d, cross_prod, vector_substract]; ring
  have e3 : scalar_triple_prod (vector_substract d a) (vector_substract b a) (vector_substract c a)
      = scalar_triple_prod (vector_substract b a) (vector_substract c a) (vector_substract d a) := by
    simp [scalar_triple_prod, dot_prod3d, cross_prod, vector_substract]; ring
  have z1 : ∀ u v : Vec3, scalar_triple_prod u u v = 0 := by
    intro u v
    simp [scalar_triple_prod, dot_prod3d, cross_prod]; ring
  have z2 : ∀ u v : Vec3, scalar_triple_prod u v u = 0 := by
    intro u v
    simp [scalar_triple_prod, dot_prod3d, cross_prod]; ring
  have z3 : ∀ u v w : Vec3, scalar_triple_prod (vector_substract w w) u v = 0 := by
    intro u v w
    simp [scalar_triple_prod, dot_prod3d, cross_prod, vector_substract]
  refine ⟨?_, ?_, ?_, ?_⟩
  · simp only [bary_tet, e1, hD, z3, zero_mul]
  · simp only [bary_tet, hD, z1, z2, z3, zero_mul]
  · simp only [bary_tet, e2, hD, z1, z2, z3, zero_mul]
  · simp only [bary_tet, e3, hD, z1, z2, z3, zero_mul]

/-- Cramer's rule: with a non-zero volume the point is the combination of the four
vertices weighted by its barycentric coordinates. -/
theorem bary_combination (a b c d p : Vec3)
    (h : scalar_triple_prod (vector_substract b a) (vector_substract c a) (vector_substract d a) ≠ 0) :
    p = (bary_tet a b c d p).getD 0 0 • a + (bary_tet a b c d p).getD 1 0 • b
        + (bary_tet a b c d p).getD 2 0 • c + (bary_tet a b c d p).getD 3 0 • d := by
  have hD : (b 0 - a 0) * ((c 1 - a 1) * (d 2 - a 2) - (c 2 - a 2) * (d 1 - a 1))
      + (b 1 - a 1) * ((d 0 - a 0) * (c 2 - a 2) - (c 0 - a 0) * (d 2 - a 2))
      + (b 2 - a 2) * ((c 0 - a 0) * (d 1 - a 1) - (c 1 - a 1) * (d 0 - a 0)) ≠ 0 := by
    simpa [scalar_triple_prod, dot_prod3d, cross_prod, vector_substract] using h
  funext j
  fin_cases j <;>
  · simp [bary_tet, scalar_triple_prod, dot_prod3d, cross_prod, vector_substract]
    field_simp
    ring

theorem convex_comb4_mem {S : Set Vec3} (hS : Convex ℚ S) {a b c d : Vec3}
    (ha : a ∈ S) (hb : b ∈ S) (hc : c ∈ S) (hd : d ∈ S) {w0 w1 w2 w3 : ℚ}
    (h0 : 0 ≤ w0) (h1 : 0 ≤ w1) (h2 : 0 ≤ w2) (h3 : 0 ≤ w3) (hsum : w0 + w1 + w2 + w3 = 1) :
    w0 • a + w1 • b + w2 • c + w3 • d ∈ S := by
  have key := hS.sum_mem (t := (Finset.univ : Finset (Fin 4)))
    (w := ![w0, w1, w2, w3]) (z := ![a, b, c, d])
    (by intro i _; fin_cases i <;> simpa)
    (by simpa [Fin.sum_univ_four] using hsum)
    (by intro i _; fin_cases i <;> simpa)
  simpa [Fin.sum_univ_four] using key

/-- A point whose barycentric coordinates are all non-negative lies in every convex set
that holds the four vertices. -/
theorem bary_nonneg_mem_convex {S : Set Vec3} (hS : Convex ℚ S) (a b c d p : Vec3)
    (h : scalar_triple_prod (vector_substract b a) (vector_substract c a) (vector_substract d a) ≠ 0)
    (ha : a ∈ S) (hb : b ∈ S) (hc : c ∈ S) (hd : d ∈ S)
    (hx : ∀ x ∈ bary_tet a b c d p, 0 ≤ x) : p ∈ S := by
  rw [bary_combination a b c d p h]
  have hs := bary_sum a b c d p h
  rw [bary_tet_forall] at hx
  obtain ⟨hx0, hx1, hx2, hx3⟩ := hx
  refine convex_comb4_mem hS ha hb hc hd ?_ ?_ ?_ ?_ ?_
  · simpa [bary_tet] using hx0
  · simpa [bary_tet] using hx1
  · simpa [bary_tet] using hx2
  · simpa [bary_tet] using hx3
  · simpa [bary_tet, add_assoc] using hs

theorem vertices_subset_nonneg (a b c d : Vec3)
    (h : scalar_triple_prod (vector_substract b a) (vector_substract c a) (vector_substract d a) ≠ 0) :
    ({a, b, c, d} : Set Vec3) ⊆ {p : Vec3 | ∀ x ∈ bary_tet a b c d p, 0 ≤ x} := by
  obtain ⟨h1, h2, h3, h4⟩ := bary_vertices a b c d h
  intro q hq
  simp only [Set.mem_insert_iff, Set.mem_singleton_iff] at hq
  rcases hq with rfl | rfl | rfl | rfl
  · simp [h1]
  · simp [h2]
  · simp [h3]
  · simp [h4]

/-- C1: for a tetrahedron `(a, b, c, d)` of non-zero volume
(`scalar_triple_prod(b-a, c-a, d-a) != 0`) and every query point `p`, the four coordinates
returned by `bary_tet(a, b, c, d, p)` sum to exactly `1`. -/
theorem bary_tet_sum_eq_one (a b c d p : Vec3)
    (h : scalar_triple_prod (vector_substract b a) (vector_substract c a)
      (vector_substract d a) ≠ 0) :
    (bary_tet a b c d p).length = 4 ∧ (bary_tet a b c d p).sum = 1 :=
  ⟨rfl, bary_sum a b c d p h⟩

theorem bary_tet_sum_eq_one_witness :
    scalar_triple_prod (vector_substract ![1, 0, 0] ![0, 0, 0])
        (vector_substract ![0, 1, 0] ![0, 0, 0]) (vector_substract ![0, 0, 1] ![0, 0, 0]) ≠ 0 ∧
      (bary_tet ![0, 0, 0] ![1, 0, 0] ![0, 1, 0] ![0, 0, 1] ![2, 3, -1]).length = 4 ∧
      (bary_tet ![0, 0, 0] ![1, 0, 0] ![0, 1, 0] ![0, 0, 1] ![2, 3, -1]).sum = 1 :=
  ⟨by decide!, bary_tet_sum_eq_one _ _ _ _ _ (by decide!)⟩

/-- C2, amended: in exact arithmetic (the operations of `bary_tet` carried out without
rounding), for a non-degenerate tetrahedron `(a, b, c, d)` and every point `p`, all four
coordinates returned by `bary_tet(a, b, c, d, p)` are `>= 0` if and only if `p` lies in the
closed tetrahedron, the convex hull of `{a, b, c, d}`. -/
theorem bary_tet_nonneg_iff_mem_convexHull (a b c d p : Vec3)
    (h : scalar_triple_prod (vector_substract b a) (vector_substract c a)
      (vector_substract d a) ≠ 0) :
    (∀ x ∈ bary_tet a b c d p, 0 ≤ x) ↔ p ∈ convexHull ℚ ({a, b, c, d} : Set Vec3) := by
  constructor
  · intro hx
    exact bary_nonneg_mem_convex (convex_convexHull ℚ _) a b c d p h
      (subset_convexHull ℚ _ (by simp)) (subset_convexHull ℚ _ (by simp))
      (subset_convexHull ℚ _ (by simp)) (subset_convexHull ℚ _ (by simp)) hx
  · intro hp
    exact convexHull_min (vertices_subset_nonneg a b c d h) (bary_convex a b c d) hp

theorem bary_tet_nonneg_iff_mem_convexHull_witness :
    scalar_triple_prod (vector_substract ![1, 0, 0] ![0, 0, 0])
        (vector_substract ![0, 1, 0] ![0, 0, 0]) (vector_substract ![0, 0, 1] ![0, 0, 0]) ≠ 0 ∧
      ((∀ x ∈ bary_tet ![0, 0, 0] ![1, 0, 0] ![0, 1, 0] ![0, 0, 1] ![1/4, 1/4, 1/4], 0 ≤ x) ↔
        (![1/4, 1/4, 1/4] : Vec3) ∈
          convexHull ℚ ({![0, 0, 0], ![1, 0, 0], ![0, 1, 0], ![0, 0, 1]} : Set Vec3)) :=
  ⟨by decide!, bary_tet_nonneg_iff_mem_convexHull _ _ _ _ _ (by decide!)⟩

/-! ## Bounding boxes and point location -/

theorem box_fold_bounds (pts : List Vec3) (mm : Vec3 × Vec3) (j : Fin 3) :
    (pts.foldl box_update mm).1 j ≤ mm.1 j ∧ mm.2 j ≤ (pts.foldl box_update mm).2 j ∧
      ∀ q ∈ pts, (pts.foldl box_update mm).1 j ≤ q j ∧ q j ≤ (pts.foldl box_update mm).2 j := by
  induction pts generalizing mm with
  | nil => simp
  | cons p rest ih =>
    obtain ⟨h1, h2, h3⟩ := ih (box_update mm p)
    have hmin : (box_update mm p).1 j ≤ mm.1 j ∧ (box_update mm p).1 j ≤ p j := by
      simp only [box_update]
      split_ifs with hlt
      · exact ⟨le_of_lt hlt, le_refl _⟩
      · exact ⟨le_refl _, not_lt.mp hlt⟩
    have hmax : mm.2 j ≤ (box_update mm p).2 j ∧ p j ≤ (box_update mm p).2 j := by
      simp only [box_update]
      split_ifs with hgt
      · exact ⟨le_of_lt hgt, le_refl _⟩
      · exact ⟨le_refl _, not_lt.mp hgt⟩
    simp only [List.foldl_cons]
    refine ⟨le_trans h1 hmin.1, le_trans hmax.1 h2, ?_⟩
    intro q hq
    rcases List.mem_cons.mp hq with rfl | hq
    · exact ⟨le_trans h1 hmin.2, le_trans hmax.2 h2⟩
    · exact h3 q hq

/-- Every point of the list lies between the two bounds returned by `box_limits`. -/
theorem box_limits_bounds (pts : List Vec3) (q : Vec3) (hq : q ∈ pts) (j : Fin 3) :
    (box_limits pts).1 j ≤ q j ∧ q j ≤ (box_limits pts).2 j :=
  (box_fold_bounds pts _ j).2.2 q hq

theorem box_convex (mn mx : Vec3) :
    Convex ℚ {p : Vec3 | ∀ j, mn j ≤ p j ∧ p j ≤ mx j} := by
  intro x hx y hy s t hs ht hst
  intro j
  obtain ⟨hx1, hx2⟩ := hx j
  obtain ⟨hy1, hy2⟩ := hy j
  simp only [Pi.add_apply, Pi.smul_apply, smul_eq_mul]
  constructor
  · calc mn j = s * mn j + t * mn j := by rw [← add_mul, hst, one_mul]
      _ ≤ s * x j + t * y j :=
        add_le_add (mul_le_mul_of_nonneg_left hx1 hs) (mul_le_mul_of_nonneg_left hy1 ht)
  · calc s * x j + t * y j ≤ s * mx j + t * mx j :=
        add_le_add (mul_le_mul_of_nonneg_left hx2 hs) (mul_le_mul_of_nonneg_left hy2 ht)
      _ = mx j := by rw [← add_mul, hst, one_mul]

theorem is_outside_of_box_eq_false (mn mx p : Vec3) :
    is_outside_of_box mn mx p = false ↔ ∀ j, mn j ≤ p j ∧ p j ≤ mx j := by
  simp only [is_outside_of_box, Bool.or_eq_false_iff, decide_eq_false_iff_not, not_lt, gt_iff_lt]
  constructor
  · rintro ⟨⟨⟨h1, h2⟩, h3, h4⟩, h5, h6⟩ j
    fin_cases j
    · exact ⟨h1, h2⟩
    · exact ⟨h3, h4⟩
    · exact ⟨h5, h6⟩
  · intro h
    exact ⟨⟨h 0, h 1⟩, h 2⟩

/-- Bounding-box rejection never rejects a containing tetrahedron: a point with four
non-negative barycentric coordinates lies in the box of the four vertices. -/
theorem bary_nonneg_inside_box (a b c d p : Vec3)
    (h : scalar_triple_prod (vector_substract b a) (vector_substract c a) (vector_substract d a) ≠ 0)
    (hx : ∀ x ∈ bary_tet a b c d p, 0 ≤ x) :
    is_outside_of_box (box_limits [a, b, c, d]).1 (box_limits [a, b, c, d]).2 p = false := by
  rw [is_outside_of_box_eq_false]
  exact bary_nonneg_mem_convex (box_convex _ _) a b c d p h
    (fun j => box_limits_bounds _ a (by simp) j) (fun j => box_limits_bounds _ b (by simp) j)
    (fun j => box_limits_bounds _ c (by simp) j) (fun j => box_limits_bounds _ d (by simp) j) hx

theorem no_neg_iff (v : List ℚ) : no_neg v = true ↔ ∀ x ∈ v, 0 ≤ x := by
  simp [no_neg, is_neg]

theorem tetra_data_getD (g : GridInput) (t : ℕ) (ht : t < g.n_tetra) :
    (tetra_data g).getD t [] =
      (tetra_vertices g.tetra_list t).map fun v => g.points.getD v.toNat 0 := by
  simp [tetra_data, List.getD_eq_getElem?_getD, List.getElem?_map, List.getElem?_range ht]

theorem tetra_data_getD_ge (g : GridInput) (t : ℕ) (ht : g.n_tetra ≤ t) :
    (tetra_data g).getD t [] = [] := by
  simp [tetra_data, List.getD_eq_getElem?_getD, List.getElem?_map, List.getElem?_eq_none, ht]

theorem lt_n_tetra_of_volume (g : GridInput) (t : ℕ) (h : tetra_volume6 g t ≠ 0) :
    t < g.n_tetra := by
  by_contra hlt
  apply h
  simp only [tetra_volume6, tetra_data_getD_ge g t (not_lt.mp hlt)]
  simp [scalar_triple_prod, dot_prod3d, cross_prod, vector_substract]

/-- The four vertices of tetrahedron `t`, as points. -/
theorem tetra_data_eq (g : GridInput) (t : ℕ) (ht : t < g.n_tetra) :
    (tetra_data g).getD t [] =
      [((tetra_data g).getD t []).getD 0 0, ((tetra_data g).getD t []).getD 1 0,
       ((tetra_data g).getD t []).getD 2 0, ((tetra_data g).getD t []).getD 3 0] := by
  rw [tetra_data_getD g t ht]
  simp [tetra_vertices]

theorem contains_inside_box (g : GridInput) (t : ℕ) (p : Vec3)
    (hnd : tetra_volume6 g t ≠ 0) (hin : contains g t p) :
    is_outside_of_box (box_limits ((tetra_data g).getD t [])).1
      (box_limits ((tetra_data g).getD t [])).2 p = false := by
  have ht := lt_n_tetra_of_volume g t hnd
  rw [tetra_data_eq g t ht]
  exact bary_nonneg_inside_box _ _ _ _ p hnd hin

theorem scan_unique (g : GridInput) (p : Vec3) (t : ℕ)
    (hnd : tetra_volume6 g t ≠ 0) (hin : contains g t p) (l : List ℕ) (ht : t ∈ l)
    (huniq : ∀ u ∈ l, u ≠ t → ¬ contains g u p) :
    (scan g p l).map Prod.fst = some t := by
  induction l with
  | nil => simp at ht
  | cons u rest ih =>
    by_cases hut : u = t
    · subst hut
      have hbox := contains_inside_box g u p hnd hin
      have hnn : no_neg (tetra_bary g u p) = true := (no_neg_iff _).mpr hin
      simp only [scan, hbox, hnn, Bool.false_eq_true, if_false, if_true, Option.map_some']
    · have hnn : no_neg (tetra_bary g u p) = false := by
        rw [← Bool.not_eq_true, no_neg_iff]
        exact huniq u (by simp) hut
      have ht' : t ∈ rest := by
        rcases List.mem_cons.mp ht with h | h
        · exact absurd h.symm hut
        · exact h
      have ih' := ih ht' (fun v hv => huniq v (List.mem_cons_of_mem _ hv))
      simp only [scan, hnn, Bool.false_eq_true, if_false]
      split_ifs
      · exact ih'
      · exact ih'

/-- Point location finds the tetrahedron that alone contains the point, whatever the cached
index. -/
theorem locate_unique (g : GridInput) (p : Vec3) (t : ℕ)
    (hnd : tetra_volume6 g t ≠ 0) (hin : contains g t p)
    (huniq : ∀ u < g.n_tetra, u ≠ t → ¬ contains g u p)
    (last : ℕ) (hlast : last < g.n_tetra) :
    (locate g last p).map Prod.fst = some t := by
  have ht := lt_n_tetra_of_volume g t hnd
  by_cases hl : last = t
  · subst hl
    have hnn : no_neg (tetra_bary g last p) = true := (no_neg_iff _).mpr hin
    simp only [locate, hnn, if_true, Option.map_some']
  · have hnn : no_neg (tetra_bary g last p) = false := by
      rw [← Bool.not_eq_true, no_neg_iff]
      exact huniq last hlast hl
    simp only [locate, hnn, Bool.false_eq_true, if_false]
    exact scan_unique g p t hnd hin _ (List.mem_range.mpr ht)
      (fun u hu => huniq u (List.mem_range.mp hu))

theorem tetra_data_perm (g g' : GridInput) (σ : Equiv.Perm (Fin g.n_tetra))
    (hpts : g'.points = g.points) (hn : g'.n_tetra = g.n_tetra)
    (hperm : ∀ u : Fin g.n_tetra,
      tetra_vertices g'.tetra_list u = tetra_vertices g.tetra_list (σ u))
    (u : Fin g.n_tetra) :
    (tetra_data g').getD u [] = (tetra_data g).getD (σ u) [] := by
  rw [tetra_data_getD g' u (by rw [hn]; exact u.2), tetra_data_getD g (σ u) (σ u).2, hperm u, hpts]

/-- C4, amended: in exact arithmetic (barycentric coordinates computed without rounding),
for every list of non-degenerate tetrahedra and every point contained in exactly one
of them (all four barycentric coordinates `>= 0` for tetrahedron `t` and for no other), the
point-location step of `qgrid3_fun` (last-hit check, then the scan with bounding-box
rejection) selects that tetrahedron, for every permutation `σ` of the tetrahedron list
(the list of `g'` holds at position `u` the tetrahedron that `g` holds at `σ u`, so the
tetrahedron is found at position `σ⁻¹ t`; `σ = 1` is the list itself) and every valid
last-hit index. -/
theorem locate_selects_unique_tetra (g g' : GridInput) (σ : Equiv.Perm (Fin g.n_tetra))
    (hpts : g'.points = g.points) (hn : g'.n_tetra = g.n_tetra)
    (hperm : ∀ u : Fin g.n_tetra,
      tetra_vertices g'.tetra_list u = tetra_vertices g.tetra_list (σ u))
    (hnd : ∀ u < g.n_tetra, tetra_volume6 g u ≠ 0)
    (p : Vec3) (t : Fin g.n_tetra) (hin : contains g t p)
    (huniq : ∀ u < g.n_tetra, u ≠ t → ¬ contains g u p)
    (last : ℕ) (hlast : last < g.n_tetra) :
    (locate g' last p).map Prod.fst = some ((σ.symm t : Fin g.n_tetra) : ℕ) := by
  have hd := tetra_data_perm g g' σ hpts hn hperm
  have hbary : ∀ u : Fin g.n_tetra, ∀ q, tetra_bary g' u q = tetra_bary g (σ u) q := by
    intro u q
    simp only [tetra_bary, hd u]
  have hvol : ∀ u : Fin g.n_tetra, tetra_volume6 g' u = tetra_volume6 g (σ u) := by
    intro u
    simp only [tetra_volume6, hd u]
  apply locate_unique g' p
  · rw [hvol, Equiv.apply_symm_apply]
    exact hnd t t.2
  · simp only [contains, hbary, Equiv.apply_symm_apply]
    exact hin
  · intro u hu hne hc
    rw [hn] at hu
    have hc' : contains g (σ ⟨u, hu⟩) p := by
      have := hbary ⟨u, hu⟩ p
      simp only [contains] at hc ⊢
      rw [← this]
      exact hc
    by_cases hσ : σ ⟨u, hu⟩ = t
    · apply hne
      have : (⟨u, hu⟩ : Fin g.n_tetra) = σ.symm t := by rw [← hσ, Equiv.symm_apply_apply]
      exact congrArg Fin.val this
    · exact huniq _ (σ ⟨u, hu⟩).2 (fun h => hσ (Fin.ext h)) hc'
  · rw [hn]; exact hlast

theorem locate_selects_unique_tetra_witness :
    (locate g_two_swapped 0 ![1/4, 1/4, 1/4]).map Prod.fst = some 1 :=
  locate_selects_unique_tetra g_two g_two_swapped
    (Equiv.swap (⟨0, by decide⟩ : Fin g_two.n_tetra) ⟨1, by decide⟩) rfl rfl
    (by decide!) (by decide!) ![1/4, 1/4, 1/4] ⟨0, by decide⟩ (by decide!) (by decide!) 0
    (by decide!)

/-! ## The grid loop of `qgrid3_fun` -/

theorem k_loop_succ (g : GridInput) (i j n : ℕ) (s : GridState) :
    k_loop g i j (n + 1) s = cell_step g i j n (k_loop g i j n s) := by
  simp [k_loop, List.range_succ, List.foldl_append]

theorem j_loop_succ (g : GridInput) (i n : ℕ) (s : GridState) :
    j_loop g i (n + 1) s = j_step g i n (j_loop g i n s) := by
  simp [j_loop, List.range_succ, List.foldl_append]

theorem i_loop_succ (g : GridInput) (n : ℕ) (s : GridState) :
    i_loop g (n + 1) s = i_step g n (i_loop g n s) := by
  simp [i_loop, List.range_succ, List.foldl_append]

theorem cell_step_res (g : GridInput) (i j k : ℕ) (s : GridState) :
    (cell_step g i j k s).res = s.res.set (res_index g i j k) (cell_value g s) := by
  unfold cell_step cell_value
  split_ifs
  · rfl
  · split <;> rfl

theorem cell_step_coord (g : GridInput) (i j k : ℕ) (s : GridState) :
    (cell_step g i j k s).coord =
      if is_outside_of_box (min_coord g) (max_coord g) s.coord then s.coord
      else advance2 g s.coord := by
  unfold cell_step
  split_ifs
  · rfl
  · split <;> rfl

theorem scan_some (g : GridInput) (p : Vec3) (l : List ℕ) (t : ℕ) (v : ℚ)
    (h : scan g p l = some (t, v)) :
    t ∈ l ∧ contains g t p ∧
      v = interp_value (tetra_bary g t p) g.func (tetra_vertices g.tetra_list t) := by
  induction l with
  | nil => simp [scan] at h
  | cons u rest ih =>
    simp only [scan] at h
    split_ifs at h with hbox hnn
    · obtain ⟨h1, h2⟩ := ih h
      exact ⟨List.mem_cons_of_mem _ h1, h2⟩
    · simp only [Option.some.injEq, Prod.mk.injEq] at h
      obtain ⟨rfl, rfl⟩ := h
      exact ⟨List.mem_cons_self _ _, (no_neg_iff _).mp hnn, rfl⟩
    · obtain ⟨h1, h2⟩ := ih h
      exact ⟨List.mem_cons_of_mem _ h1, h2⟩

/-- What point location returns: the cached tetrahedron or one of the list, which contains
the point, and the interpolated value in it. -/
theorem locate_some (g : GridInput) (last : ℕ) (p : Vec3) (t : ℕ) (v : ℚ)
    (h : locate g last p = some (t, v)) :
    (t = last ∨ t < g.n_tetra) ∧ contains g t p ∧
      v = interp_value (tetra_bary g t p) g.func (tetra_vertices g.tetra_list t) := by
  simp only [locate] at h
  split_ifs at h with hnn
  · simp only [Option.some.injEq, Prod.mk.injEq] at h
    obtain ⟨rfl, rfl⟩ := h
    exact ⟨Or.inl rfl, (no_neg_iff _).mp hnn, rfl⟩
  · obtain ⟨h1, h2⟩ := scan_some g p _ t v h
    exact ⟨Or.inr (List.mem_range.mp h1), h2⟩

theorem cell_step_last (g : GridInput) (i j k : ℕ) (s : GridState) (n : ℕ)
    (hl : s.last_tetra < n) (hn : g.n_tetra ≤ n) : (cell_step g i j k s).last_tetra < n := by
  unfold cell_step
  split_ifs
  · exact hl
  · split
    · rename_i tIx v heq
      rcases (locate_some g _ _ tIx v heq).1 with h | h
      · simpa [h] using hl
      · exact lt_of_lt_of_le h hn
    · exact hl

/-! ### The result position `res_index` -/

theorem res_index_eq (g : GridInput) (i j k : ℕ) :
    res_index g i j k = i + g.res_dim_vec 0 * (j + g.res_dim_vec 1 * k) := by
  simp only [res_index]; ring

theorem radix_inj {n a b a' b' : ℕ} (ha : a < n) (ha' : a' < n)
    (h : a + n * b = a' + n * b') : a = a' ∧ b = b' := by
  have h1 : (a + n * b) % n = a := by rw [Nat.add_mul_mod_self_left, Nat.mod_eq_of_lt ha]
  have h2 : (a' + n * b') % n = a' := by rw [Nat.add_mul_mod_self_left, Nat.mod_eq_of_lt ha']
  have haa : a = a' := by rw [← h1, ← h2, h]
  subst haa
  have hn : 0 < n := lt_of_le_of_lt (Nat.zero_le _) ha
  exact ⟨rfl, Nat.eq_of_mul_eq_mul_left hn (Nat.add_left_cancel h)⟩

theorem radix_lt {n m a b : ℕ} (ha : a < n) (hb : b < m) : a + n * b < n * m := by
  calc a + n * b < n + n * b := Nat.add_lt_add_right ha _
    _ = n * (b + 1) := by ring
    _ ≤ n * m := Nat.mul_le_mul_left _ hb

/-- Distinct cells of the grid have distinct positions in the result. -/
theorem res_index_inj (g : GridInput) {i j k i' j' k' : ℕ}
    (hi : i < g.res_dim_vec 0) (hi' : i' < g.res_dim_vec 0)
    (hj : j < g.res_dim_vec 1) (hj' : j' < g.res_dim_vec 1)
    (h : res_index g i j k = res_index g i' j' k') : i = i' ∧ j = j' ∧ k = k' := by
  rw [res_index_eq, res_index_eq] at h
  obtain ⟨h1, h2⟩ := radix_inj hi hi' h
  obtain ⟨h3, h4⟩ := radix_inj hj hj' h2
  exact ⟨h1, h3, h4⟩

/-- The position of a cell of the grid lies inside the result. -/
theorem res_index_lt (g : GridInput) {i j k : ℕ}
    (hi : i < g.res_dim_vec 0) (hj : j < g.res_dim_vec 1) (hk : k < g.res_dim_vec 2) :
    res_index g i j k < g.res_dim_vec 0 * g.res_dim_vec 1 * g.res_dim_vec 2 := by
  rw [res_index_eq, Nat.mul_assoc]
  exact radix_lt hi (radix_lt hj hk)

/-! ### Which element each part of the loop writes -/

theorem cell_step_length (g : GridInput) (i j k : ℕ) (s : GridState) :
    (cell_step g i j k s).res.length = s.res.length := by
  rw [cell_step_res, List.length_set]

theorem k_loop_length (g : GridInput) (i j n : ℕ) (s : GridState) :
    (k_loop g i j n s).res.length = s.res.length := by
  induction n with
  | zero => simp [k_loop]
  | succ n ih => rw [k_loop_succ, cell_step_length, ih]

theorem j_step_res (g : GridInput) (i j : ℕ) (s : GridState) :
    (j_step g i j s).res = (k_loop g i j (g.res_dim_vec 2) (j_enter g s)).res := rfl

theorem i_step_res (g : GridInput) (i : ℕ) (s : GridState) :
    (i_step g i s).res = (j_loop g i (g.res_dim_vec 1) (i_enter g s)).res := rfl

theorem j_enter_res (g : GridInput) (s : GridState) : (j_enter g s).res = s.res := rfl

theorem i_enter_res (g : GridInput) (s : GridState) : (i_enter g s).res = s.res := rfl

theorem j_loop_length (g : GridInput) (i n : ℕ) (s : GridState) :
    (j_loop g i n s).res.length = s.res.length := by
  induction n with
  | zero => simp [j_loop]
  | succ n ih => rw [j_loop_succ, j_step_res, k_loop_length]; exact ih

theorem i_loop_length (g : GridInput) (n : ℕ) (s : GridState) :
    (i_loop g n s).res.length = s.res.length := by
  induction n with
  | zero => simp [i_loop]
  | succ n ih => rw [i_loop_succ, i_step_res, j_loop_length]; exact ih

theorem cell_step_frame (g : GridInput) (i j k : ℕ) (s : GridState) (x : ℕ)
    (hx : res_index g i j k ≠ x) : (cell_step g i j k s).res[x]? = s.res[x]? := by
  rw [cell_step_res, List.getElem?_set_ne hx]

theorem k_loop_frame (g : GridInput) (i j n : ℕ) (s : GridState) (x : ℕ)
    (hx : ∀ k < n, res_index g i j k ≠ x) : (k_loop g i j n s).res[x]? = s.res[x]? := by
  induction n with
  | zero => simp [k_loop]
  | succ n ih =>
    rw [k_loop_succ, cell_step_frame g i j n _ x (hx n (Nat.lt_succ_self n))]
    exact ih (fun k hk => hx k (Nat.lt_succ_of_lt hk))

theorem j_loop_frame (g : GridInput) (i n : ℕ) (s : GridState) (x : ℕ)
    (hx : ∀ j < n, ∀ k < g.res_dim_vec 2, res_index g i j k ≠ x) :
    (j_loop g i n s).res[x]? = s.res[x]? := by
  induction n with
  | zero => simp [j_loop]
  | succ n ih =>
    rw [j_loop_succ, j_step_res, k_loop_frame g i n _ _ x (hx n (Nat.lt_succ_self n))]
    exact ih (fun j hj => hx j (Nat.lt_succ_of_lt hj))

theorem i_loop_frame (g : GridInput) (n : ℕ) (s : GridState) (x : ℕ)
    (hx : ∀ i < n, ∀ j < g.res_dim_vec 1, ∀ k < g.res_dim_vec 2, res_index g i j k ≠ x) :
    (i_loop g n s).res[x]? = s.res[x]? := by
  induction n with
  | zero => simp [i_loop]
  | succ n ih =>
    rw [i_loop_succ, i_step_res, j_loop_frame g n _ _ x (hx n (Nat.lt_succ_self n))]
    exact ih (fun i hi => hx i (Nat.lt_succ_of_lt hi))

/-- Later iterations of the inner loop leave the element of cell `(i, j, k)` alone. -/
theorem k_loop_after (g : GridInput) (i j k : ℕ) (s : GridState)
    (hi : i < g.res_dim_vec 0) (hj : j < g.res_dim_vec 1) (m : ℕ) :
    (k_loop g i j (k + 1 + m) s).res[res_index g i j k]? =
      (k_loop g i j (k + 1) s).res[res_index g i j k]? := by
  induction m with
  | zero => rfl
  | succ m ih =>
    rw [← Nat.add_assoc, k_loop_succ, cell_step_frame, ih]
    intro h
    have := (res_index_inj g hi hi hj hj h).2.2
    omega

/-- Later iterations of the middle loop leave the element of cell `(i, j, k)` alone. -/
theorem j_loop_after (g : GridInput) (i j k : ℕ) (s : GridState)
    (hi : i < g.res_dim_vec 0) (hj : j < g.res_dim_vec 1) (m : ℕ)
    (hm : j + 1 + m ≤ g.res_dim_vec 1) :
    (j_loop g i (j + 1 + m) s).res[res_index g i j k]? =
      (j_loop g i (j + 1) s).res[res_index g i j k]? := by
  induction m with
  | zero => rfl
  | succ m ih =>
    rw [← Nat.add_assoc, j_loop_succ, j_step_res, k_loop_frame, j_enter_res, ih (by omega)]
    intro k' _ h
    have := (res_index_inj g hi hi (by omega) hj h).2.1
    omega

/-- Later iterations of the outer loop leave the element of cell `(i, j, k)` alone. -/
theorem i_loop_after (g : GridInput) (i j k : ℕ) (s : GridState)
    (hi : i < g.res_dim_vec 0) (hj : j < g.res_dim_vec 1) (m : ℕ)
    (hm : i + 1 + m ≤ g.res_dim_vec 0) :
    (i_loop g (i + 1 + m) s).res[res_index g i j k]? =
      (i_loop g (i + 1) s).res[res_index g i j k]? := by
  induction m with
  | zero => rfl
  | succ m ih =>
    rw [← Nat.add_assoc, i_loop_succ, i_step_res, j_loop_frame, i_enter_res, ih (by omega)]
    intro j' hj' k' _ h
    have := (res_index_inj g (by omega) hi hj' hj h).1
    omega

/-- The element of cell `(i, j, k)` in the returned buffer is the value stored by the body
of the innermost loop when it runs for that cell. -/
theorem qgrid3_fun_cell (g : GridInput) (i j k : ℕ)
    (hi : i < g.res_dim_vec 0) (hj : j < g.res_dim_vec 1) (hk : k < g.res_dim_vec 2) :
    (qgrid3_fun g)[res_index g i j k]? = some (cell_value g (state_at g i j k)) := by
  obtain ⟨mi, hmi⟩ := Nat.exists_eq_add_of_le (Nat.succ_le_of_lt hi)
  obtain ⟨mj, hmj⟩ := Nat.exists_eq_add_of_le (Nat.succ_le_of_lt hj)
  obtain ⟨mk, hmk⟩ := Nat.exists_eq_add_of_le (Nat.succ_le_of_lt hk)
  have hlen : res_index g i j k < (state_at g i j k).res.length := by
    simp only [state_at, k_loop_length, j_enter, j_loop_length, i_enter, i_loop_length,
      init_state, List.length_replicate]
    exact res_index_lt g hi hj hk
  unfold qgrid3_fun
  rw [hmi, i_loop_after g i j k _ hi hj mi (by omega), i_loop_succ, i_step_res,
    hmj, j_loop_after g i j k _ hi hj mj (by omega), j_loop_succ, j_step_res,
    hmk, k_loop_after g i j k _ hi hj mk, k_loop_succ, cell_step_res]
  rw [List.getElem?_set_self]
  · rfl
  · exact hlen

/-! ### The running coordinate and the cached tetrahedron -/

theorem k_loop_coord01 (g : GridInput) (i j n : ℕ) (s : GridState) :
    (k_loop g i j n s).coord 0 = s.coord 0 ∧ (k_loop g i j n s).coord 1 = s.coord 1 := by
  induction n with
  | zero => simp [k_loop]
  | succ n ih =>
    rw [k_loop_succ, cell_step_coord]
    split_ifs
    · exact ih
    · simpa [advance2] using ih

/-- After `n` iterations of the inner loop the third coordinate has advanced `n` times,
unless the loop met a coordinate outside the global box, where it stays. -/
theorem k_loop_coord2 (g : GridInput) (i j n : ℕ) (s : GridState) :
    (k_loop g i j n s).coord 2 = s.coord 2 + n * g.delta 2 ∨
      is_outside_of_box (min_coord g) (max_coord g) (k_loop g i j n s).coord = true := by
  induction n with
  | zero => left; simp [k_loop]
  | succ n ih =>
    rw [k_loop_succ, cell_step_coord]
    by_cases hout : is_outside_of_box (min_coord g) (max_coord g) (k_loop g i j n s).coord = true
    · right
      simp only [hout, if_true]
    · left
      rcases ih with h | h
      · rw [if_neg hout]
        simp only [advance2, Function.update_same]
        rw [h]
        push_cast
        ring
      · exact absurd h hout

theorem j_enter_coord (g : GridInput) (s : GridState) :
    (j_enter g s).coord 0 = s.coord 0 ∧ (j_enter g s).coord 1 = s.coord 1 ∧
      (j_enter g s).coord 2 = g.start_coord 2 := by
  simp [j_enter]

theorem i_enter_coord (g : GridInput) (s : GridState) :
    (i_enter g s).coord 0 = s.coord 0 ∧ (i_enter g s).coord 1 = g.start_coord 1 := by
  simp [i_enter]

theorem j_step_coord_eq (g : GridInput) (i j : ℕ) (s : GridState) :
    (j_step g i j s).coord =
      Function.update (k_loop g i j (g.res_dim_vec 2) (j_enter g s)).coord 1
        ((k_loop g i j (g.res_dim_vec 2) (j_enter g s)).coord 1 + g.delta 1) := rfl

theorem i_step_coord_eq (g : GridInput) (i : ℕ) (s : GridState) :
    (i_step g i s).coord =
      Function.update (j_loop g i (g.res_dim_vec 1) (i_enter g s)).coord 0
        ((j_loop g i (g.res_dim_vec 1) (i_enter g s)).coord 0 + g.delta 0) := rfl

theorem j_step_coord (g : GridInput) (i j : ℕ) (s : GridState) :
    (j_step g i j s).coord 0 = s.coord 0 ∧ (j_step g i j s).coord 1 = s.coord 1 + g.delta 1 := by
  obtain ⟨h0, h1⟩ := k_loop_coord01 g i j (g.res_dim_vec 2) (j_enter g s)
  rw [(j_enter_coord g s).1] at h0
  rw [(j_enter_coord g s).2.1] at h1
  constructor
  · rw [j_step_coord_eq, Function.update_noteq (by decide), h0]
  · rw [j_step_coord_eq, Function.update_same, h1]

theorem j_loop_coord (g : GridInput) (i n : ℕ) (s : GridState) :
    (j_loop g i n s).coord 0 = s.coord 0 ∧
      (j_loop g i n s).coord 1 = s.coord 1 + n * g.delta 1 := by
  induction n with
  | zero => simp [j_loop]
  | succ n ih =>
    obtain ⟨h0, h1⟩ := j_step_coord g i n (j_loop g i n s)
    rw [j_loop_succ, h0, h1, ih.1, ih.2]
    refine ⟨rfl, ?_⟩
    push_cast
    ring

theorem i_step_coord (g : GridInput) (i : ℕ) (s : GridState) :
    (i_step g i s).coord 0 = s.coord 0 + g.delta 0 := by
  obtain ⟨h0, _⟩ := j_loop_coord g i (g.res_dim_vec 1) (i_enter g s)
  rw [(i_enter_coord g s).1] at h0
  rw [i_step_coord_eq, Function.update_same, h0]

theorem i_loop_coord (g : GridInput) (n : ℕ) (s : GridState) :
    (i_loop g n s).coord 0 = s.coord 0 + n * g.delta 0 := by
  induction n with
  | zero => simp [i_loop]
  | succ n ih =>
    rw [i_loop_succ, i_step_coord, ih]
    push_cast
    ring

/-- The coordinate at which a cell is tested is its grid coordinate, unless the test finds
it outside the global box. -/
theorem state_at_coord (g : GridInput) (i j k : ℕ)
    (hbox : is_outside_of_box (min_coord g) (max_coord g) (state_at g i j k).coord = false) :
    (state_at g i j k).coord = grid_coord g i j k := by
  have h2 := k_loop_coord2 g i j k (j_enter g (j_loop g i j (i_enter g (i_loop g i (init_state g)))))
  obtain ⟨h0, h1⟩ := k_loop_coord01 g i j k
    (j_enter g (j_loop g i j (i_enter g (i_loop g i (init_state g)))))
  obtain ⟨hj0, hj1⟩ := j_loop_coord g i j (i_enter g (i_loop g i (init_state g)))
  have hi0 := i_loop_coord g i (init_state g)
  have h2' : (state_at g i j k).coord 2 = g.start_coord 2 + k * g.delta 2 := by
    rcases h2 with h | h
    · rw [(j_enter_coord g _).2.2] at h
      exact h
    · rw [state_at] at hbox
      rw [hbox] at h
      exact absurd h (by simp)
  funext c
  fin_cases c
  · show (state_at g i j k).coord 0 = grid_coord g i j k 0
    rw [state_at, h0, (j_enter_coord g _).1, hj0, (i_enter_coord g _).1, hi0]
    rfl
  · show (state_at g i j k).coord 1 = grid_coord g i j k 1
    rw [state_at, h1, (j_enter_coord g _).2.1, hj1, (i_enter_coord g _).2]
    rfl
  · show (state_at g i j k).coord 2 = grid_coord g i j k 2
    rw [h2']
    rfl

theorem k_loop_last (g : GridInput) (i j n : ℕ) (s : GridState)
    (hl : s.last_tetra < g.n_tetra) : (k_loop g i j n s).last_tetra < g.n_tetra := by
  induction n with
  | zero => simpa [k_loop] using hl
  | succ n ih => rw [k_loop_succ]; exact cell_step_last g i j n _ _ ih (le_refl _)

theorem j_loop_last (g : GridInput) (i n : ℕ) (s : GridState)
    (hl : s.last_tetra < g.n_tetra) : (j_loop g i n s).last_tetra < g.n_tetra := by
  induction n with
  | zero => simpa [j_loop] using hl
  | succ n ih => rw [j_loop_succ]; exact k_loop_last g i n _ (j_enter g _) ih

theorem i_loop_last (g : GridInput) (n : ℕ) (s : GridState)
    (hl : s.last_tetra < g.n_tetra) : (i_loop g n s).last_tetra < g.n_tetra := by
  induction n with
  | zero => simpa [i_loop] using hl
  | succ n ih => rw [i_loop_succ]; exact j_loop_last g n _ (i_enter g _) ih

/-- With at least one tetrahedron the cache always holds the index of a tetrahedron of the
list. -/
theorem state_at_last (g : GridInput) (i j k : ℕ) (hn : 1 ≤ g.n_tetra) :
    (state_at g i j k).last_tetra < g.n_tetra :=
  k_loop_last g i j k _ (j_loop_last g i j _ (i_loop_last g i _ hn))

/-! ### Tetrahedra of the list and the input points -/

theorem getD_mem_of_lt (l : List Vec3) (n : ℕ) (h : n < l.length) : l.getD n 0 ∈ l := by
  rw [List.getD_eq_getElem l 0 h]
  exact List.getElem_mem h

/-- The vertices of a tetrahedron with valid ids are input points, read at those ids. -/
theorem tetra_points (g : GridInput) (t : ℕ) (ht : t < g.n_tetra) (c : ℕ) (hc : c < 4) :
    ((tetra_data g).getD t []).getD c 0 =
      g.points.getD ((tetra_vertices g.tetra_list t).getD c 0).toNat 0 := by
  rw [tetra_data_getD g t ht]
  interval_cases c <;> simp [tetra_vertices]

theorem tetra_points_mem (g : GridInput) (t : ℕ) (ht : t < g.n_tetra)
    (hv : valid_vertices g t) (c : ℕ) (hc : c < 4) :
    ((tetra_data g).getD t []).getD c 0 ∈ g.points := by
  rw [tetra_points g t ht c hc]
  apply getD_mem_of_lt
  apply (hv _ _).2
  interval_cases c <;> simp [tetra_vertices]

/-- A point contained in a non-degenerate tetrahedron with valid vertex ids lies in the
convex hull of the input points. -/
theorem contains_mem_hull (g : GridInput) (t : ℕ) (p : Vec3)
    (hnd : tetra_volume6 g t ≠ 0) (hv : valid_vertices g t) (hin : contains g t p) :
    p ∈ convexHull ℚ {q : Vec3 | q ∈ g.points} := by
  have ht := lt_n_tetra_of_volume g t hnd
  exact bary_nonneg_mem_convex (convex_convexHull ℚ _) _ _ _ _ p hnd
    (subset_convexHull ℚ _ (tetra_points_mem g t ht hv 0 (by decide)))
    (subset_convexHull ℚ _ (tetra_points_mem g t ht hv 1 (by decide)))
    (subset_convexHull ℚ _ (tetra_points_mem g t ht hv 2 (by decide)))
    (subset_convexHull ℚ _ (tetra_points_mem g t ht hv 3 (by decide))) hin

theorem interp_value_eq (w : List ℚ) (func : List ℚ) (vertices : List ℤ) :
    interp_value w func vertices =
      w.getD 0 0 * func.getD (vertices.getD 0 0).toNat 0
        + w.getD 1 0 * func.getD (vertices.getD 1 0).toNat 0
        + w.getD 2 0 * func.getD (vertices.getD 2 0).toNat 0
        + w.getD 3 0 * func.getD (vertices.getD 3 0).toNat 0 := by
  have h4 : List.range 4 = [0, 1, 2, 3] := by decide
  simp only [interp_value, h4, List.foldl_cons, List.foldl_nil, zero_add]

/-- Interpolation in a non-degenerate tetrahedron reproduces an affine field. -/
theorem interp_affine (g : GridInput) (t : ℕ) (p : Vec3) (c0 c1 c2 c3 : ℚ)
    (hL : ∀ n < g.points.length, g.func.getD n 0 =
      c0 + c1 * (g.points.getD n 0) 0 + c2 * (g.points.getD n 0) 1 + c3 * (g.points.getD n 0) 2)
    (hnd : tetra_volume6 g t ≠ 0) (hv : valid_vertices g t) :
    interp_value (tetra_bary g t p) g.func (tetra_vertices g.tetra_list t) =
      c0 + c1 * p 0 + c2 * p 1 + c3 * p 2 := by
  have ht := lt_n_tetra_of_volume g t hnd
  have hf : ∀ c < 4, g.func.getD ((tetra_vertices g.tetra_list t).getD c 0).toNat 0 =
      c0 + c1 * (((tetra_data g).getD t []).getD c 0) 0
        + c2 * (((tetra_data g).getD t []).getD c 0) 1
        + c3 * (((tetra_data g).getD t []).getD c 0) 2 := by
    intro c hc
    rw [tetra_points g t ht c hc]
    apply hL
    apply (hv _ _).2
    interval_cases c <;> simp [tetra_vertices]
  have hs := bary_sum _ _ _ _ p hnd
  have hcomb := bary_combination _ _ _ _ p hnd
  rw [interp_value_eq, hf 0 (by decide), hf 1 (by decide), hf 2 (by decide), hf 3 (by decide)]
  have hw : (tetra_bary g t p).getD 0 0 + (tetra_bary g t p).getD 1 0
      + (tetra_bary g t p).getD 2 0 + (tetra_bary g t p).getD 3 0 = 1 := by
    simpa [tetra_bary, bary_tet, add_assoc] using hs
  have e0 := congrFun hcomb 0
  have e1 := congrFun hcomb 1
  have e2 := congrFun hcomb 2
  simp only [Pi.add_apply, Pi.smul_apply, smul_eq_mul] at e0 e1 e2
  change p 0 = (tetra_bary g t p).getD 0 0 * _ + (tetra_bary g t p).getD 1 0 * _
    + (tetra_bary g t p).getD 2 0 * _ + (tetra_bary g t p).getD 3 0 * _ at e0
  change p 1 = (tetra_bary g t p).getD 0 0 * _ + (tetra_bary g t p).getD 1 0 * _
    + (tetra_bary g t p).getD 2 0 * _ + (tetra_bary g t p).getD 3 0 * _ at e1
  change p 2 = (tetra_bary g t p).getD 0 0 * _ + (tetra_bary g t p).getD 1 0 * _
    + (tetra_bary g t p).getD 2 0 * _ + (tetra_bary g t p).getD 3 0 * _ at e2
  rw [e0, e1, e2]
  linear_combination c0 * hw

/-- A point outside the bounding box of a list of points is outside their convex hull. -/
theorem outside_box_not_mem_hull (pts : List Vec3) (p : Vec3)
    (h : is_outside_of_box (box_limits pts).1 (box_limits pts).2 p = true) :
    p ∉ convexHull ℚ {q : Vec3 | q ∈ pts} := by
  intro hp
  have hsub : {q : Vec3 | q ∈ pts} ⊆
      {q : Vec3 | ∀ j, (box_limits pts).1 j ≤ q j ∧ q j ≤ (box_limits pts).2 j} :=
    fun q hq j => box_limits_bounds pts q hq j
  have := (is_outside_of_box_eq_false _ _ p).mpr (convexHull_min hsub (box_convex _ _) hp)
  rw [h] at this
  exact absurd this (by simp)

/-! ### Claims on the grid loop -/

/-- C3, amended: in exact arithmetic (grid coordinates and barycentric coordinates computed
without rounding), in `qgrid3_fun`, given at least one tetrahedron, every tetrahedron
non-degenerate and every tetrahedron's four vertex ids indexing input points, every grid
cell whose coordinate lies outside the convex hull of the input points holds the missing
value in the output (on the global bounding-box path as well as when no tetrahedron is
found). -/
theorem qgrid3_fun_outside_hull_missing (g : GridInput) (hn : 1 ≤ g.n_tetra)
    (hnd : ∀ t < g.n_tetra, tetra_volume6 g t ≠ 0)
    (hv : ∀ t < g.n_tetra, valid_vertices g t) (i j k : ℕ)
    (hi : i < g.res_dim_vec 0) (hj : j < g.res_dim_vec 1) (hk : k < g.res_dim_vec 2)
    (hout : grid_coord g i j k ∉ convexHull ℚ {q : Vec3 | q ∈ g.points}) :
    (qgrid3_fun g)[res_index g i j k]? = some g.missing := by
  rw [qgrid3_fun_cell g i j k hi hj hk]
  congr 1
  unfold cell_value
  split_ifs with hbox
  · rfl
  · have hcoord := state_at_coord g i j k (by simpa using hbox)
    have hlast := state_at_last g i j k hn
    split
    · rename_i t v heq
      exfalso
      obtain ⟨ht, hin, _⟩ := locate_some g _ _ t v heq
      have ht' : t < g.n_tetra := by
        rcases ht with h | h
        · rw [h]; exact hlast
        · exact h
      apply hout
      rw [← hcoord]
      exact contains_mem_hull g t _ (hnd t ht') (hv t ht') hin
    · rfl

theorem qgrid3_fun_outside_hull_missing_witness :
    (qgrid3_fun g_below)[res_index g_below 0 0 0]? = some g_below.missing :=
  qgrid3_fun_outside_hull_missing g_below (by decide) (by decide!) (by decide!) 0 0 0
    (by decide) (by decide) (by decide)
    (outside_box_not_mem_hull g_below.points _ (by decide!))

/-- C5, the code at the failing input: cell `(0, 0, 2)` of `g_below` has the grid coordinate
`(1/4, 1/4, 1/4)`, which lies inside the non-degenerate tetrahedron `0` whose vertex values
are `0, 0, 0, 1`, yet the stored value is `missing = -1`, outside `[0, 1]`: cell `(0, 0, 0)`
is rejected by the global bounding box, `coord[2]` is not advanced on that path, and the
rest of the column is tested at the same coordinate. -/
theorem qgrid3_fun_inside_cell_gets_missing :
    grid_coord g_below 0 0 2 = ![1/4, 1/4, 1/4] ∧
      contains g_below 0 (grid_coord g_below 0 0 2) ∧ tetra_volume6 g_below 0 ≠ 0 ∧
      (tetra_vertices g_below.tetra_list 0).map (fun v => g_below.func.getD v.toNat 0)
        = [0, 0, 0, 1] ∧
      (qgrid3_fun g_below)[res_index g_below 0 0 2]? = some (-1) ∧
      qgrid3_fun g_below = [-1, -1, -1] ∧ qgrid3_fun g_on = [0, 1/4, 1/2] := by
  decide!

/-- C6, amended: in exact arithmetic (no operation rounded), interpolation in `qgrid3_fun`
is exact for linear fields.  If the field values are those of an affine function
`L(x) = c0 + c1*x0 + c2*x1 + c3*x2` at the input points, then every cell `(i, j, k)` that is located (not rejected by the global bounding box, and point
location returns tetrahedron `t`) in a non-degenerate tetrahedron with valid vertex ids, at
the coordinate `x` at which the loop tests the cell, receives exactly `L(x)`, which is the
sum over the four vertices of barycentric coordinate times field value; that coordinate is
the grid coordinate of the cell. -/
theorem qgrid3_fun_exact_on_affine (g : GridInput) (c0 c1 c2 c3 : ℚ)
    (hL : ∀ n < g.points.length, g.func.getD n 0 =
      c0 + c1 * (g.points.getD n 0) 0 + c2 * (g.points.getD n 0) 1 + c3 * (g.points.getD n 0) 2)
    (i j k : ℕ) (hi : i < g.res_dim_vec 0) (hj : j < g.res_dim_vec 1)
    (hk : k < g.res_dim_vec 2) (t : ℕ)
    (hbox : is_outside_of_box (min_coord g) (max_coord g) (state_at g i j k).coord = false)
    (hloc : (locate g (state_at g i j k).last_tetra (state_at g i j k).coord).map Prod.fst
      = some t)
    (hnd : tetra_volume6 g t ≠ 0) (hv : valid_vertices g t) :
    (qgrid3_fun g)[res_index g i j k]? =
        some (c0 + c1 * (state_at g i j k).coord 0 + c2 * (state_at g i j k).coord 1
          + c3 * (state_at g i j k).coord 2) ∧
      interp_value (tetra_bary g t (state_at g i j k).coord) g.func
          (tetra_vertices g.tetra_list t) =
        c0 + c1 * (state_at g i j k).coord 0 + c2 * (state_at g i j k).coord 1
          + c3 * (state_at g i j k).coord 2 ∧
      (state_at g i j k).coord = grid_coord g i j k := by
  refine ⟨?_, interp_affine g t _ c0 c1 c2 c3 hL hnd hv, state_at_coord g i j k hbox⟩
  rw [qgrid3_fun_cell g i j k hi hj hk]
  congr 1
  unfold cell_value
  rw [if_neg (by simp [hbox])]
  split
  · rename_i t' v heq
    rw [heq] at hloc
    simp only [Option.map_some', Option.some.injEq] at hloc
    subst hloc
    rw [(locate_some g _ _ t' v heq).2.2]
    exact interp_affine g t' _ c0 c1 c2 c3 hL hnd hv
  · rename_i heq
    rw [heq] at hloc
    simp at hloc

theorem qgrid3_fun_exact_on_affine_witness :
    (qgrid3_fun g_two)[res_index g_two 1 0 0]? =
        some (0 + 1 * (state_at g_two 1 0 0).coord 0 + 2 * (state_at g_two 1 0 0).coord 1
          + 3 * (state_at g_two 1 0 0).coord 2) ∧
      interp_value (tetra_bary g_two 0 (state_at g_two 1 0 0).coord) g_two.func
          (tetra_vertices g_two.tetra_list 0) =
        0 + 1 * (state_at g_two 1 0 0).coord 0 + 2 * (state_at g_two 1 0 0).coord 1
          + 3 * (state_at g_two 1 0 0).coord 2 ∧
      (state_at g_two 1 0 0).coord = grid_coord g_two 1 0 0 :=
  qgrid3_fun_exact_on_affine g_two 0 1 2 3 (by decide!) 1 0 0 (by decide) (by decide)
    (by decide) 0 (by decide!) (by decide!) (by decide!) (by decide!)

/-- C7, the code at the failing input: in `g_below` cell `(0, 0, 0)` is rejected by the
global bounding box, so `coord[2]` is not advanced and cell `(0, 0, 1)` is tested at
`(1/4, 1/4, -1/4)`, the origin, not at `origin + (0, 0, 1*delta2) = (1/4, 1/4, 0)`; the
same holds for cell `(0, 0, 2)`. -/
theorem qgrid3_fun_tests_stale_coordinate :
    (state_at g_below 0 0 1).coord = ![1/4, 1/4, -1/4] ∧
      grid_coord g_below 0 0 1 = ![1/4, 1/4, 0] ∧
      (state_at g_below 0 0 2).coord = ![1/4, 1/4, -1/4] ∧
      grid_coord g_below 0 0 2 = ![1/4, 1/4, 1/4] ∧
      is_outside_of_box (min_coord g_below) (max_coord g_below) (grid_coord g_below 0 0 1)
        = false := by
  decide!

/-! ## `qhull`: the facet walk -/

theorem vertex_fold (J Z vs : List ℤ) (b : ℕ) (h : vs.length ≤ Z.length) :
    vs.foldl vertex_step { res := J ++ Z, ix := J.length, bad_facets := b } =
      { res := J ++ vs ++ Z.drop vs.length, ix := J.length + vs.length, bad_facets := b } := by
  induction vs generalizing J Z with
  | nil => simp
  | cons v vs ih =>
    cases Z with
    | nil => simp at h
    | cons z Z =>
      have hstep : vertex_step { res := J ++ z :: Z, ix := J.length, bad_facets := b } v =
          { res := (J ++ [v]) ++ Z, ix := (J ++ [v]).length, bad_facets := b } := by
        simp [vertex_step]
      rw [List.foldl_cons, hstep, ih (J ++ [v]) Z (by simpa using h)]
      simp [Nat.add_assoc, Nat.add_comm 1]

theorem good_vertex_ids_cons (f : QhullFacet) (fs : List QhullFacet) :
    good_vertex_ids (f :: fs) =
      (if f.isGood then f.vertices else []) ++ good_vertex_ids fs := by
  cases hf : f.isGood <;> simp [good_vertex_ids, List.filter_cons, hf]

theorem bad_count_cons (f : QhullFacet) (fs : List QhullFacet) :
    bad_count (f :: fs) = (if f.isGood then 0 else 1) + bad_count fs := by
  cases hf : f.isGood <;> simp [bad_count, List.filter_cons, hf, Nat.add_comm]

/-- The facet walk appends the vertex ids of the good facets to what is written already and
counts the other facets. -/
theorem facet_fold (fs : List QhullFacet) (J Z : List ℤ) (b : ℕ)
    (h : (good_vertex_ids fs).length ≤ Z.length) :
    fs.foldl facet_step { res := J ++ Z, ix := J.length, bad_facets := b } =
      { res := J ++ good_vertex_ids fs ++ Z.drop (good_vertex_ids fs).length,
        ix := J.length + (good_vertex_ids fs).length, bad_facets := b + bad_count fs } := by
  induction fs generalizing J Z b with
  | nil => simp [good_vertex_ids, bad_count]
  | cons f fs ih =>
    rw [good_vertex_ids_cons] at h
    rw [List.foldl_cons, good_vertex_ids_cons, bad_count_cons]
    cases hf : f.isGood
    · simp only [hf, Bool.false_eq_true, if_false, List.nil_append] at h ⊢
      have hstep : facet_step { res := J ++ Z, ix := J.length, bad_facets := b } f =
          { res := J ++ Z, ix := J.length, bad_facets := b + 1 } := by
        simp [facet_step, hf]
      rw [hstep, ih J Z (b + 1) h, Nat.add_assoc]
    · simp only [hf, if_true, List.length_append] at h ⊢
      have hstep : facet_step { res := J ++ Z, ix := J.length, bad_facets := b } f =
          { res := (J ++ f.vertices) ++ Z.drop f.vertices.length,
            ix := (J ++ f.vertices).length, bad_facets := b } := by
        simp only [facet_step, hf, Bool.not_true, Bool.false_eq_true, if_false]
        rw [vertex_fold J Z f.vertices b (by omega), List.length_append]
      rw [hstep, ih (J ++ f.vertices) _ b (by rw [List.length_drop]; omega)]
      simp [List.drop_drop, Nat.add_assoc, Nat.add_comm]

theorem facet_walk_eq (fs : List QhullFacet) (Z : List ℤ)
    (h : (good_vertex_ids fs).length ≤ Z.length) :
    facet_walk fs Z =
      { res := good_vertex_ids fs ++ Z.drop (good_vertex_ids fs).length,
        ix := (good_vertex_ids fs).length, bad_facets := bad_count fs } := by
  have := facet_fold fs [] Z 0 h
  simpa [facet_walk] using this

theorem vertex_fold_length (vs : List ℤ) (s : WalkState) :
    (vs.foldl vertex_step s).res.length = s.res.length := by
  induction vs generalizing s with
  | nil => rfl
  | cons v vs ih => rw [List.foldl_cons, ih]; simp [vertex_step]

theorem vertex_fold_bad (vs : List ℤ) (s : WalkState) :
    (vs.foldl vertex_step s).bad_facets = s.bad_facets := by
  induction vs generalizing s with
  | nil => rfl
  | cons v vs ih => rw [List.foldl_cons, ih]; rfl

theorem facet_fold_length (fs : List QhullFacet) (s : WalkState) :
    (fs.foldl facet_step s).res.length = s.res.length := by
  induction fs generalizing s with
  | nil => rfl
  | cons f fs ih =>
    rw [List.foldl_cons, ih]
    unfold facet_step
    split_ifs
    · rfl
    · exact vertex_fold_length _ _

theorem facet_fold_bad (fs : List QhullFacet) (s : WalkState) :
    (fs.foldl facet_step s).bad_facets = s.bad_facets + bad_count fs := by
  induction fs generalizing s with
  | nil => simp [bad_count]
  | cons f fs ih =>
    rw [List.foldl_cons, ih, bad_count_cons]
    unfold facet_step
    cases hf : f.isGood
    · simp [Nat.add_assoc]
    · simp [vertex_fold_bad]

theorem ndRes_eq (nd : ℕ) (delaunay isVoronoi : Bool) :
    ndRes nd delaunay isVoronoi = if isDelaunay delaunay isVoronoi then nd + 1 else nd := by
  cases delaunay <;> cases isVoronoi <;> simp [ndRes, isDelaunay]

/-- The dimensions of the index result: `ndRes` rows, and the facet count less the number
of facets that are not good, whether or not `SetDim` is called. -/
theorem qhull_indices_dim (nd : ℕ) (delaunay isVoronoi : Bool) (q : QhullRun) :
    (qhull_indices nd delaunay isVoronoi q).dim0 = ndRes nd delaunay isVoronoi ∧
      (qhull_indices nd delaunay isVoronoi q).dim1 = q.facetCount - bad_count q.facetList := by
  have hb : (facet_walk q.facetList
      (DLongGDL.zero (ndRes nd delaunay isVoronoi) q.facetCount).data).bad_facets
      = bad_count q.facetList := by
    simp [facet_walk, facet_fold_bad]
  unfold qhull_indices
  simp only [hb]
  split_ifs with h1 h2
  · exact ⟨by rw [ndRes_eq, if_pos h2], rfl⟩
  · exact ⟨by rw [ndRes_eq, if_neg h2], rfl⟩
  · have h0 : bad_count q.facetList = 0 := by omega
    exact ⟨rfl, by simp [DLongGDL.zero, h0]⟩

theorem qhull_indices_data (nd : ℕ) (delaunay isVoronoi : Bool) (q : QhullRun) :
    (qhull_indices nd delaunay isVoronoi q).data =
      (facet_walk q.facetList
        (List.replicate (ndRes nd delaunay isVoronoi * q.facetCount) 0)).res := by
  unfold qhull_indices
  simp only [DLongGDL.zero]
  split_ifs <;> rfl

theorem qhull_indices_length (nd : ℕ) (delaunay isVoronoi : Bool) (q : QhullRun) :
    (qhull_indices nd delaunay isVoronoi q).data.length =
      ndRes nd delaunay isVoronoi * q.facetCount := by
  rw [qhull_indices_data]
  simp [facet_walk, facet_fold_length]

/-- The flat index matrix never reaches beyond the buffer. -/
theorem qhull_indices_dim_le (nd : ℕ) (delaunay isVoronoi : Bool) (q : QhullRun) :
    (qhull_indices nd delaunay isVoronoi q).dim0 * (qhull_indices nd delaunay isVoronoi q).dim1
      ≤ (qhull_indices nd delaunay isVoronoi q).data.length := by
  rw [qhull_indices_length, (qhull_indices_dim nd delaunay isVoronoi q).1,
    (qhull_indices_dim nd delaunay isVoronoi q).2]
  exact Nat.mul_le_mul_left _ (Nat.sub_le _ _)

/-! ## `qhull`: the `BOUNDS` block -/

theorem range_map_getD (l : List ℤ) (n : ℕ) (h : n ≤ l.length) :
    (List.range n).map (fun i => l.getD i 0) = l.take n := by
  apply List.ext_getElem
  · simp [h]
  · intro i h1 h2
    simp only [List.length_map, List.length_range] at h1
    simp [List.getD_eq_getElem?_getD, List.getElem?_eq_getElem (lt_of_lt_of_le h1 h)]

/-- The `BOUNDS` loop folds `bounds_step` over the flat index matrix. -/
theorem qhull_bounds_eq (res : DLongGDL) (h : res.dim0 * res.dim1 ≤ res.data.length) :
    qhull_bounds res = (index_matrix res).foldl bounds_step [] := by
  unfold qhull_bounds index_matrix
  rw [← range_map_getD res.data _ h, List.foldl_map]

theorem bounds_fold_snoc (l : List ℤ) (x : ℤ) :
    (l ++ [x]).foldl bounds_step [] = bounds_step (l.foldl bounds_step []) x := by
  simp [List.foldl_append]

/-- The fold of `bounds_step` keeps the first occurrence of every element: the result has
no duplicate, the same elements, and the order of first occurrences. -/
theorem bounds_fold_spec (l : List ℤ) :
    (l.foldl bounds_step []).Nodup ∧ (∀ a, a ∈ l.foldl bounds_step [] ↔ a ∈ l) ∧
      ∀ a b, a ∈ l → b ∈ l →
        ((l.foldl bounds_step []).indexOf a < (l.foldl bounds_step []).indexOf b ↔
          l.indexOf a < l.indexOf b) := by
  induction l using List.reverseRecOn with
  | nil => simp
  | append_singleton l x ih =>
    obtain ⟨hnd, hmem, hord⟩ := ih
    rw [bounds_fold_snoc]
    by_cases hx : x ∈ l.foldl bounds_step []
    · have hxl : x ∈ l := (hmem x).mp hx
      simp only [bounds_step, hx, if_true]
      refine ⟨hnd, ?_, ?_⟩
      · intro a
        rw [hmem a]
        simp only [List.mem_append, List.mem_singleton]
        constructor
        · exact Or.inl
        · rintro (h | rfl)
          · exact h
          · exact hxl
      · intro a b ha hb
        have ha' : a ∈ l := by
          rcases List.mem_append.mp ha with h | h
          · exact h
          · rw [List.mem_singleton.mp h]; exact hxl
        have hb' : b ∈ l := by
          rcases List.mem_append.mp hb with h | h
          · exact h
          · rw [List.mem_singleton.mp h]; exact hxl
        rw [List.indexOf_append_of_mem ha', List.indexOf_append_of_mem hb']
        exact hord a b ha' hb'
    · have hxl : x ∉ l := fun h => hx ((hmem x).mpr h)
      simp only [bounds_step, hx, if_false]
      refine ⟨?_, ?_, ?_⟩
      · rw [List.nodup_append]
        refine ⟨hnd, List.nodup_singleton x, ?_⟩
        intro a ha hax
        rw [List.mem_singleton.mp hax] at ha
        exact hx ha
      · intro a
        simp only [List.mem_append, List.mem_singleton, hmem a]
      · intro a b ha hb
        have hxB : (l.foldl bounds_step [] ++ [x]).indexOf x = (l.foldl bounds_step []).length := by
          rw [List.indexOf_append_of_not_mem hx, List.indexOf_cons_self, Nat.add_zero]
        have hxL : (l ++ [x]).indexOf x = l.length := by
          rw [List.indexOf_append_of_not_mem hxl, List.indexOf_cons_self, Nat.add_zero]
        by_cases hal : a ∈ l <;> by_cases hbl : b ∈ l
        · rw [List.indexOf_append_of_mem ((hmem a).mpr hal),
            List.indexOf_append_of_mem ((hmem b).mpr hbl),
            List.indexOf_append_of_mem hal, List.indexOf_append_of_mem hbl]
          exact hord a b hal hbl
        · have hbx : b = x := by
            rcases List.mem_append.mp hb with h | h
            · exact absurd h hbl
            · exact List.mem_singleton.mp h
          subst hbx
          rw [hxB, hxL, List.indexOf_append_of_mem ((hmem a).mpr hal),
            List.indexOf_append_of_mem hal]
          exact ⟨fun _ => List.indexOf_lt_length.mpr hal,
            fun _ => List.indexOf_lt_length.mpr ((hmem a).mpr hal)⟩
        · have hax : a = x := by
            rcases List.mem_append.mp ha with h | h
            · exact absurd h hal
            · exact List.mem_singleton.mp h
          subst hax
          rw [hxB, hxL, List.indexOf_append_of_mem ((hmem b).mpr hbl),
            List.indexOf_append_of_mem hbl]
          have h1 := List.indexOf_lt_length.mpr hbl
          have h2 := List.indexOf_lt_length.mpr ((hmem b).mpr hbl)
          constructor <;> intro h <;> omega
        · have hax : a = x := by
            rcases List.mem_append.mp ha with h | h
            · exact absurd h hal
            · exact List.mem_singleton.mp h
          have hbx : b = x := by
            rcases List.mem_append.mp hb with h | h
            · exact absurd h hbl
            · exact List.mem_singleton.mp h
          subst hax
          subst hbx
          simp

/-! ## `qhull`: claims on the index result and `BOUNDS` -/

/-- C8: for every index matrix produced from a facet list, the `BOUNDS` result computed
from it contains no id twice and every id in it occurs in the index matrix. -/
theorem qhull_bounds_nodup_subset (nd : ℕ) (delaunay isVoronoi : Bool) (q : QhullRun) :
    (qhull_bounds (qhull_indices nd delaunay isVoronoi q)).Nodup ∧
      ∀ id ∈ qhull_bounds (qhull_indices nd delaunay isVoronoi q),
        id ∈ index_matrix (qhull_indices nd delaunay isVoronoi q) := by
  rw [qhull_bounds_eq _ (qhull_indices_dim_le nd delaunay isVoronoi q)]
  obtain ⟨h1, h2, _⟩ := bounds_fold_spec (index_matrix (qhull_indices nd delaunay isVoronoi q))
  exact ⟨h1, fun id hid => (h2 id).mp hid⟩

theorem good_vertex_ids_length (fs : List QhullFacet) (n : ℕ)
    (h : ∀ f ∈ fs, f.isGood = true → f.vertices.length = n) :
    (good_vertex_ids fs).length = n * (fs.filter fun f => f.isGood).length := by
  induction fs with
  | nil => simp [good_vertex_ids]
  | cons f fs ih =>
    have ih' := ih (fun f' hf' => h f' (List.mem_cons_of_mem _ hf'))
    rw [good_vertex_ids_cons, List.length_append, ih']
    cases hf : f.isGood
    · simp [List.filter_cons, hf]
    · have := h f (List.mem_cons_self _ _) hf
      simp [List.filter_cons, hf, this, Nat.mul_add, Nat.add_comm]

theorem good_add_bad (fs : List QhullFacet) :
    (fs.filter fun f => f.isGood).length + bad_count fs = fs.length := by
  induction fs with
  | nil => simp [bad_count]
  | cons f fs ih =>
    rw [bad_count_cons]
    cases hf : f.isGood
    · simp [List.filter_cons, hf]; omega
    · simp [List.filter_cons, hf]; omega

/-- With every good facet a simplex of `ndRes` vertices, the flat index matrix is the list
of the vertex ids of the good facets. -/
theorem index_matrix_eq (nd : ℕ) (delaunay isVoronoi : Bool) (q : QhullRun)
    (hcount : q.facetCount = q.facetList.length)
    (hsimp : ∀ f ∈ q.facetList, f.isGood = true →
      f.vertices.length = ndRes nd delaunay isVoronoi) :
    index_matrix (qhull_indices nd delaunay isVoronoi q) = good_vertex_ids q.facetList := by
  have hlen := good_vertex_ids_length q.facetList _ hsimp
  have hgb := good_add_bad q.facetList
  have hle : (good_vertex_ids q.facetList).length ≤
      (List.replicate (ndRes nd delaunay isVoronoi * q.facetCount) (0 : ℤ)).length := by
    rw [hlen, List.length_replicate, hcount]
    exact Nat.mul_le_mul_left _ (by omega)
  unfold index_matrix
  rw [qhull_indices_data, (qhull_indices_dim nd delaunay isVoronoi q).1,
    (qhull_indices_dim nd delaunay isVoronoi q).2, facet_walk_eq _ _ hle]
  have hd : q.facetCount - bad_count q.facetList = (q.facetList.filter fun f => f.isGood).length := by
    omega
  rw [hd, ← hlen, List.take_left']
  rfl

theorem flatMap_uniform_getElem (L : List QhullFacet) (n : ℕ)
    (h : ∀ f ∈ L, f.vertices.length = n) (c r : ℕ) (f : QhullFacet)
    (hc : L[c]? = some f) (hr : r < n) :
    (L.flatMap fun f => f.vertices)[r + c * n]? = f.vertices[r]? := by
  induction L generalizing c with
  | nil => simp at hc
  | cons g L ih =>
    have hg := h g (List.mem_cons_self _ _)
    rw [List.flatMap_cons]
    cases c with
    | zero =>
      simp only [List.getElem?_cons_zero, Option.some.injEq] at hc
      subst hc
      rw [Nat.zero_mul, Nat.add_zero, List.getElem?_append_left (by omega)]
    | succ c =>
      simp only [List.getElem?_cons_succ] at hc
      rw [List.getElem?_append_right (by rw [hg, Nat.succ_mul]; omega)]
      have : r + (c + 1) * n - g.vertices.length = r + c * n := by
        rw [hg, Nat.succ_mul]; omega
      rw [this]
      exact ih (fun f' hf' => h f' (List.mem_cons_of_mem _ hf')) c hc

/-- C10: for every facet list in which each good facet has exactly `ndRes` vertices, the
index result is an `ndRes x goodFacetCount` matrix whose `c`-th column holds the vertex ids
of the `c`-th good facet in facet-list order (entry `r` of column `c` is flat element
`r + c*ndRes`); facets that are not good contribute no entries, and `goodFacetCount` equals
the engine's facet count minus the number of facets that are not good. -/
theorem qhull_indices_columns (nd : ℕ) (delaunay isVoronoi : Bool) (q : QhullRun)
    (hcount : q.facetCount = q.facetList.length)
    (hsimp : ∀ f ∈ q.facetList, f.isGood = true →
      f.vertices.length = ndRes nd delaunay isVoronoi) :
    (qhull_indices nd delaunay isVoronoi q).dim0 = ndRes nd delaunay isVoronoi ∧
      (qhull_indices nd delaunay isVoronoi q).dim1 = (good_facets q).length ∧
      (good_facets q).length = q.facetCount - bad_count q.facetList ∧
      index_matrix (qhull_indices nd delaunay isVoronoi q) = good_vertex_ids q.facetList ∧
      ∀ c r f, (good_facets q)[c]? = some f → r < ndRes nd delaunay isVoronoi →
        (index_matrix (qhull_indices nd delaunay isVoronoi q))[r + c * ndRes nd delaunay isVoronoi]?
          = f.vertices[r]? := by
  have hgb := good_add_bad q.facetList
  have hd : (good_facets q).length = q.facetCount - bad_count q.facetList := by
    unfold good_facets; omega
  refine ⟨(qhull_indices_dim nd delaunay isVoronoi q).1, ?_, hd, ?_, ?_⟩
  · rw [(qhull_indices_dim nd delaunay isVoronoi q).2, hd]
  · exact index_matrix_eq nd delaunay isVoronoi q hcount hsimp
  · intro c r f hc hr
    rw [index_matrix_eq nd delaunay isVoronoi q hcount hsimp]
    refine flatMap_uniform_getElem (good_facets q) _ ?_ c r f hc hr
    intro f' hf'
    have hm := List.mem_filter.mp hf'
    exact hsimp f' hm.1 hm.2

theorem qhull_indices_columns_witness :
    (qhull_indices 2 true false q_sample).dim0 = ndRes 2 true false ∧
      (qhull_indices 2 true false q_sample).dim1 = (good_facets q_sample).length ∧
      (good_facets q_sample).length = q_sample.facetCount - bad_count q_sample.facetList ∧
      index_matrix (qhull_indices 2 true false q_sample) = good_vertex_ids q_sample.facetList ∧
      ∀ c r f, (good_facets q_sample)[c]? = some f → r < ndRes 2 true false →
        (index_matrix (qhull_indices 2 true false q_sample))[r + c * ndRes 2 true false]?
          = f.vertices[r]? :=
  qhull_indices_columns 2 true false q_sample (by decide) (by decide)

/-- C9: the `BOUNDS` result lists every vertex id that occurs in the index matrix, hence
(when each good facet has exactly `ndRes` vertices) every vertex id of every good facet,
and lists them in order of first occurrence in the flat, column-by-column index matrix,
not sorted: id `a` precedes id `b` in `BOUNDS` iff the first occurrence of `a` precedes the
first occurrence of `b`. -/
theorem qhull_bounds_first_occurrence_order (nd : ℕ) (delaunay isVoronoi : Bool)
    (q : QhullRun) :
    (∀ id ∈ index_matrix (qhull_indices nd delaunay isVoronoi q),
        id ∈ qhull_bounds (qhull_indices nd delaunay isVoronoi q)) ∧
      (∀ a b, a ∈ index_matrix (qhull_indices nd delaunay isVoronoi q) →
        b ∈ index_matrix (qhull_indices nd delaunay isVoronoi q) →
        ((qhull_bounds (qhull_indices nd delaunay isVoronoi q)).indexOf a <
            (qhull_bounds (qhull_indices nd delaunay isVoronoi q)).indexOf b ↔
          (index_matrix (qhull_indices nd delaunay isVoronoi q)).indexOf a <
            (index_matrix (qhull_indices nd delaunay isVoronoi q)).indexOf b)) ∧
      (q.facetCount = q.facetList.length →
        (∀ f ∈ q.facetList, f.isGood = true →
          f.vertices.length = ndRes nd delaunay isVoronoi) →
        ∀ f ∈ q.facetList, f.isGood = true → ∀ v ∈ f.vertices,
          v ∈ qhull_bounds (qhull_indices nd delaunay isVoronoi q)) := by
  rw [qhull_bounds_eq _ (qhull_indices_dim_le nd delaunay isVoronoi q)]
  obtain ⟨_, h2, h3⟩ := bounds_fold_spec (index_matrix (qhull_indices nd delaunay isVoronoi q))
  refine ⟨fun id hid => (h2 id).mpr hid, h3, ?_⟩
  intro hcount hsimp f hf hgood v hv
  rw [h2 v, index_matrix_eq nd delaunay isVoronoi q hcount hsimp]
  simp only [good_vertex_ids, List.mem_flatMap, List.mem_filter]
  exact ⟨f, ⟨hf, hgood⟩, hv⟩

theorem qhull_bounds_first_occurrence_order_witness :
    qhull_bounds (qhull_indices 2 true false q_sample) = [2, 0, 1, 3] ∧
      ∀ f ∈ q_sample.facetList, f.isGood = true → ∀ v ∈ f.vertices,
        v ∈ qhull_bounds (qhull_indices 2 true false q_sample) :=
  ⟨by decide, (qhull_bounds_first_occurrence_order 2 true false q_sample).2.2
    (by decide) (by decide)⟩

/-! ## `qhull`: the `CONNECTIVITY` block -/

theorem neighbor_step_mem (vid : ℤ) (s : NeighborState) (pid w : ℤ) :
    w ∈ (neighbor_step vid s pid).neighborsV ↔ w ∈ s.neighborsV ∨ (w = pid ∧ w ≠ vid) := by
  unfold neighbor_step
  split_ifs with h
  · simp only [List.mem_append, List.mem_singleton]
    constructor
    · rintro (hw | rfl)
      · exact Or.inl hw
      · exact Or.inr ⟨rfl, h.2⟩
    · rintro (hw | ⟨rfl, _⟩)
      · exact Or.inl hw
      · exact Or.inr rfl
  · constructor
    · exact Or.inl
    · rintro (hw | ⟨rfl, hne⟩)
      · exact hw
      · by_contra hnot
        exact h ⟨hnot, hne⟩

theorem neighbor_step_inv (vid : ℤ) (s : NeighborState) (pid : ℤ) (c0 : ℕ)
    (h : s.neighborsV.Nodup ∧ s.connCount = c0 + s.neighborsV.length) :
    (neighbor_step vid s pid).neighborsV.Nodup ∧
      (neighbor_step vid s pid).connCount = c0 + (neighbor_step vid s pid).neighborsV.length := by
  unfold neighbor_step
  split_ifs with hc
  · refine ⟨?_, ?_⟩
    · rw [List.nodup_append]
      refine ⟨h.1, List.nodup_singleton pid, ?_⟩
      intro a ha hap
      rw [List.mem_singleton.mp hap] at ha
      exact hc.1 ha
    · simp only [List.length_append, List.length_singleton, h.2]
      omega
  · exact h

theorem neighbor_fold_spec (vid : ℤ) (pids : List ℤ) (s : NeighborState) (c0 : ℕ)
    (h : s.neighborsV.Nodup ∧ s.connCount = c0 + s.neighborsV.length) :
    ((pids.foldl (neighbor_step vid) s).neighborsV.Nodup ∧
      (pids.foldl (neighbor_step vid) s).connCount =
        c0 + (pids.foldl (neighbor_step vid) s).neighborsV.length) ∧
      ∀ w, w ∈ (pids.foldl (neighbor_step vid) s).neighborsV ↔
        w ∈ s.neighborsV ∨ (w ∈ pids ∧ w ≠ vid) := by
  induction pids generalizing s with
  | nil => exact ⟨h, fun w => by simp⟩
  | cons pid rest ih =>
    obtain ⟨h1, h2⟩ := ih (neighbor_step vid s pid) (neighbor_step_inv vid s pid c0 h)
    refine ⟨h1, ?_⟩
    intro w
    rw [List.foldl_cons, h2 w, neighbor_step_mem]
    simp only [List.mem_cons]
    tauto

theorem neighbor_facet_fold_spec (vid : ℤ) (fs : List QhullFacet) (s : NeighborState) (c0 : ℕ)
    (h : s.neighborsV.Nodup ∧ s.connCount = c0 + s.neighborsV.length) :
    ((fs.foldl (neighbor_facet_step vid) s).neighborsV.Nodup ∧
      (fs.foldl (neighbor_facet_step vid) s).connCount =
        c0 + (fs.foldl (neighbor_facet_step vid) s).neighborsV.length) ∧
      ∀ w, w ∈ (fs.foldl (neighbor_facet_step vid) s).neighborsV ↔
        w ∈ s.neighborsV ∨ (w ≠ vid ∧ ∃ f ∈ fs, f.isGood = true ∧ w ∈ f.vertices) := by
  induction fs generalizing s with
  | nil => exact ⟨h, fun w => by simp⟩
  | cons f rest ih =>
    rw [List.foldl_cons]
    cases hf : f.isGood
    · have hstep : neighbor_facet_step vid s f = s := by simp [neighbor_facet_step, hf]
      rw [hstep]
      obtain ⟨h1, h2⟩ := ih s h
      refine ⟨h1, ?_⟩
      intro w
      rw [h2 w]
      simp only [List.mem_cons, exists_eq_or_imp, hf, Bool.false_eq_true, false_and, false_or]
    · have hstep : neighbor_facet_step vid s f = f.vertices.foldl (neighbor_step vid) s := by
        simp [neighbor_facet_step, hf]
      rw [hstep]
      obtain ⟨g1, g2⟩ := neighbor_fold_spec vid f.vertices s c0 h
      obtain ⟨h1, h2⟩ := ih _ g1
      refine ⟨h1, ?_⟩
      intro w
      rw [h2 w, g2 w]
      simp only [List.mem_cons, exists_eq_or_imp, hf, true_and]
      tauto

/-- The neighbour list of a vertex: no duplicate, the ids other than its own that occur in
a good incident facet, and one count per element. -/
theorem vertex_neighbors_spec (v : QhullVertex) (c : ℕ) :
    (vertex_neighbors v c).neighborsV.Nodup ∧
      (vertex_neighbors v c).connCount = c + (vertex_neighbors v c).neighborsV.length ∧
      ∀ w, w ∈ (vertex_neighbors v c).neighborsV ↔
        w ≠ v.id ∧ ∃ f ∈ v.neighborFacets, f.isGood = true ∧ w ∈ f.vertices := by
  obtain ⟨⟨h1, h2⟩, h3⟩ := neighbor_facet_fold_spec v.id v.neighborFacets
    { neighborsV := [], connCount := c } c ⟨List.nodup_nil, by simp⟩
  refine ⟨h1, h2, ?_⟩
  intro w
  have := h3 w
  simpa [vertex_neighbors] using this

theorem neighbor_step_count_irrel (vid : ℤ) (l : List ℤ) (c c' : ℕ) (pid : ℤ) :
    (neighbor_step vid { neighborsV := l, connCount := c } pid).neighborsV =
      (neighbor_step vid { neighborsV := l, connCount := c' } pid).neighborsV := by
  unfold neighbor_step
  split_ifs <;> rfl

theorem neighbor_fold_count_irrel (vid : ℤ) (pids : List ℤ) (s s' : NeighborState)
    (h : s.neighborsV = s'.neighborsV) :
    (pids.foldl (neighbor_step vid) s).neighborsV =
      (pids.foldl (neighbor_step vid) s').neighborsV := by
  induction pids generalizing s s' with
  | nil => exact h
  | cons pid rest ih =>
    rw [List.foldl_cons, List.foldl_cons]
    apply ih
    cases s
    cases s'
    simp only at h
    subst h
    exact neighbor_step_count_irrel vid _ _ _ pid

/-- The neighbour list of a vertex does not depend on the running value of `connCount`. -/
theorem vertex_neighbors_count_irrel (v : QhullVertex) (c c' : ℕ) :
    (vertex_neighbors v c).neighborsV = (vertex_neighbors v c').neighborsV := by
  unfold vertex_neighbors
  generalize hs : ({ neighborsV := [], connCount := c } : NeighborState) = s
  generalize hs' : ({ neighborsV := [], connCount := c' } : NeighborState) = s'
  have h : s.neighborsV = s'.neighborsV := by rw [← hs, ← hs']
  clear hs hs'
  induction v.neighborFacets generalizing s s' with
  | nil => exact h
  | cons f rest ih =>
    rw [List.foldl_cons, List.foldl_cons]
    apply ih
    unfold neighbor_facet_step
    split_ifs
    · exact h
    · exact neighbor_fold_count_irrel v.id f.vertices s s' h

theorem gather_fold_none (vs : List QhullVertex) : vs.foldl gather_step none = none := by
  induction vs with
  | nil => rfl
  | cons v rest ih => rw [List.foldl_cons]; exact ih

theorem sum_length_set (l : List (List ℤ)) (i : ℕ) (x : List ℤ) (hi : i < l.length)
    (he : l.getD i [] = []) :
    ((l.set i x).map List.length).sum = (l.map List.length).sum + x.length := by
  induction l generalizing i with
  | nil => simp at hi
  | cons a l ih =>
    cases i with
    | zero =>
      simp only [List.getD_cons_zero] at he
      subst he
      simp [Nat.add_comm]
    | succ i =>
      simp only [List.getD_cons_succ] at he
      simp only [List.length_cons, Nat.add_lt_add_iff_right] at hi
      simp only [List.set_cons_succ, List.map_cons, List.sum_cons, ih i hi he]
      omega

theorem toNat_ne_of_ne {a b : ℤ} (ha : 0 ≤ a) (hb : 0 ≤ b) (h : a ≠ b) : a.toNat ≠ b.toNat := by
  omega

/-- The gathering loop, when no range check fails: every vertex has its neighbour list at
the slot of its point id, the other slots are untouched, and `connCount` has grown by the
lengths of the lists. -/
theorem gather_fold_spec (vs : List QhullVertex) (g0 g : GatherState)
    (hd : (vs.map fun v => v.id).Nodup)
    (hg : vs.foldl gather_step (some g0) = some g) :
    g.connV.length = g0.connV.length ∧
      (∀ v ∈ vs, 0 ≤ v.id ∧ v.id.toNat < g0.connV.length ∧
        g.connV.getD v.id.toNat [] = (vertex_neighbors v 0).neighborsV) ∧
      (∀ i, (∀ v ∈ vs, v.id.toNat ≠ i) → g.connV.getD i [] = g0.connV.getD i []) ∧
      ((∀ v ∈ vs, 0 ≤ v.id → g0.connV.getD v.id.toNat [] = []) →
        (g.connV.map List.length).sum + g0.connCount =
          (g0.connV.map List.length).sum + g.connCount) := by
  induction vs generalizing g0 with
  | nil =>
    simp only [List.foldl_nil, Option.some.injEq] at hg
    subst hg
    simp
  | cons v rest ih =>
    rw [List.foldl_cons] at hg
    simp only [List.map_cons, List.nodup_cons, List.mem_map, not_exists, not_and] at hd
    obtain ⟨hv, hrest⟩ := hd
    by_cases hr : 0 ≤ v.id ∧ v.id.toNat < g0.connV.length
    · have hstep : gather_step (some g0) v =
          some { connV := g0.connV.set v.id.toNat (vertex_neighbors v g0.connCount).neighborsV,
                 connCount := (vertex_neighbors v g0.connCount).connCount } := by
        simp only [gather_step, Option.some_bind, hr, and_self, if_true]
      rw [hstep] at hg
      obtain ⟨h1, h2, h3, h4⟩ := ih _ hrest hg
      simp only [List.length_set] at h1 h2
      have hne : ∀ u ∈ rest, u.id.toNat ≠ v.id.toNat := fun u hu =>
        toNat_ne_of_ne (h2 u hu).1 hr.1 (fun h => hv u hu h)
      refine ⟨h1, ?_, ?_, ?_⟩
      · intro u hu
        rcases List.mem_cons.mp hu with rfl | hu
        · refine ⟨hr.1, hr.2, ?_⟩
          rw [h3 _ hne, List.getD_eq_getElem?_getD, List.getElem?_set_self hr.2]
          exact vertex_neighbors_count_irrel u _ _
        · exact h2 u hu
      · intro i hi
        have hi0 : v.id.toNat ≠ i := hi v (List.mem_cons_self _ _)
        rw [h3 i (fun u hu => hi u (List.mem_cons_of_mem _ hu)),
          List.getD_eq_getElem?_getD, List.getElem?_set_ne hi0, ← List.getD_eq_getElem?_getD]
      · intro hempty
        have hcnt := (vertex_neighbors_spec v g0.connCount).2.1
        have hsum := sum_length_set g0.connV v.id.toNat
          (vertex_neighbors v g0.connCount).neighborsV hr.2
          (hempty v (List.mem_cons_self _ _) hr.1)
        have h4' := h4 (by
          intro u hu hu0
          rw [List.getD_eq_getElem?_getD, List.getElem?_set_ne (hne u hu).symm,
            ← List.getD_eq_getElem?_getD]
          exact hempty u (List.mem_cons_of_mem _ hu) hu0)
        simp only at h4'
        omega
    · have hstep : gather_step (some g0) v = none := by
        simp only [gather_step, Option.some_bind, hr, if_false]
      rw [hstep, gather_fold_none] at hg
      exact absurd hg (by simp)

/-- The table built by `conn_gather`: `vertexCount` lists, that of every vertex at the slot
of its point id, and `connCount` equal to the total length of the lists. -/
theorem conn_gather_spec (n : ℕ) (vs : List QhullVertex) (g : GatherState)
    (hd : (vs.map fun v => v.id).Nodup) (hg : conn_gather n vs = some g) :
    g.connV.length = n ∧
      (∀ v ∈ vs, 0 ≤ v.id ∧ v.id.toNat < n ∧
        g.connV.getD v.id.toNat [] = (vertex_neighbors v 0).neighborsV) ∧
      (∀ i, (∀ v ∈ vs, v.id.toNat ≠ i) → g.connV.getD i [] = []) ∧
      g.connCount = (g.connV.map List.length).sum := by
  obtain ⟨h1, h2, h3, h4⟩ := gather_fold_spec vs _ g hd hg
  simp only [List.length_replicate] at h1 h2
  refine ⟨h1, h2, ?_, ?_⟩
  · intro i hi
    rw [h3 i hi]
    simp [List.getD_eq_getElem?_getD, List.getElem?_replicate]
    split_ifs <;> rfl
  · have h4' := h4 (by
      intro v _ _
      simp [List.getD_eq_getElem?_getD, List.getElem?_replicate]
      split_ifs <;> rfl)
    simp only [List.map_replicate, List.sum_replicate, List.length_nil, smul_eq_mul,
      Nat.mul_zero, Nat.add_zero, Nat.zero_add] at h4'
    exact h4'.symm

/-- The gathering loop never fails when every point id is an index of the table. -/
theorem gather_fold_some (vs : List QhullVertex) (g0 : GatherState)
    (hid : ∀ v ∈ vs, 0 ≤ v.id ∧ v.id.toNat < g0.connV.length) :
    ∃ g, vs.foldl gather_step (some g0) = some g := by
  induction vs generalizing g0 with
  | nil => exact ⟨g0, rfl⟩
  | cons v rest ih =>
    have hv := hid v (List.mem_cons_self _ _)
    have hstep : gather_step (some g0) v = some
        { connV := g0.connV.set v.id.toNat (vertex_neighbors v g0.connCount).neighborsV,
          connCount := (vertex_neighbors v g0.connCount).connCount } := by
      simp only [gather_step, Option.some_bind]
      rw [if_pos hv]
    rw [List.foldl_cons, hstep]
    apply ih
    intro w hw
    simpa using hid w (List.mem_cons_of_mem _ hw)

theorem conn_gather_some (np : ℕ) (vs : List QhullVertex)
    (hid : ∀ v ∈ vs, 0 ≤ v.id ∧ v.id < np) : ∃ g, conn_gather np vs = some g := by
  apply gather_fold_some
  intro v hv
  obtain ⟨h0, h1⟩ := hid v hv
  refine ⟨h0, ?_⟩
  simp only [List.length_replicate]
  omega

/-! ### The serialized buffer -/

theorem conn_write_succ (L conn : List ℤ) (w n : ℕ) :
    (List.range (n + 1)).foldl (fun conn j => conn.set (w + j) (L.getD j 0)) conn =
      ((List.range n).foldl (fun conn j => conn.set (w + j) (L.getD j 0)) conn).set (w + n)
        (L.getD n 0) := by
  simp [List.range_succ, List.foldl_append]

theorem conn_write_partial (L conn : List ℤ) (w n : ℕ) :
    ((List.range n).foldl (fun conn j => conn.set (w + j) (L.getD j 0)) conn).length
        = conn.length ∧
      (∀ x, x < w ∨ w + n ≤ x →
        ((List.range n).foldl (fun conn j => conn.set (w + j) (L.getD j 0)) conn)[x]? = conn[x]?) ∧
      (∀ j, j < n → w + j < conn.length →
        ((List.range n).foldl (fun conn j => conn.set (w + j) (L.getD j 0)) conn)[w + j]?
          = some (L.getD j 0)) := by
  induction n with
  | zero => simp
  | succ n ih =>
    obtain ⟨h1, h2, h3⟩ := ih
    rw [conn_write_succ]
    refine ⟨by rw [List.length_set, h1], ?_, ?_⟩
    · intro x hx
      rw [List.getElem?_set_ne (by omega), h2 x (by omega)]
    · intro j hj hlt
      by_cases hjn : j = n
      · subst hjn
        rw [List.getElem?_set_self (by rw [h1]; exact hlt)]
      · rw [List.getElem?_set_ne (by omega), h3 j (by omega) hlt]

theorem conn_write_spec (L conn : List ℤ) (w : ℕ) :
    (conn_write L conn w).length = conn.length ∧
      (∀ x, x < w ∨ w + L.length ≤ x → (conn_write L conn w)[x]? = conn[x]?) ∧
      (∀ j, j < L.length → w + j < conn.length →
        (conn_write L conn w)[w + j]? = some (L.getD j 0)) :=
  conn_write_partial L conn w L.length

theorem serial_step_spec (connV : List (List ℤ)) (s : SerialState) (i : ℕ) :
    (serial_step connV s i).writeIx = s.writeIx + (connV.getD i []).length ∧
      (serial_step connV s i).conn.length = s.conn.length ∧
      (∀ x, x ≠ i → (x < s.writeIx ∨ s.writeIx + (connV.getD i []).length ≤ x) →
        (serial_step connV s i).conn[x]? = s.conn[x]?) ∧
      (i < s.conn.length → (serial_step connV s i).conn[i]? = some (s.writeIx : ℤ)) ∧
      (∀ j, j < (connV.getD i []).length → s.writeIx + j < s.conn.length →
        s.writeIx + j ≠ i →
        (serial_step connV s i).conn[s.writeIx + j]? = some ((connV.getD i []).getD j 0)) := by
  obtain ⟨h1, h2, h3⟩ := conn_write_spec (connV.getD i []) s.conn s.writeIx
  refine ⟨rfl, ?_, ?_, ?_, ?_⟩
  · simp only [serial_step, List.length_set, h1]
  · intro x hx hr
    simp only [serial_step]
    rw [List.getElem?_set_ne (Ne.symm hx), h2 x hr]
  · intro hi
    simp only [serial_step]
    rw [List.getElem?_set_self (by rw [h1]; exact hi)]
  · intro j hj hlt hne
    simp only [serial_step]
    rw [List.getElem?_set_ne (Ne.symm hne), h3 j hj hlt]

theorem conn_offset_zero (np : ℕ) (connV : List (List ℤ)) : conn_offset np connV 0 = np + 1 := by
  simp [conn_offset]

theorem conn_offset_succ (np : ℕ) (connV : List (List ℤ)) (i : ℕ) (hi : i < connV.length) :
    conn_offset np connV (i + 1) = conn_offset np connV i + (connV.getD i []).length := by
  simp only [conn_offset, List.take_succ, List.getElem?_eq_getElem hi, Option.toList_some,
    List.map_append, List.sum_append, List.map_cons, List.map_nil, List.sum_cons, List.sum_nil,
    List.getD_eq_getElem?_getD, Option.getD_some]
  omega

theorem conn_offset_mono (np : ℕ) (connV : List (List ℤ)) (i k : ℕ) (hik : i ≤ k)
    (hk : k ≤ connV.length) : conn_offset np connV i ≤ conn_offset np connV k := by
  induction k with
  | zero =>
    have : i = 0 := by omega
    subst this
    exact le_refl _
  | succ k ih =>
    by_cases h : i = k + 1
    · subst h; exact le_refl _
    · have := ih (by omega) (by omega)
      rw [conn_offset_succ np connV k (by omega)]
      omega

theorem conn_offset_length (np : ℕ) (connV : List (List ℤ)) :
    conn_offset np connV connV.length = np + 1 + (connV.map List.length).sum := by
  simp [conn_offset]

theorem serial_loop_succ (connV : List (List ℤ)) (s : SerialState) (n : ℕ) :
    (List.range (n + 1)).foldl (serial_step connV) s =
      serial_step connV ((List.range n).foldl (serial_step connV) s) n := by
  simp [List.range_succ, List.foldl_append]

/-- The state of the serialization loop after `n` iterations. -/
theorem serial_loop_inv (np connCount : ℕ) (connV : List (List ℤ)) (hlen : connV.length ≤ np)
    (hcount : connCount = (connV.map List.length).sum) (conn0 : List ℤ)
    (h0 : conn0.length = np + 1 + connCount)
    (hnp : conn0[np]? = some ((np + 1 + connCount : ℕ) : ℤ)) (n : ℕ) (hn : n ≤ connV.length) :
    ((List.range n).foldl (serial_step connV) { conn := conn0, writeIx := np + 1 }).writeIx
        = conn_offset np connV n ∧
      ((List.range n).foldl (serial_step connV) { conn := conn0, writeIx := np + 1 }).conn.length
        = np + 1 + connCount ∧
      ((List.range n).foldl (serial_step connV) { conn := conn0, writeIx := np + 1 }).conn[np]?
        = some ((np + 1 + connCount : ℕ) : ℤ) ∧
      (∀ i, i < n →
        ((List.range n).foldl (serial_step connV) { conn := conn0, writeIx := np + 1 }).conn[i]?
          = some ((conn_offset np connV i : ℕ) : ℤ)) ∧
      (∀ i, i < n → ∀ j, j < (connV.getD i []).length →
        ((List.range n).foldl (serial_step connV)
            { conn := conn0, writeIx := np + 1 }).conn[conn_offset np connV i + j]?
          = some ((connV.getD i []).getD j 0)) := by
  induction n with
  | zero =>
    refine ⟨by simp [conn_offset], by simpa using h0, by simpa using hnp, ?_, ?_⟩
    · intro i hi; omega
    · intro i hi; omega
  | succ n ih =>
    obtain ⟨ha, hb, hc, hd, he⟩ := ih (by omega)
    obtain ⟨s1, s2, s3, s4, s5⟩ := serial_step_spec connV
      ((List.range n).foldl (serial_step connV) { conn := conn0, writeIx := np + 1 }) n
    rw [ha] at s1 s3 s4 s5
    rw [hb] at s2 s4 s5
    have hsucc := conn_offset_succ np connV n (by omega)
    have hle : conn_offset np connV (n + 1) ≤ np + 1 + connCount := by
      rw [hcount, ← conn_offset_length]
      exact conn_offset_mono np connV _ _ hn (le_refl _)
    have hge : np + 1 ≤ conn_offset np connV n := by
      rw [← conn_offset_zero np connV]
      exact conn_offset_mono np connV 0 n (Nat.zero_le _) (by omega)
    rw [serial_loop_succ]
    refine ⟨by rw [s1, hsucc], by rw [s2], ?_, ?_, ?_⟩
    · rw [s3 np (by omega) (Or.inl (by omega)), hc]
    · intro i hi
      by_cases hin : i = n
      · subst hin
        exact s4 (by omega)
      · rw [s3 i hin (Or.inl (by omega)), hd i (by omega)]
    · intro i hi j hj
      by_cases hin : i = n
      · subst hin
        exact s5 j hj (by omega) (by omega)
      · have hmono := conn_offset_mono np connV (i + 1) n (by omega) (by omega)
        have hsi := conn_offset_succ np connV i (by omega)
        have hgi : np + 1 ≤ conn_offset np connV i := by
          rw [← conn_offset_zero np connV]
          exact conn_offset_mono np connV 0 i (Nat.zero_le _) (by omega)
        rw [s3 _ (by omega) (Or.inl (by omega)), he i (by omega) j hj]

/-- The serialized buffer for `np` lists whose total length is `connCount`: its length, the
trailer slot, the header slots and the position of every list element. -/
theorem conn_serialize_spec (np connCount : ℕ) (connV : List (List ℤ))
    (hlen : connV.length = np) (hcount : connCount = (connV.map List.length).sum) :
    (conn_serialize np connCount connV).length = np + 1 + connCount ∧
      (conn_serialize np connCount connV)[np]? = some ((np + 1 + connCount : ℕ) : ℤ) ∧
      (∀ i, i < np → (conn_serialize np connCount connV)[i]?
        = some ((conn_offset np connV i : ℕ) : ℤ)) ∧
      (∀ i, i < np → ∀ j, j < (connV.getD i []).length →
        (conn_serialize np connCount connV)[conn_offset np connV i + j]?
          = some ((connV.getD i []).getD j 0)) := by
  subst hlen
  obtain ⟨_, hb, hc, hd, he⟩ := serial_loop_inv connV.length connCount connV (le_refl _) hcount
    ((List.replicate (connV.length + 1 + connCount) (0 : ℤ)).set connV.length
      ((connV.length + 1 + connCount : ℕ) : ℤ))
    (by simp) (by rw [List.getElem?_set_self (by simp; omega)]) connV.length (le_refl _)
  exact ⟨hb, hc, hd, he⟩

/-! ### Claims on `CONNECTIVITY` -/

/-- C11: for `np` points whose vertices the engine reports with pairwise distinct point ids
(gathered without a failed range check into the per-vertex neighbour lists
`L_0 .. L_{np-1}` of `connV`), the `CONNECTIVITY` buffer has length `np + 1 + sum |L_i|`;
slot `np` holds that total length; slot `i < np` holds `np + 1 + sum_{j<i} |L_j|`
(`conn_offset`); the elements of `L_i` occupy the positions `slot[i] + j`, `j < |L_i|`, in
order; and `slot[i] + |L_i|` is the next slot's value (the total for the last list), so
the lists are concatenated in per-vertex order with no gaps. -/
theorem connectivity_buffer_layout (np : ℕ) (vs : List QhullVertex) (g : GatherState)
    (hd : (vs.map fun v => v.id).Nodup) (hg : conn_gather np vs = some g) :
    qhull_conn np np vs = some (conn_serialize np g.connCount g.connV) ∧
      g.connV.length = np ∧
      (conn_serialize np g.connCount g.connV).length
        = np + 1 + (g.connV.map List.length).sum ∧
      (conn_serialize np g.connCount g.connV)[np]?
        = some ((np + 1 + (g.connV.map List.length).sum : ℕ) : ℤ) ∧
      (∀ i, i < np → (conn_serialize np g.connCount g.connV)[i]?
        = some ((np + 1 + ((g.connV.take i).map List.length).sum : ℕ) : ℤ)) ∧
      (∀ i, i < np → ∀ j, j < (g.connV.getD i []).length →
        (conn_serialize np g.connCount g.connV)[conn_offset np g.connV i + j]?
          = some ((g.connV.getD i []).getD j 0)) ∧
      (∀ i, i < np →
        conn_offset np g.connV (i + 1) = conn_offset np g.connV i + (g.connV.getD i []).length) ∧
      conn_offset np g.connV np = np + 1 + (g.connV.map List.length).sum := by
  obtain ⟨hlen, _, _, hcount⟩ := conn_gather_spec np vs g hd hg
  obtain ⟨h1, h2, h3, h4⟩ := conn_serialize_spec np g.connCount g.connV hlen hcount
  refine ⟨by simp [qhull_conn, hg], hlen, by rw [h1, hcount], by rw [h2, hcount], h3, h4, ?_, ?_⟩
  · intro i hi
    exact conn_offset_succ np g.connV i (by omega)
  · rw [← hlen]
    exact conn_offset_length _ g.connV

theorem connectivity_buffer_layout_witness :
    qhull_conn 4 4 v_sample = some [5, 5, 7, 9, 11, 2, 3, 1, 3, 1, 2] :=
  (connectivity_buffer_layout 4 v_sample
    { connV := [[], [2, 3], [1, 3], [1, 2]], connCount := 6 } (by decide) rfl).1

/-- C12: for every vertex `v` of the engine's vertex list (point ids pairwise distinct, no
failed range check), the neighbour list built for `CONNECTIVITY` and stored at the slot of
`v` contains exactly the point ids `w != v` such that `w` is a vertex of some good facet
incident to `v`, each such id exactly once; vertices of incident facets that are not good
contribute nothing and `v` itself never appears. -/
theorem connectivity_neighbours_exact (n : ℕ) (vs : List QhullVertex) (g : GatherState)
    (hd : (vs.map fun v => v.id).Nodup) (hg : conn_gather n vs = some g)
    (v : QhullVertex) (hv : v ∈ vs) :
    g.connV.getD v.id.toNat [] = (vertex_neighbors v 0).neighborsV ∧
      (∀ w, w ∈ g.connV.getD v.id.toNat [] ↔
        w ≠ v.id ∧ ∃ f ∈ v.neighborFacets, f.isGood = true ∧ w ∈ f.vertices) ∧
      (∀ w, w ∈ g.connV.getD v.id.toNat [] → (g.connV.getD v.id.toNat []).count w = 1) ∧
      v.id ∉ g.connV.getD v.id.toNat [] := by
  obtain ⟨_, h2, _, _⟩ := conn_gather_spec n vs g hd hg
  obtain ⟨hnd, _, hmem⟩ := vertex_neighbors_spec v 0
  rw [(h2 v hv).2.2]
  refine ⟨rfl, hmem, ?_, ?_⟩
  · intro w hw
    exact List.count_eq_one_of_mem hnd hw
  · intro h
    exact ((hmem v.id).mp h).1 rfl

theorem connectivity_neighbours_exact_witness :
    ([[], [2, 3], [1, 3], [1, 2]] : List (List ℤ)).getD (1 : ℤ).toNat [] = [2, 3] :=
  (connectivity_neighbours_exact 4 v_sample
    { connV := [[], [2, 3], [1, 3], [1, 2]], connCount := 6 } (by decide) rfl
    { id := 1, neighborFacets := [⟨true, [1, 2, 3]⟩, ⟨false, [0, 1, 2]⟩] } (by simp [v_sample])).1

/-- C13, as stated, fails: in the buffer of `v_sample` the vertex `0` has no neighbour and
its header slot holds `5`, which is the position where the neighbour list `[2, 3]` of
vertex `1` starts (header slot `1` holds `5` as well); the slot holds no sentinel. -/
theorem connectivity_no_sentinel_counterexample :
    qhull_conn 4 4 v_sample = some [5, 5, 7, 9, 11, 2, 3, 1, 3, 1, 2] ∧
      (conn_gather 4 v_sample).map (fun g => g.connV) = some [[], [2, 3], [1, 3], [1, 2]] ∧
      ¬ (∀ conn connV, qhull_conn 4 4 v_sample = some conn →
          (conn_gather 4 v_sample).map (fun g => g.connV) = some connV →
          ∀ i, i < 4 → connV.getD i [] = [] →
            ∀ k, k < 4 → connV.getD k [] ≠ [] → conn.getD i 0 ≠ (conn_offset 4 connV k : ℤ)) := by
  refine ⟨by decide, by decide, ?_⟩
  intro h
  exact h [5, 5, 7, 9, 11, 2, 3, 1, 3, 1, 2] [[], [2, 3], [1, 3], [1, 2]] (by decide)
    (by decide) 0 (by decide) (by decide) 1 (by decide) (by decide) (by decide)

/-- C13, amended: when the vertex count reported by the engine is `np` and the vertices
have distinct point ids in `0 .. np-1` (the premise under which the buffer has the layout of
C11), the header slot of every vertex `i < np`, with or without neighbours, holds the
position `np + 1 + sum_{j<i} |L_j|` where its list starts.  For a vertex with neighbours
the first element of its list is at that position; for a vertex without neighbours the
slot holds the same value as the next slot (the start of the next list, or the total length
in the trailer slot), so its range is empty and no separate sentinel value is stored. -/
theorem connectivity_header_slots (np : ℕ) (vs : List QhullVertex)
    (hd : (vs.map fun v => v.id).Nodup) (hid : ∀ v ∈ vs, 0 ≤ v.id ∧ v.id < np) :
    ∃ g, conn_gather np vs = some g ∧
      qhull_conn np np vs = some (conn_serialize np g.connCount g.connV) ∧
      g.connV.length = np ∧
      ∀ i, i < np →
        (conn_serialize np g.connCount g.connV)[i]?
            = some ((conn_offset np g.connV i : ℕ) : ℤ) ∧
          (g.connV.getD i [] ≠ [] →
            (conn_serialize np g.connCount g.connV)[conn_offset np g.connV i]?
              = some ((g.connV.getD i []).getD 0 0)) ∧
          (g.connV.getD i [] = [] →
            (conn_serialize np g.connCount g.connV)[i]?
              = (conn_serialize np g.connCount g.connV)[i + 1]?) := by
  obtain ⟨g, hg⟩ := conn_gather_some np vs hid
  obtain ⟨hlen, _, _, hcount⟩ := conn_gather_spec np vs g hd hg
  obtain ⟨_, h2, h3, h4⟩ := conn_serialize_spec np g.connCount g.connV hlen hcount
  refine ⟨g, hg, by simp [qhull_conn, hg], hlen, ?_⟩
  intro i hi
  have hsucc := conn_offset_succ np g.connV i (by omega)
  refine ⟨h3 i hi, ?_, ?_⟩
  · intro hne
    have := h4 i hi 0 (List.length_pos.mpr hne)
    simpa using this
  · intro he
    rw [he, List.length_nil, Nat.add_zero] at hsucc
    by_cases hlast : i + 1 = np
    · subst hlast
      have hoff := conn_offset_length (i + 1) g.connV
      rw [hlen] at hoff
      rw [h3 i hi, h2]
      simp only [Option.some.injEq, Nat.cast_inj]
      omega
    · rw [h3 i hi, h3 (i + 1) (by omega), hsucc, Nat.add_zero]

theorem connectivity_header_slots_witness :
    ∃ g, conn_gather 4 v_sample = some g ∧
      qhull_conn 4 4 v_sample = some (conn_serialize 4 g.connCount g.connV) ∧
      g.connV.length = 4 ∧
      ∀ i, i < 4 →
        (conn_serialize 4 g.connCount g.connV)[i]?
            = some ((conn_offset 4 g.connV i : ℕ) : ℤ) ∧
          (g.connV.getD i [] ≠ [] →
            (conn_serialize 4 g.connCount g.connV)[conn_offset 4 g.connV i]?
              = some ((g.connV.getD i []).getD 0 0)) ∧
          (g.connV.getD i [] = [] →
            (conn_serialize 4 g.connCount g.connV)[i]?
              = (conn_serialize 4 g.connCount g.connV)[i + 1]?) :=
  connectivity_header_slots 4 v_sample (by decide) (by decide)
/-! ## `qhull`: the Voronoi diagram decode -/

/-- One well-formed 2-D group `4 a b x y` read from the start of a line adds the row
`[a, b, x, y]`. -/
theorem parse2_group (s : ParseState) (a b x y : ℤ) (rest : List ℤ)
    (h0 : s.line_ix = 0) (hl : s.line = []) :
    ([4, a, b, x, y] ++ rest).foldl parse2_step s =
      rest.foldl parse2_step
        { s with n_indices := 4, q_vdiag := s.q_vdiag ++ [[a, b, x, y]] } := by
  cases s with
  | mk line_ix n_indices line q_vdiag vdiag_length =>
    simp only at h0 hl
    subst h0
    subst hl
    simp [parse2_step]

/-- The 2-D row `[pointA, pointB, vertexX, vertexY]` held by a 4-tuple. -/
theorem parse2_rows (rows : List (ℤ × ℤ × ℤ × ℤ)) (s : ParseState)
    (h0 : s.line_ix = 0) (hl : s.line = []) :
    ((rows.flatMap fun r => [4, r.1, r.2.1, r.2.2.1, r.2.2.2]).foldl parse2_step s).q_vdiag =
      s.q_vdiag ++ rows.map fun r => [r.1, r.2.1, r.2.2.1, r.2.2.2] := by
  induction rows generalizing s with
  | nil => simp
  | cons r rows ih =>
    rw [List.flatMap_cons, parse2_group s _ _ _ _ _ h0 hl,
      ih { s with n_indices := 4, q_vdiag := s.q_vdiag ++ [[r.1, r.2.1, r.2.2.1, r.2.2.2]] } h0 hl]
    simp

theorem unbounded_row_nonzero (normsVertId : List (List ℤ)) (row : List ℤ)
    (h2 : row.getD 2 0 ≠ 0) (h3 : row.getD 3 0 ≠ 0) :
    unbounded_row normsVertId 0 1 row [2, 3] = row := by
  simp only [unbounded_row, h2, h3, if_false]

theorem vdiag2_row_append (J Z : List ℤ) (z0 z1 z2 z3 : ℤ) (i : ℕ) (row : List ℤ)
    (hJ : J.length = i * 2 * 2) :
    vdiag2_row (J ++ z0 :: z1 :: z2 :: z3 :: Z) i row =
      J ++ [row.getD 0 0, row.getD 1 0, row.getD 2 0 - 1, row.getD 3 0 - 1] ++ Z := by
  have h2 : List.range 2 = [0, 1] := by decide
  simp only [vdiag2_row, h2, List.foldl_cons, List.foldl_nil, ← hJ]
  simp [List.set_append_right]

theorem vdiag2_loop (q : List (List ℤ)) (n : ℕ) (hn : n ≤ q.length) :
    (List.range n).foldl (fun vdiag i => vdiag2_row vdiag i (q.getD i []))
        (List.replicate (2 * 2 * q.length) (0 : ℤ)) =
      ((q.take n).flatMap fun row =>
          [row.getD 0 0, row.getD 1 0, row.getD 2 0 - 1, row.getD 3 0 - 1])
        ++ List.replicate (2 * 2 * (q.length - n)) (0 : ℤ) := by
  induction n with
  | zero => simp
  | succ n ih =>
    have hlt : n < q.length := hn
    rw [List.range_succ, List.foldl_append, ih (by omega), List.foldl_cons, List.foldl_nil]
    have hz : List.replicate (2 * 2 * (q.length - n)) (0 : ℤ) =
        0 :: 0 :: 0 :: 0 :: List.replicate (2 * 2 * (q.length - (n + 1))) (0 : ℤ) := by
      have : 2 * 2 * (q.length - n) = 2 * 2 * (q.length - (n + 1)) + 4 := by omega
      rw [this]
      rfl
    have hJ : ((q.take n).flatMap fun row =>
        [row.getD 0 0, row.getD 1 0, row.getD 2 0 - 1, row.getD 3 0 - 1]).length = n * 2 * 2 := by
      have hmap : ∀ l : List (List ℤ), (l.flatMap fun row =>
          [row.getD 0 0, row.getD 1 0, row.getD 2 0 - 1, row.getD 3 0 - 1]).length
          = l.length * 2 * 2 := by
        intro l
        induction l with
        | nil => rfl
        | cons a l ihl => rw [List.flatMap_cons, List.length_append, ihl]; simp; omega
      rw [hmap, List.length_take, Nat.min_eq_left (by omega)]
    have hq : q.getD n [] = q[n] := List.getD_eq_getElem q [] hlt
    have ht : q.take (n + 1) = q.take n ++ [q[n]] := by
      rw [List.take_succ, List.getElem?_eq_getElem hlt]
      rfl
    rw [hz, vdiag2_row_append _ _ _ _ _ _ _ _ hJ, ht, hq, List.flatMap_append]
    simp only [List.flatMap_cons, List.flatMap_nil, List.append_nil, List.append_assoc,
      List.cons_append, List.nil_append]

/-- The 2-D output is the list of the rows, each as
`[row[0], row[1], row[2] - 1, row[3] - 1]`. -/
theorem vdiag2_output_data (q : List (List ℤ)) :
    (vdiag2_output q).data =
      q.flatMap fun row => [row.getD 0 0, row.getD 1 0, row.getD 2 0 - 1, row.getD 3 0 - 1] := by
  have h := vdiag2_loop q q.length (le_refl _)
  simp only [Nat.sub_self, Nat.mul_zero, List.replicate_zero, List.append_nil,
    List.take_length] at h
  simpa [vdiag2_output, DLongGDL.zero] using h

/-- C14: in the 2-D Voronoi diagram decode, for every well-formed input made of groups
`4 pointA pointB vertexX vertexY` with `vertexX` and `vertexY` both non-zero, the output
has one row per group in input order (a `4 x rows` array), and each row is
`[pointA, pointB, vertexX - 1, vertexY - 1]`: point ids unchanged, vertex references
converted from 1-based to 0-based. -/
theorem vdiag2_bounded_rows (rows : List (ℤ × ℤ × ℤ × ℤ)) (normsVertId : List (List ℤ))
    (hnz : ∀ r ∈ rows, r.2.2.1 ≠ 0 ∧ r.2.2.2 ≠ 0) :
    (qhull_vdiag2 (rows.flatMap fun r => [4, r.1, r.2.1, r.2.2.1, r.2.2.2]) normsVertId).dim0 = 4 ∧
      (qhull_vdiag2 (rows.flatMap fun r => [4, r.1, r.2.1, r.2.2.1, r.2.2.2]) normsVertId).dim1
        = rows.length ∧
      (qhull_vdiag2 (rows.flatMap fun r => [4, r.1, r.2.1, r.2.2.1, r.2.2.2]) normsVertId).data
        = rows.flatMap fun r => [r.1, r.2.1, r.2.2.1 - 1, r.2.2.2 - 1] := by
  have hparse : parse2 (rows.flatMap fun r => [4, r.1, r.2.1, r.2.2.1, r.2.2.2]) =
      rows.map fun r => [r.1, r.2.1, r.2.2.1, r.2.2.2] := by
    have := parse2_rows rows parse_init rfl rfl
    simpa [parse2, parse_init] using this
  have hunb : unbounded2 normsVertId (rows.map fun r => [r.1, r.2.1, r.2.2.1, r.2.2.2]) =
      rows.map fun r => [r.1, r.2.1, r.2.2.1, r.2.2.2] := by
    unfold unbounded2
    rw [List.map_map]
    apply List.map_congr_left
    intro r hr
    exact unbounded_row_nonzero normsVertId _ (by simpa using (hnz r hr).1)
      (by simpa using (hnz r hr).2)
  unfold qhull_vdiag2
  rw [hparse, hunb]
  refine ⟨rfl, by simp [vdiag2_output], ?_⟩
  rw [vdiag2_output_data, List.flatMap_map]
  rfl

theorem vdiag2_bounded_rows_witness :
    (qhull_vdiag2 [4, 0, 1, 2, 3, 4, 1, 2, 3, 1] [[2, 0, 2]]).data = [0, 1, 1, 2, 1, 2, 2, 0] :=
  (vdiag2_bounded_rows [(0, 1, 2, 3), (1, 2, 3, 1)] [[2, 0, 2]] (by decide)).2.2

/-- The index returned by `find_norm` is that of the first entry of the normals table whose
point pair is `(a, b)`. -/
theorem find_norm_eq_some (a b : ℤ) (normsVertId : List (List ℤ)) (k : ℕ) :
    find_norm a b normsVertId = some k ↔
      k < normsVertId.length ∧
        (a = (normsVertId.getD k []).getD 1 0 ∧ b = (normsVertId.getD k []).getD 2 0) ∧
        ∀ k', k' < k →
          ¬ (a = (normsVertId.getD k' []).getD 1 0 ∧ b = (normsVertId.getD k' []).getD 2 0) := by
  unfold find_norm
  rw [List.find?_range_eq_some]
  simp only [Bool.and_eq_true, decide_eq_true_eq, Bool.not_eq_true', Bool.and_eq_false_imp,
    decide_eq_false_iff_not, not_and, List.mem_range]
  constructor
  · rintro ⟨h1, h2, h3⟩
    exact ⟨h2, h1, h3⟩
  · rintro ⟨h1, h2, h3⟩
    exact ⟨h2, h1, h3⟩

theorem block4_getElem (L : List (List ℤ)) (f : List ℤ → List ℤ)
    (hf : ∀ row, (f row).length = 4) (i j : ℕ) (row : List ℤ) (hi : L[i]? = some row)
    (hj : j < 4) : (L.flatMap f)[4 * i + j]? = (f row)[j]? := by
  induction L generalizing i with
  | nil => simp at hi
  | cons a L ih =>
    rw [List.flatMap_cons]
    cases i with
    | zero =>
      simp only [List.getElem?_cons_zero, Option.some.injEq] at hi
      subst hi
      rw [Nat.mul_zero, Nat.zero_add, List.getElem?_append_left (by rw [hf]; exact hj)]
    | succ i =>
      simp only [List.getElem?_cons_succ] at hi
      rw [List.getElem?_append_right (by rw [hf]; omega)]
      have : 4 * (i + 1) + j - (f a).length = 4 * i + j := by rw [hf]; omega
      rw [this]
      exact ih i hi

/-- The element `j` of row `i` of the 2-D output is element `j` of the row after the
handling of unbounded half-spaces, less one for the two vertex references. -/
theorem vdiag2_output_get (q : List (List ℤ)) (i : ℕ) (row : List ℤ) (hi : q[i]? = some row) :
    (vdiag2_output q).data[4 * i + 2]? = some (row.getD 2 0 - 1) ∧
      (vdiag2_output q).data[4 * i + 3]? = some (row.getD 3 0 - 1) := by
  rw [vdiag2_output_data]
  constructor
  · rw [block4_getElem q
      (fun row => [row.getD 0 0, row.getD 1 0, row.getD 2 0 - 1, row.getD 3 0 - 1])
      (fun _ => rfl) i 2 row hi (by decide)]
    rfl
  · rw [block4_getElem q
      (fun row => [row.getD 0 0, row.getD 1 0, row.getD 2 0 - 1, row.getD 3 0 - 1])
      (fun _ => rfl) i 3 row hi (by decide)]
    rfl

/-- C15, as stated, fails: for the row `[7, 8, 0, 5]` and a normals table whose entry
`k = 1` is the first with point pair `(7, 8)`, the zero vertex reference is returned as
`-2 = -k - 1`, not as `-k = -1`: the subtraction of one is applied to the sentinel too. -/
theorem vdiag2_sentinel_counterexample :
    find_norm 7 8 [[2, 1, 2], [2, 7, 8]] = some 1 ∧
      (qhull_vdiag2 [4, 7, 8, 0, 5] [[2, 1, 2], [2, 7, 8]]).data = [7, 8, -2, 4] ∧
      (qhull_vdiag2 [4, 7, 8, 0, 5] [[2, 1, 2], [2, 7, 8]]).data.getD 2 0 ≠ -((1 : ℕ) : ℤ) := by
  decide

/-- C15, amended: in the 2-D Voronoi diagram decode, the first zero vertex reference of a
row `[pointA, pointB, vertexX, vertexY]` (position `2`, or position `3` when `vertexX` is
not zero) is returned as `-k - 1`, where `k` is the row index of the first normals-table
entry whose straddling-point pair equals `(pointA, pointB)`: the 1-based to 0-based
subtraction is applied to the sentinel as it is to ordinary vertex references. -/
theorem vdiag2_zero_reference (tokens : List ℤ) (normsVertId : List (List ℤ)) (i : ℕ)
    (row : List ℤ) (hrow : (parse2 tokens)[i]? = some row) (hlen : row.length = 4) (j : ℕ)
    (hj : (j = 2 ∧ row.getD 2 0 = 0) ∨ (j = 3 ∧ row.getD 2 0 ≠ 0 ∧ row.getD 3 0 = 0))
    (k : ℕ) (hk : find_norm (row.getD 0 0) (row.getD 1 0) normsVertId = some k) :
    (qhull_vdiag2 tokens normsVertId).data[4 * i + j]? = some (-(k : ℤ) - 1) ∧
      k < normsVertId.length ∧
      (row.getD 0 0 = (normsVertId.getD k []).getD 1 0 ∧
        row.getD 1 0 = (normsVertId.getD k []).getD 2 0) ∧
      ∀ k', k' < k → ¬ (row.getD 0 0 = (normsVertId.getD k' []).getD 1 0 ∧
        row.getD 1 0 = (normsVertId.getD k' []).getD 2 0) := by
  refine ⟨?_, (find_norm_eq_some _ _ _ _).mp hk⟩
  have hq : (unbounded2 normsVertId (parse2 tokens))[i]? =
      some (unbounded_row normsVertId 0 1 row [2, 3]) := by
    simp [unbounded2, List.getElem?_map, hrow]
  obtain ⟨h2, h3⟩ := vdiag2_output_get _ i _ hq
  unfold qhull_vdiag2
  rcases hj with ⟨rfl, hz⟩ | ⟨rfl, hnz, hz⟩
  · rw [h2]
    simp only [unbounded_row, hz, if_true, hk]
    rw [List.getD_eq_getElem?_getD, List.getElem?_set_self (by omega)]
    rfl
  · rw [h3]
    simp only [unbounded_row, hnz, if_false, hz, if_true, hk]
    rw [List.getD_eq_getElem?_getD, List.getElem?_set_self (by omega)]
    rfl

theorem vdiag2_zero_reference_witness :
    (qhull_vdiag2 [4, 1, 2, 3, 4, 4, 7, 8, 5, 0] [[2, 1, 2], [2, 0, 0], [2, 7, 8]]).data[4 * 1 + 3]?
      = some (-((2 : ℕ) : ℤ) - 1) :=
  (vdiag2_zero_reference [4, 1, 2, 3, 4, 4, 7, 8, 5, 0] [[2, 1, 2], [2, 0, 0], [2, 7, 8]] 1
    [7, 8, 5, 0] (by decide) (by decide) 3 (Or.inr (by decide)) 2 (by decide)).1

/-- C16, the code at the failing input: a 3-D diagram of three rows
`[5,1,2,0,3,4]`, `[5,3,0,1,2,4]`, `[5,2,3,3,6,7]` (count, two generating points, vertex
references) and a normals table whose entry `2` has the pair `(1, 2)` and entry `1` the pair
`(3, 0)`.  The loop over `j` runs from `2` while `j < q_vdiag.size() = 3`, so only position
`2`, the second generating point, is tested: the zero vertex reference of row `0` is left
unresolved (it is returned as `-1`, not derived from `k = 2`), and the generating point `0`
of row `1` is taken for a sentinel and replaced by `-1`.  With a single row the loop does
not run at all. -/
theorem vdiagN_sentinel_loop_bounds :
    (parseN [5, 1, 2, 0, 3, 4, 5, 3, 0, 1, 2, 4, 5, 2, 3, 3, 6, 7]).q_vdiag =
        [[5, 1, 2, 0, 3, 4], [5, 3, 0, 1, 2, 4], [5, 2, 3, 3, 6, 7]] ∧
      find_norm 1 2 [[2, 9, 9], [2, 3, 0], [2, 1, 2]] = some 2 ∧
      unboundedN [[2, 9, 9], [2, 3, 0], [2, 1, 2]]
          [[5, 1, 2, 0, 3, 4], [5, 3, 0, 1, 2, 4], [5, 2, 3, 3, 6, 7]] =
        [[5, 1, 2, 0, 3, 4], [5, 3, -1, 1, 2, 4], [5, 2, 3, 3, 6, 7]] ∧
      qhull_vdiagN [5, 1, 2, 0, 3, 4, 5, 3, 0, 1, 2, 4, 5, 2, 3, 3, 6, 7]
          [[2, 9, 9], [2, 3, 0], [2, 1, 2]] =
        [5, 1, 2, -1, 2, 3, 5, 3, -1, 0, 1, 3, 5, 2, 3, 2, 5, 6] ∧
      qhull_vdiagN [5, 1, 2, 0, 3, 4] [[2, 9, 9], [2, 3, 0], [2, 1, 2]] = [5, 1, 2, -1, 2, 3] := by
  decide

/-- C17, the code at the failing input: a 3-D diagram of three rows `[4,3,0,1,2]`,
`[4,1,2,3,4]`, `[4,2,3,5,6]` and a normals table whose entry `1` has the pair `(3, 0)`.
The output has the total length `15 = sum (n_i + 1)` and keeps the rows in order, but the
generating point `0` of the first row is returned as `-1`: the handling of unbounded
half-spaces starts at position `2`, a generating point, and overwrites it with `-k`. -/
theorem vdiagN_generating_point_overwritten :
    (parseN [4, 3, 0, 1, 2, 4, 1, 2, 3, 4, 4, 2, 3, 5, 6]).q_vdiag =
        [[4, 3, 0, 1, 2], [4, 1, 2, 3, 4], [4, 2, 3, 5, 6]] ∧
      (parseN [4, 3, 0, 1, 2, 4, 1, 2, 3, 4, 4, 2, 3, 5, 6]).vdiag_length = 15 ∧
      qhull_vdiagN [4, 3, 0, 1, 2, 4, 1, 2, 3, 4, 4, 2, 3, 5, 6] [[2, 1, 2], [2, 3, 0]] =
        [4, 3, -1, 0, 1, 4, 1, 2, 2, 3, 4, 2, 3, 4, 5] ∧
      (qhull_vdiagN [4, 3, 0, 1, 2, 4, 1, 2, 3, 4, 4, 2, 3, 5, 6] [[2, 1, 2], [2, 3, 0]]).getD 2 0
        ≠ 0 := by
  decide

/-! ## `qhull`: input checks -/

/-- After the checks the only error left is a failed range check. -/
theorem qhull_results_error (kw : QhullKeywords) (nd np : ℕ) (p0 : List DDouble)
    (engine : QhullEngine) (e : QhullError) (h : qhull_results kw nd np p0 engine = .error e) :
    e = .out_of_range := by
  unfold qhull_results at h
  simp only at h
  split_ifs at h <;> (injection h with h; exact h.symm)

/-- An error raised by the checks is the result of `qhull`, whatever the engine. -/
theorem qhull_of_checks_some (kw : QhullKeywords) (nd np : ℕ) (p0 : List DDouble)
    (engine : QhullEngine) (e : QhullError) (h : qhull_checks kw nd np p0 = some e) :
    qhull kw nd np p0 engine = .error e := by
  simp [qhull, h]

/-- A result of `qhull` that is an error other than a failed range check comes from the
checks. -/
theorem qhull_error_iff_checks (kw : QhullKeywords) (nd np : ℕ) (p0 : List DDouble)
    (engine : QhullEngine) (e : QhullError) (hne : e ≠ .out_of_range) :
    qhull kw nd np p0 engine = .error e ↔ qhull_checks kw nd np p0 = some e := by
  constructor
  · intro h
    unfold qhull at h
    split at h
    · rename_i e' he'
      injection h with h
      rw [he', h]
    · exact absurd (qhull_results_error kw nd np p0 engine e h) hne
  · exact qhull_of_checks_some kw nd np p0 engine e

/-- C18: for every point matrix with `nd >= 1` rows and `np >= 1` columns (the option
checks passed), `qhull` rejects the input on point count exactly when `np <= nd` (the
insufficient-points error, whose text names `np` and the required `nd + 1`) or when
Delaunay/Voronoi is requested and `np <= nd + 1` (the degenerate-simplex error); a plain
hull request with `np = nd + 1` is not rejected on point count. -/
theorem qhull_point_count_rejection (kw : QhullKeywords) (nd np : ℕ) (p0 : List DDouble)
    (engine : QhullEngine)
    (hconn : ¬ (kw.CONNECTIVITY = true ∧ isDelaunay kw.DELAUNAY kw.isVoronoi = false))
    (hsph : kw.SPHERE = false) (hnd : 1 ≤ nd) (hnp : 1 ≤ np) :
    ((∃ a b, qhull kw nd np p0 engine = .error (.not_enough_points a b)) ↔ np ≤ nd) ∧
      (np ≤ nd → qhull kw nd np p0 engine = .error (.not_enough_points np (nd + 1))) ∧
      (QhullError.not_enough_points np (nd + 1)).text =
        "qhull input error: not enough points (" ++ toString np
          ++ ") to construct initial simplex (need " ++ toString (nd + 1) ++ ")" ∧
      (qhull kw nd np p0 engine = .error .not_enough_points_available ↔
        (nd < np ∧ np ≤ nd + 1 ∧ isDelaunay kw.DELAUNAY kw.isVoronoi = true)) ∧
      (isDelaunay kw.DELAUNAY kw.isVoronoi = false → np = nd + 1 →
        (∀ a b, qhull kw nd np p0 engine ≠ .error (.not_enough_points a b)) ∧
          qhull kw nd np p0 engine ≠ .error .not_enough_points_available) := by
  have hc1 : (kw.CONNECTIVITY && !isDelaunay kw.DELAUNAY kw.isVoronoi) = false := by
    cases h1 : kw.CONNECTIVITY <;> cases h2 : isDelaunay kw.DELAUNAY kw.isVoronoi <;>
      simp_all
  have hdim : ¬ (nd = 0 ∨ np = 0) := by omega
  have hchk : ∀ e, qhull_checks kw nd np p0 = some e ↔
      (if np ≤ nd then some (QhullError.not_enough_points np (nd + 1))
       else if np ≤ nd + 1 ∧ isDelaunay kw.DELAUNAY kw.isVoronoi = true then
         some QhullError.not_enough_points_available
       else if p0.any (fun x => !isfinite x) then some QhullError.non_finite
       else none) = some e := by
    intro e
    simp only [qhull_checks, hc1, hsph, hdim, Bool.false_eq_true, if_false]
  have h1 : (∃ a b, qhull kw nd np p0 engine = .error (.not_enough_points a b)) ↔ np ≤ nd := by
    constructor
    · rintro ⟨a, b, h⟩
      rw [qhull_error_iff_checks _ _ _ _ _ _ (by simp), hchk] at h
      by_contra hgt
      rw [if_neg hgt] at h
      split_ifs at h <;> simp at h
    · intro hle
      refine ⟨np, nd + 1, ?_⟩
      rw [qhull_error_iff_checks _ _ _ _ _ _ (by simp), hchk, if_pos hle]
  have h2 : qhull kw nd np p0 engine = .error .not_enough_points_available ↔
      (nd < np ∧ np ≤ nd + 1 ∧ isDelaunay kw.DELAUNAY kw.isVoronoi = true) := by
    rw [qhull_error_iff_checks _ _ _ _ _ _ (by simp), hchk]
    constructor
    · intro h
      split_ifs at h with c1 c2 c3
      · simp at h
      · exact ⟨by omega, c2.1, c2.2⟩
      · simp at h
    · rintro ⟨c1, c2, c3⟩
      rw [if_neg (by omega), if_pos ⟨c2, c3⟩]
  refine ⟨h1, ?_, rfl, h2, ?_⟩
  · intro hle
    rw [qhull_error_iff_checks _ _ _ _ _ _ (by simp), hchk, if_pos hle]
  · intro hd hnp1
    constructor
    · intro a b h
      have := h1.mp ⟨a, b, h⟩
      omega
    · intro h
      have := (h2.mp h).2.2
      rw [hd] at this
      exact absurd this (by simp)

theorem qhull_point_count_rejection_witness :
    qhull { kw_none with DELAUNAY := true } 2 3 [] engine_empty
      = .error .not_enough_points_available :=
  (qhull_point_count_rejection { kw_none with DELAUNAY := true } 2 3 [] engine_empty
    (by decide) rfl (by decide) (by decide)).2.2.2.1.mpr (by decide)

/-- C19: whenever `CONNECTIVITY` is requested and neither Delaunay mode (`DELAUNAY` set, or
implied by one of `VNORMALS`, `VDIAGRAM`, `VVERTICES`) nor sphere mode is requested,
`qhull` fails with the unsupported-option error whatever the points and whatever the
engine (the check comes first, so neither is looked at); when `CONNECTIVITY` is requested
together with Delaunay mode this error is not raised. -/
theorem qhull_connectivity_requires_delaunay (kw : QhullKeywords)
    (hconn : kw.CONNECTIVITY = true) :
    (kw.DELAUNAY = false → kw.VNORMALS = false → kw.VDIAGRAM = false →
        kw.VVERTICES = false → kw.SPHERE = false →
        ∀ nd np p0 engine,
          qhull kw nd np p0 engine = .error .connectivity_requires_delaunay) ∧
      (isDelaunay kw.DELAUNAY kw.isVoronoi = true →
        ∀ nd np p0 engine,
          qhull kw nd np p0 engine ≠ .error .connectivity_requires_delaunay) := by
  constructor
  · intro h1 h2 h3 h4 _ nd np p0 engine
    apply qhull_of_checks_some
    simp [qhull_checks, hconn, isDelaunay, QhullKeywords.isVoronoi, h1, h2, h3, h4]
  · intro hd nd np p0 engine h
    rw [qhull_error_iff_checks _ _ _ _ _ _ (by simp)] at h
    simp only [qhull_checks, hconn, hd, Bool.not_true, Bool.and_false, Bool.false_eq_true,
      if_false] at h
    split_ifs at h <;> simp at h

theorem qhull_connectivity_requires_delaunay_witness :
    qhull { kw_none with CONNECTIVITY := true } 2 4 [] engine_empty
        = .error .connectivity_requires_delaunay ∧
      qhull { kw_none with CONNECTIVITY := true, VDIAGRAM := true } 2 4 [] engine_empty
        ≠ .error .connectivity_requires_delaunay :=
  ⟨(qhull_connectivity_requires_delaunay { kw_none with CONNECTIVITY := true } rfl).1
      rfl rfl rfl rfl rfl 2 4 [] engine_empty,
    (qhull_connectivity_requires_delaunay
      { kw_none with CONNECTIVITY := true, VDIAGRAM := true } rfl).2 rfl 2 4 [] engine_empty⟩

/-- C20: for every point matrix that passes the option and point-count checks, `qhull`
fails with the non-finite-value error if and only if at least one coordinate is NaN or
infinite; in that case the result is this error for every engine (the engine is not
called) and, being an error, carries no index, bounds, connectivity or Voronoi output. -/
theorem qhull_non_finite_rejection (kw : QhullKeywords) (nd np : ℕ) (p0 : List DDouble)
    (engine : QhullEngine)
    (hconn : ¬ (kw.CONNECTIVITY = true ∧ isDelaunay kw.DELAUNAY kw.isVoronoi = false))
    (hsph : kw.SPHERE = false) (hnd : 1 ≤ nd) (hnp : nd < np)
    (hdel : ¬ (np ≤ nd + 1 ∧ isDelaunay kw.DELAUNAY kw.isVoronoi = true)) :
    (qhull kw nd np p0 engine = .error .non_finite ↔ ∃ c ∈ p0, isfinite c = false) ∧
      ((∃ c ∈ p0, isfinite c = false) →
        ∀ engine', qhull kw nd np p0 engine' = .error .non_finite) ∧
      ((∃ c ∈ p0, isfinite c = false) → ∀ out, qhull kw nd np p0 engine ≠ .ok out) := by
  have hc1 : (kw.CONNECTIVITY && !isDelaunay kw.DELAUNAY kw.isVoronoi) = false := by
    cases h1 : kw.CONNECTIVITY <;> cases h2 : isDelaunay kw.DELAUNAY kw.isVoronoi <;>
      simp_all
  have hdim : ¬ (nd = 0 ∨ np = 0) := by omega
  have hchk : qhull_checks kw nd np p0 =
      if p0.any (fun x => !isfinite x) then some QhullError.non_finite else none := by
    simp only [qhull_checks, hc1, hsph, hdim, Bool.false_eq_true, if_false,
      if_neg (not_le.mpr hnp), if_neg hdel]
  have hany : p0.any (fun x => !isfinite x) = true ↔ ∃ c ∈ p0, isfinite c = false := by
    simp [List.any_eq_true]
  have key : ∀ engine', qhull kw nd np p0 engine' = .error .non_finite ↔
      ∃ c ∈ p0, isfinite c = false := by
    intro engine'
    rw [qhull_error_iff_checks _ _ _ _ _ _ (by simp), hchk, ← hany]
    split_ifs with h <;> simp [h]
  refine ⟨key engine, fun h engine' => (key engine').mpr h, ?_⟩
  intro h out hok
  rw [(key engine).mpr h] at hok
  exact absurd hok (by simp)

theorem qhull_non_finite_rejection_witness :
    qhull kw_none 2 3 [.finite 0, .finite 0, .finite 1, .nan, .inf true, .finite 1]
      engine_empty = .error .non_finite :=
  (qhull_non_finite_rejection kw_none 2 3
    [.finite 0, .finite 0, .finite 1, .nan, .inf true, .finite 1] engine_empty
    (by decide) rfl (by decide) (by decide) (by decide)).1.mpr ⟨.nan, by decide, rfl⟩

/-! ## Point location: pruning and ties -/

/-- The bounding-box test changes nothing in the scan of non-degenerate tetrahedra. -/
theorem scan_eq_scan_without_box (g : GridInput) (p : Vec3) (l : List ℕ)
    (hnd : ∀ t ∈ l, tetra_volume6 g t ≠ 0) : scan g p l = scan_without_box g p l := by
  induction l with
  | nil => rfl
  | cons t rest ih =>
    have ih' := ih (fun u hu => hnd u (List.mem_cons_of_mem _ hu))
    by_cases hc : contains g t p
    · have hbox := contains_inside_box g t p (hnd t (List.mem_cons_self _ _)) hc
      have hnn : no_neg (tetra_bary g t p) = true := (no_neg_iff _).mpr hc
      simp only [scan, scan_without_box, hbox, hnn, Bool.false_eq_true, if_false, if_true]
    · have hnn : no_neg (tetra_bary g t p) = false := by
        rw [← Bool.not_eq_true, no_neg_iff]
        exact hc
      simp only [scan, scan_without_box, hnn, Bool.false_eq_true, if_false]
      split_ifs
      · exact ih'
      · exact ih'

/-- The scan stops at the first tetrahedron of the list that contains the point. -/
theorem scan_first (g : GridInput) (p : Vec3) (t : ℕ) (hnd : tetra_volume6 g t ≠ 0)
    (hin : contains g t p) (l1 l2 : List ℕ) (hbefore : ∀ u ∈ l1, ¬ contains g u p) :
    (scan g p (l1 ++ t :: l2)).map Prod.fst = some t := by
  induction l1 with
  | nil =>
    have hbox := contains_inside_box g t p hnd hin
    have hnn : no_neg (tetra_bary g t p) = true := (no_neg_iff _).mpr hin
    simp only [List.nil_append, scan, hbox, hnn, Bool.false_eq_true, if_false, if_true,
      Option.map_some']
  | cons u rest ih =>
    have hnn : no_neg (tetra_bary g u p) = false := by
      rw [← Bool.not_eq_true, no_neg_iff]
      exact hbefore u (List.mem_cons_self _ _)
    have ih' := ih (fun v hv => hbefore v (List.mem_cons_of_mem _ hv))
    simp only [List.cons_append, scan, hnn, Bool.false_eq_true, if_false]
    split_ifs
    · exact ih'
    · exact ih'

theorem range_split (n t : ℕ) (ht : t < n) :
    List.range n = List.range t ++ t :: List.range' (t + 1) (n - t - 1) := by
  obtain ⟨m, rfl⟩ : ∃ m, n = t + (m + 1) := ⟨n - t - 1, by omega⟩
  have hm : t + (m + 1) - t - 1 = m := by omega
  rw [hm, List.range_eq_range', List.range_eq_range', Nat.add_comm t (m + 1),
    ← List.range'_append_1 0 t (m + 1), Nat.zero_add, List.range'_succ]

/-- C25, amended: in exact arithmetic (barycentric coordinates computed without rounding),
bounding-box rejection is a necessary condition for containment.  For every
non-degenerate tetrahedron `(a, b, c, d)` and every point `q` whose four barycentric
coordinates are all `>= 0`, `is_outside_of_box(box_limits(tetrahedron), q)` is false;
hence, on a list of non-degenerate tetrahedra, the scan with bounding-box rejection
returns the same tetrahedron and value (or none) as the same scan without the
rejection. -/
theorem scan_box_rejection_exact (g : GridInput) (p : Vec3) (l : List ℕ)
    (hnd : ∀ t ∈ l, tetra_volume6 g t ≠ 0) :
    (∀ a b c d q : Vec3,
        scalar_triple_prod (vector_substract b a) (vector_substract c a)
          (vector_substract d a) ≠ 0 →
        (∀ x ∈ bary_tet a b c d q, 0 ≤ x) →
        is_outside_of_box (box_limits [a, b, c, d]).1 (box_limits [a, b, c, d]).2 q = false) ∧
      scan g p l = scan_without_box g p l :=
  ⟨fun a b c d q h hx => bary_nonneg_inside_box a b c d q h hx,
    scan_eq_scan_without_box g p l hnd⟩

theorem scan_box_rejection_exact_witness :
    scan g_two ![1/4, 1/4, 1/4] (List.range g_two.n_tetra)
      = scan_without_box g_two ![1/4, 1/4, 1/4] (List.range g_two.n_tetra) :=
  (scan_box_rejection_exact g_two ![1/4, 1/4, 1/4] (List.range g_two.n_tetra)
    (by decide!)).2

/-- C24, as stated, fails: in `g_tie` the cell `(0, 0, 1)` is tested at `(1/2, 1/2, 0)`, a
point of the edge shared by the tetrahedra `0` and `1`; both contain it, tetrahedron `0`
comes first in scan order (the scan alone returns it), but the cell before was located in
tetrahedron `1`, the last-hit check accepts it, and tetrahedron `1` is used.  Every value
of this run is a `double` and no operation rounds: the run in `double` is the same. -/
theorem locate_tie_counterexample :
    qgrid3_fun_double g_tie = some (qgrid3_fun g_tie) ∧
      (locate_double g_tie (state_at g_tie 0 0 1).last_tetra
        (state_at g_tie 0 0 1).coord).map (Option.map Prod.fst) = some (some 1) ∧
      (state_at g_tie 0 0 1).coord = ![1/2, 1/2, 0] ∧
      contains g_tie 0 (state_at g_tie 0 0 1).coord ∧
      contains g_tie 1 (state_at g_tie 0 0 1).coord ∧
      (state_at g_tie 0 0 1).last_tetra = 1 ∧
      (scan g_tie (state_at g_tie 0 0 1).coord (List.range g_tie.n_tetra)).map Prod.fst
        = some 0 ∧
      (locate g_tie (state_at g_tie 0 0 1).last_tetra (state_at g_tie 0 0 1).coord).map Prod.fst
        = some 1 := by
  decide!

/-- The last-hit check accepts the cached tetrahedron when it contains the point. -/
theorem locate_of_contains_last (g : GridInput) (last : ℕ) (p : Vec3)
    (hin : contains g last p) :
    locate g last p = some (last,
      interp_value (tetra_bary g last p) g.func (tetra_vertices g.tetra_list last)) := by
  have hnn : no_neg (tetra_bary g last p) = true := (no_neg_iff _).mpr hin
  simp only [locate, hnn, if_true]

/-- When the cached tetrahedron does not contain the point, point location returns the
first tetrahedron in scan order that contains it. -/
theorem locate_of_first (g : GridInput) (last : ℕ) (p : Vec3) (hnot : ¬ contains g last p)
    (t : ℕ) (ht : t < g.n_tetra) (hnd : tetra_volume6 g t ≠ 0) (hin : contains g t p)
    (hfirst : ∀ u, u < t → ¬ contains g u p) :
    locate g last p = some (t,
      interp_value (tetra_bary g t p) g.func (tetra_vertices g.tetra_list t)) := by
  have hnn : no_neg (tetra_bary g last p) = false := by
    rw [← Bool.not_eq_true, no_neg_iff]
    exact hnot
  have hscan : (scan g p (List.range g.n_tetra)).map Prod.fst = some t := by
    rw [range_split g.n_tetra t ht]
    exact scan_first g p t hnd hin _ _ (fun u hu => hfirst u (List.mem_range.mp hu))
  simp only [locate, hnn, Bool.false_eq_true, if_false]
  cases hs : scan g p (List.range g.n_tetra) with
  | none => rw [hs] at hscan; simp at hscan
  | some r =>
    obtain ⟨t2, v⟩ := r
    rw [hs] at hscan
    simp only [Option.map_some', Option.some.injEq] at hscan
    subst hscan
    rw [(scan_some g p _ t2 v hs).2.2]

/-- C24, amended: in exact arithmetic, with a non-empty list of non-degenerate tetrahedra,
for every cell of `qgrid3_fun` whose tested coordinate passes the global bounding-box test
(the tested coordinate is then the grid point of the cell), the tetrahedron used for the
cell, also when the grid point is contained in more than one tetrahedron, is the cached
last-hit tetrahedron when that one contains the grid point, and otherwise the containing
tetrahedron that comes first in input (scan) order; the cell stores the value interpolated
in that tetrahedron, which becomes the cached one. -/
theorem qgrid3_fun_tie_break (g : GridInput) (hn : 1 ≤ g.n_tetra)
    (hnd : ∀ t < g.n_tetra, tetra_volume6 g t ≠ 0) (i j k : ℕ)
    (hi : i < g.res_dim_vec 0) (hj : j < g.res_dim_vec 1) (hk : k < g.res_dim_vec 2)
    (hbox : is_outside_of_box (min_coord g) (max_coord g) (state_at g i j k).coord = false) :
    (state_at g i j k).coord = grid_coord g i j k ∧
      (state_at g i j k).last_tetra < g.n_tetra ∧
      (contains g (state_at g i j k).last_tetra (grid_coord g i j k) →
        (cell_step g i j k (state_at g i j k)).last_tetra = (state_at g i j k).last_tetra ∧
        (qgrid3_fun g)[res_index g i j k]? = some
          (interp_value (tetra_bary g (state_at g i j k).last_tetra (grid_coord g i j k))
            g.func (tetra_vertices g.tetra_list (state_at g i j k).last_tetra))) ∧
      (¬ contains g (state_at g i j k).last_tetra (grid_coord g i j k) →
        ∀ t, t < g.n_tetra → contains g t (grid_coord g i j k) →
          (∀ u, u < t → ¬ contains g u (grid_coord g i j k)) →
          (cell_step g i j k (state_at g i j k)).last_tetra = t ∧
          (qgrid3_fun g)[res_index g i j k]? = some
            (interp_value (tetra_bary g t (grid_coord g i j k)) g.func
              (tetra_vertices g.tetra_list t))) := by
  have hcoord := state_at_coord g i j k hbox
  refine ⟨hcoord, state_at_last g i j k hn, ?_, ?_⟩
  · intro hin
    have hloc := locate_of_contains_last g (state_at g i j k).last_tetra
      (state_at g i j k).coord (by rw [hcoord]; exact hin)
    constructor
    · simp only [cell_step, hbox, Bool.false_eq_true, if_false, hloc]
    · rw [qgrid3_fun_cell g i j k hi hj hk, cell_value, hbox]
      simp only [Bool.false_eq_true, if_false, hloc]
      rw [hcoord]
  · intro hnot t ht hin hfirst
    have hloc := locate_of_first g (state_at g i j k).last_tetra (state_at g i j k).coord
      (by rw [hcoord]; exact hnot) t ht (hnd t ht) (by rw [hcoord]; exact hin)
      (by rw [hcoord]; exact hfirst)
    constructor
    · simp only [cell_step, hbox, Bool.false_eq_true, if_false, hloc]
    · rw [qgrid3_fun_cell g i j k hi hj hk, cell_value, hbox]
      simp only [Bool.false_eq_true, if_false, hloc]
      rw [hcoord]

theorem qgrid3_fun_tie_break_witness :
    (state_at g_tie 0 0 1).coord = grid_coord g_tie 0 0 1 ∧
      (cell_step g_tie 0 0 1 (state_at g_tie 0 0 1)).last_tetra
        = (state_at g_tie 0 0 1).last_tetra ∧
      (cell_step g_two_swapped 0 0 0 (state_at g_two_swapped 0 0 0)).last_tetra = 1 :=
  ⟨(qgrid3_fun_tie_break g_tie (by decide) (by decide!) 0 0 1 (by decide) (by decide)
      (by decide) (by decide!)).1,
    ((qgrid3_fun_tie_break g_tie (by decide) (by decide!) 0 0 1 (by decide) (by decide)
      (by decide) (by decide!)).2.2.1 (by decide!)).1,
    ((qgrid3_fun_tie_break g_two_swapped (by decide) (by decide!) 0 0 0 (by decide) (by decide)
      (by decide) (by decide!)).2.2.2 (by decide!) 1 (by decide) (by decide!) (by decide!)).1⟩

/-! ## The output position of a cell -/

theorem res_index_surj (g : GridInput) (x : ℕ)
    (hx : x < g.res_dim_vec 0 * g.res_dim_vec 1 * g.res_dim_vec 2) :
    ∃ i j k, i < g.res_dim_vec 0 ∧ j < g.res_dim_vec 1 ∧ k < g.res_dim_vec 2 ∧
      res_index g i j k = x := by
  have h0 : 0 < g.res_dim_vec 0 := by
    rcases Nat.eq_zero_or_pos (g.res_dim_vec 0) with h | h
    · rw [h] at hx; simp at hx
    · exact h
  have h1 : 0 < g.res_dim_vec 1 := by
    rcases Nat.eq_zero_or_pos (g.res_dim_vec 1) with h | h
    · rw [h] at hx; simp at hx
    · exact h
  refine ⟨x % g.res_dim_vec 0, (x / g.res_dim_vec 0) % g.res_dim_vec 1,
    x / g.res_dim_vec 0 / g.res_dim_vec 1, Nat.mod_lt _ h0, Nat.mod_lt _ h1, ?_, ?_⟩
  · rw [Nat.div_lt_iff_lt_mul h1, Nat.div_lt_iff_lt_mul h0]
    calc x < g.res_dim_vec 0 * g.res_dim_vec 1 * g.res_dim_vec 2 := hx
      _ = g.res_dim_vec 2 * g.res_dim_vec 1 * g.res_dim_vec 0 := by ring
  · rw [res_index_eq, Nat.mod_add_div, Nat.mod_add_div]

theorem wrap_int32_eq (x : ℤ) (h0 : 0 ≤ x) (h1 : x < 2147483648) : wrap_int32 x = x := by
  unfold wrap_int32
  omega

/-- When the number of cells fits in an `int`, no operation of line 649 overflows: the
position computed in `int` is `res_index`. -/
theorem res_index_int32_eq (g : GridInput)
    (hfit : g.res_dim_vec 0 * g.res_dim_vec 1 * g.res_dim_vec 2 < 2147483648) (i j k : ℕ)
    (hi : i < g.res_dim_vec 0) (hj : j < g.res_dim_vec 1) (hk : k < g.res_dim_vec 2) :
    res_index_int32 g i j k = (res_index g i j k : ℤ) := by
  have hlt := res_index_lt g hi hj hk
  have hidx : res_index g i j k
      = i + j * g.res_dim_vec 0 + k * g.res_dim_vec 0 * g.res_dim_vec 1 := rfl
  have h1 : 1 ≤ g.res_dim_vec 1 := by omega
  have hk0 : k * g.res_dim_vec 0 ≤ k * g.res_dim_vec 0 * g.res_dim_vec 1 :=
    Nat.le_mul_of_pos_right _ h1
  have b5 : res_index g i j k < 2147483648 := lt_trans hlt hfit
  have b4 : k * g.res_dim_vec 0 * g.res_dim_vec 1 < 2147483648 :=
    lt_of_le_of_lt (by rw [hidx]; exact Nat.le_add_left _ _) b5
  have b3 : k * g.res_dim_vec 0 < 2147483648 := lt_of_le_of_lt hk0 b4
  have b2 : i + j * g.res_dim_vec 0 < 2147483648 :=
    lt_of_le_of_lt (by rw [hidx]; exact Nat.le_add_right _ _) b5
  have b1 : j * g.res_dim_vec 0 < 2147483648 :=
    lt_of_le_of_lt (Nat.le_add_left _ _) b2
  have e1 : wrap_int32 ((j : ℤ) * (g.res_dim_vec 0 : ℤ)) = ((j * g.res_dim_vec 0 : ℕ) : ℤ) := by
    rw [← Nat.cast_mul]
    exact wrap_int32_eq _ (Int.natCast_nonneg _) (by exact_mod_cast b1)
  have e2 : wrap_int32 ((i : ℤ) + ((j * g.res_dim_vec 0 : ℕ) : ℤ))
      = ((i + j * g.res_dim_vec 0 : ℕ) : ℤ) := by
    rw [← Nat.cast_add]
    exact wrap_int32_eq _ (Int.natCast_nonneg _) (by exact_mod_cast b2)
  have e3 : wrap_int32 ((k : ℤ) * (g.res_dim_vec 0 : ℤ)) = ((k * g.res_dim_vec 0 : ℕ) : ℤ) := by
    rw [← Nat.cast_mul]
    exact wrap_int32_eq _ (Int.natCast_nonneg _) (by exact_mod_cast b3)
  have e4 : wrap_int32 (((k * g.res_dim_vec 0 : ℕ) : ℤ) * (g.res_dim_vec 1 : ℤ))
      = ((k * g.res_dim_vec 0 * g.res_dim_vec 1 : ℕ) : ℤ) := by
    rw [← Nat.cast_mul]
    exact wrap_int32_eq _ (Int.natCast_nonneg _) (by exact_mod_cast b4)
  unfold res_index_int32
  rw [e1, e2, e3, e4, ← Nat.cast_add, hidx]
  exact wrap_int32_eq _ (Int.natCast_nonneg _) (by rw [← hidx]; exact_mod_cast b5)

/-- C27, as stated, fails for large grids: with the positive counts `(1300, 1300, 1300)`
the position of the cell `(0, 0, 1299)` is `2195310000`, more than the largest `int`
(`2^31 - 1 = 2147483647`); line 649 computes it in `int`, the product
`k*res_dim_vec[0]*res_dim_vec[1]` overflows, and the two's-complement result
`-2099657296` is not a position of the result. -/
theorem res_index_int32_counterexample :
    (∀ c, 0 < g_large.res_dim_vec c) ∧
      1299 < g_large.res_dim_vec 2 ∧
      res_index g_large 0 0 1299 = 2195310000 ∧
      res_index g_large 0 0 1299
        < g_large.res_dim_vec 0 * g_large.res_dim_vec 1 * g_large.res_dim_vec 2 ∧
      (2147483647 : ℤ) < (res_index g_large 0 0 1299 : ℤ) ∧
      res_index_int32 g_large 0 0 1299 = -2099657296 ∧
      ¬ (0 ≤ res_index_int32 g_large 0 0 1299) := by
  decide!

/-- C27, amended: for positive grid counts `(n0, n1, n2)` whose product is at most
`2^31 - 1` (the number of cells fits in an `int`), the output position
`i + j*n0 + k*n0*n1`, computed in `int` at line 649 without overflow, maps the cells
`(i, j, k)` with `i < n0`, `j < n1`, `k < n2` one-to-one onto the positions
`0 .. n0*n1*n2 - 1` of the result: it stays below the length of the result, two different
cells have different positions, and every position is the position of a cell.  The body of
the loop makes one write per cell, at that position, so every element of the result is
written exactly once, with the value of its cell, and no write falls outside the result. -/
theorem res_index_bijection (g : GridInput)
    (hfit : g.res_dim_vec 0 * g.res_dim_vec 1 * g.res_dim_vec 2 < 2147483648) :
    (qgrid3_fun g).length = g.res_dim_vec 0 * g.res_dim_vec 1 * g.res_dim_vec 2 ∧
      (∀ i j k, i < g.res_dim_vec 0 → j < g.res_dim_vec 1 → k < g.res_dim_vec 2 →
        res_index_int32 g i j k = (res_index g i j k : ℤ) ∧
        res_index g i j k < (qgrid3_fun g).length) ∧
      (∀ i j k i' j' k', i < g.res_dim_vec 0 → j < g.res_dim_vec 1 →
        i' < g.res_dim_vec 0 → j' < g.res_dim_vec 1 →
        res_index g i j k = res_index g i' j' k' → i = i' ∧ j = j' ∧ k = k') ∧
      (∀ x, x < (qgrid3_fun g).length →
        ∃ i j k, i < g.res_dim_vec 0 ∧ j < g.res_dim_vec 1 ∧ k < g.res_dim_vec 2 ∧
          res_index g i j k = x) ∧
      (∀ i j k s, (cell_step g i j k s).res = s.res.set (res_index g i j k) (cell_value g s)) ∧
      (∀ i j k, i < g.res_dim_vec 0 → j < g.res_dim_vec 1 → k < g.res_dim_vec 2 →
        (qgrid3_fun g)[res_index g i j k]? = some (cell_value g (state_at g i j k))) := by
  have hlen : (qgrid3_fun g).length
      = g.res_dim_vec 0 * g.res_dim_vec 1 * g.res_dim_vec 2 := by
    simp only [qgrid3_fun, i_loop_length, init_state, List.length_replicate]
  refine ⟨hlen, ?_, ?_, ?_, ?_, ?_⟩
  · intro i j k hi hj hk
    rw [hlen]
    exact ⟨res_index_int32_eq g hfit i j k hi hj hk, res_index_lt g hi hj hk⟩
  · intro i j k i' j' k' hi hj hi' hj' h
    exact res_index_inj g hi hi' hj hj' h
  · intro x hx
    rw [hlen] at hx
    exact res_index_surj g x hx
  · intro i j k s
    exact cell_step_res g i j k s
  · intro i j k hi hj hk
    exact qgrid3_fun_cell g i j k hi hj hk

theorem res_index_bijection_witness :
    (qgrid3_fun g_two).length = 8 ∧
      (res_index_int32 g_two 1 0 1 = (res_index g_two 1 0 1 : ℤ) ∧
        res_index g_two 1 0 1 < (qgrid3_fun g_two).length) ∧
      (∃ i j k, i < g_two.res_dim_vec 0 ∧ j < g_two.res_dim_vec 1 ∧ k < g_two.res_dim_vec 2 ∧
        res_index g_two i j k = 5) :=
  ⟨(res_index_bijection g_two (by decide!)).1,
    (res_index_bijection g_two (by decide!)).2.1 1 0 1 (by decide) (by decide) (by decide),
    (res_index_bijection g_two (by decide!)).2.2.2.1 5 (by decide!)⟩

/-! ## The keyword arrays `DIMENSION`, `START`, `DELTA` -/

/-- C29, as stated, fails for `DIMENSION`: with a 2-element array the third value is read
at index `2*(dimNelem>1) = 2`, outside the array, so `read_dimension` ends in the
out-of-bounds read for every pair `[a, b]`.  The rest of the claim holds: `START` and `DELTA`
use `2*(n>2)` and read inside the array for 1, 2 and 3 elements (a 2-element array gives
`[a, b, a]`), `DIMENSION` reads inside the array for 1 and 3 elements, and a 1-element
array is broadcast to the three axes by all three keywords. -/
theorem dimension_two_elements_read_outside :
    (dimension_indices 2 = [0, 1, 2] ∧
      ∀ (kw : GridKeywords) (a b : ℤ), kw.DIMENSION = some [a, b] →
        read_elements [a, b] (dimension_indices [a, b].length) = none ∧
        read_dimension kw = .error .read_out_of_bounds ∧
        ∀ points func tetra_list n_tetra,
          qgrid3_fun_kw points func tetra_list n_tetra kw = .error .read_out_of_bounds) ∧
      (∀ n, 1 ≤ n → n ≤ 3 →
        (∀ ix ∈ start_indices n, ix < n) ∧ (∀ ix ∈ delta_indices n, ix < n)) ∧
      (∀ n, n = 1 ∨ n = 3 → ∀ ix ∈ dimension_indices n, ix < n) ∧
      (∀ a b : ℚ, read_elements [a, b] (start_indices 2) = some [a, b, a] ∧
        read_elements [a, b] (delta_indices 2) = some [a, b, a]) ∧
      (∀ a : ℤ, read_elements [a] (dimension_indices 1) = some [a, a, a]) ∧
      (∀ a : ℚ, read_elements [a] (start_indices 1) = some [a, a, a] ∧
        read_elements [a] (delta_indices 1) = some [a, a, a]) := by
  refine ⟨⟨by decide, ?_⟩, ?_, ?_, ?_, ?_, ?_⟩
  · intro kw a b h
    have hr : read_elements [a, b] (dimension_indices [a, b].length) = none := by
      simp [read_elements, dimension_indices]
    have hd : read_dimension kw = .error .read_out_of_bounds := by
      simp only [read_dimension, h]
      rw [if_pos (by simp), hr]
    refine ⟨hr, hd, ?_⟩
    intro points func tetra_list n_tetra
    simp only [qgrid3_fun_kw, grid_setup, hd]
  · intro n h1 h3
    have hn : n = 1 ∨ n = 2 ∨ n = 3 := by omega
    rcases hn with rfl | rfl | rfl <;> decide
  · intro n hn
    rcases hn with rfl | rfl <;> decide
  · intro a b
    constructor <;> simp [read_elements, start_indices, delta_indices]
  · intro a
    simp [read_elements, dimension_indices]
  · intro a
    constructor <;> simp [read_elements, start_indices, delta_indices]

/-! ## The default origin and spacing -/

theorem k_loop_coord_inside (g : GridInput) (i j n : ℕ) (s : GridState)
    (h : ∀ m, m < n → is_outside_of_box (min_coord g) (max_coord g)
      (Function.update s.coord 2 (s.coord 2 + m * g.delta 2)) = false) :
    (k_loop g i j n s).coord = Function.update s.coord 2 (s.coord 2 + n * g.delta 2) := by
  induction n with
  | zero => simp [k_loop]
  | succ n ih =>
    have hn := ih (fun m hm => h m (Nat.lt_succ_of_lt hm))
    rw [k_loop_succ, cell_step_coord, hn, h n (Nat.lt_succ_self n)]
    simp only [Bool.false_eq_true, if_false, advance2, Function.update_same,
      Function.update_idem]
    rw [add_assoc, Nat.cast_succ, add_one_mul]

theorem state_at_coord_of_inside (g : GridInput) (i j k : ℕ)
    (h : ∀ m, m < k →
      is_outside_of_box (min_coord g) (max_coord g) (grid_coord g i j m) = false) :
    (state_at g i j k).coord = grid_coord g i j k := by
  obtain ⟨hj0, hj1⟩ := j_loop_coord g i j (i_enter g (i_loop g i (init_state g)))
  have hi0 := i_loop_coord g i (init_state g)
  obtain ⟨he0, he1, he2⟩ :=
    j_enter_coord g (j_loop g i j (i_enter g (i_loop g i (init_state g))))
  have hgc : ∀ m : ℕ, Function.update
      (j_enter g (j_loop g i j (i_enter g (i_loop g i (init_state g))))).coord 2
      ((j_enter g (j_loop g i j (i_enter g (i_loop g i (init_state g))))).coord 2
        + m * g.delta 2) = grid_coord g i j m := by
    intro m
    funext c
    fin_cases c
    · show Function.update _ 2 _ 0 = _
      rw [Function.update_noteq (by decide), he0, hj0, (i_enter_coord g _).1, hi0]
      simp [grid_coord, init_state]
    · show Function.update _ 2 _ 1 = _
      rw [Function.update_noteq (by decide), he1, hj1, (i_enter_coord g _).2]
      simp [grid_coord]
    · show Function.update _ 2 _ 2 = _
      rw [Function.update_same, he2]
      simp [grid_coord]
  rw [state_at, k_loop_coord_inside g i j k _ (fun m hm => by rw [hgc m]; exact h m hm), hgc k]

theorem default_spacing_bounds (mn mx : ℚ) (n k : ℕ) (hle : mn ≤ mx) (hn : 0 < n)
    (hk : k ≤ n) : mn ≤ mn + k * ((mx - mn) / n) ∧ mn + k * ((mx - mn) / n) ≤ mx := by
  have hn' : (0 : ℚ) < n := by exact_mod_cast hn
  have hk' : (k : ℚ) ≤ n := by exact_mod_cast hk
  have hk0 : (0 : ℚ) ≤ k := by exact_mod_cast Nat.zero_le k
  have hd : 0 ≤ (mx - mn) / n := div_nonneg (by linarith) hn'.le
  constructor
  · have := mul_nonneg hk0 hd
    linarith
  · have h1 : (k : ℚ) * ((mx - mn) / n) ≤ n * ((mx - mn) / n) :=
      mul_le_mul_of_nonneg_right hk' hd
    have h2 : (n : ℚ) * ((mx - mn) / n) = mx - mn := by field_simp
    linarith

theorem box_limits_le (pts : List Vec3) (c : Fin 3) :
    (box_limits pts).1 c ≤ (box_limits pts).2 c := by
  obtain ⟨h1, h2, _⟩ := box_fold_bounds pts (pts.getD 0 0, pts.getD 0 0) c
  exact le_trans h1 h2

theorem is_outside_of_box_false_of_bounds (mn mx p : Vec3)
    (h : ∀ c, mn c ≤ p c ∧ p c ≤ mx c) : is_outside_of_box mn mx p = false := by
  have h0 := h 0
  have h1 := h 1
  have h2 := h 2
  simp only [is_outside_of_box, Bool.or_eq_false_iff, decide_eq_false_iff_not, not_lt, gt_iff_lt]
  exact ⟨⟨⟨h0.1, h0.2⟩, h1.1, h1.2⟩, h2.1, h2.2⟩

theorem toNat_cast_of_pos (z : ℤ) (h : 0 < z.toNat) : ((z.toNat : ℕ) : ℚ) = (z : ℚ) := by
  have hz : 0 ≤ z := by
    by_contra hneg
    rw [Int.toNat_of_nonpos (by omega)] at h
    exact absurd h (by decide)
  have : ((z.toNat : ℕ) : ℤ) = z := Int.toNat_of_nonneg hz
  exact_mod_cast this

theorem grid_setup_default (points : List Vec3) (func : List ℚ) (tetra_list : List ℤ)
    (n_tetra : ℕ) (kw : GridKeywords) (g : GridInput)
    (hS : kw.START = none) (hD : kw.DELTA = none)
    (hg : grid_setup points func tetra_list n_tetra kw = .ok g) :
    g.points = points ∧ (∀ c, g.start_coord c = (box_limits points).1 c) ∧
      (∀ c, 0 < g.res_dim_vec c →
        g.delta c = ((box_limits points).2 c - (box_limits points).1 c) / (g.res_dim_vec c : ℚ)) := by
  unfold grid_setup at hg
  cases hdim : read_dimension kw with
  | error e => rw [hdim] at hg; cases hg
  | ok v =>
    rw [hdim] at hg
    simp only [read_start, hS, read_delta, hD] at hg
    cases hg
    refine ⟨rfl, ?_, ?_⟩
    · intro c
      fin_cases c <;> simp
    · intro c hc
      simp only at hc ⊢
      rw [toNat_cast_of_pos _ hc]
      fin_cases c <;> simp [List.range_succ]

/-- C26: with the default `START` and `DELTA` (the origin is the per-axis minimum of the
input points, the spacing is (per-axis maximum - origin) / count) and positive counts,
the grid coordinate origin + index*spacing of every cell lies inside the bounding box of
the point set; the loop reaches the cell with exactly that coordinate, the global
bounding-box branch is not taken there, and the element stored for the cell is the result
of the point location at origin + index*spacing. -/
theorem default_grid_inside_box (points : List Vec3) (func : List ℚ) (tetra_list : List ℤ)
    (n_tetra : ℕ) (kw : GridKeywords) (g : GridInput)
    (hS : kw.START = none) (hD : kw.DELTA = none)
    (hg : grid_setup points func tetra_list n_tetra kw = .ok g)
    (hpos : ∀ c, 0 < g.res_dim_vec c) (i j k : ℕ)
    (hi : i < g.res_dim_vec 0) (hj : j < g.res_dim_vec 1) (hk : k < g.res_dim_vec 2) :
    g.start_coord = min_coord g ∧
      (∀ c, g.delta c = (max_coord g c - g.start_coord c) / (g.res_dim_vec c : ℚ)) ∧
      is_outside_of_box (min_coord g) (max_coord g) (grid_coord g i j k) = false ∧
      (state_at g i j k).coord = grid_coord g i j k ∧
      is_outside_of_box (min_coord g) (max_coord g) (state_at g i j k).coord = false ∧
      (qgrid3_fun g)[res_index g i j k]? = some
        (match locate g (state_at g i j k).last_tetra (grid_coord g i j k) with
          | some (_, v) => v
          | none => g.missing) ∧
      qgrid3_fun_kw points func tetra_list n_tetra kw = .ok (qgrid3_fun g) := by
  obtain ⟨hp, hstart, hdelta⟩ :=
    grid_setup_default points func tetra_list n_tetra kw g hS hD hg
  have hmin : g.start_coord = min_coord g := by
    funext c
    rw [hstart c, min_coord, hp]
  have hd : ∀ c, g.delta c = (max_coord g c - g.start_coord c) / (g.res_dim_vec c : ℚ) := by
    intro c
    rw [hdelta c (hpos c), hstart c, max_coord, hp]
  have hin : ∀ a b c : ℕ, a ≤ g.res_dim_vec 0 → b ≤ g.res_dim_vec 1 → c ≤ g.res_dim_vec 2 →
      is_outside_of_box (min_coord g) (max_coord g) (grid_coord g a b c) = false := by
    intro a b c ha hb hc
    apply is_outside_of_box_false_of_bounds
    intro x
    have hle : min_coord g x ≤ max_coord g x := box_limits_le g.points x
    fin_cases x
    · have := default_spacing_bounds _ _ _ a hle (hpos 0) ha
      simpa [grid_coord, hd, hmin] using this
    · have := default_spacing_bounds _ _ _ b hle (hpos 1) hb
      simpa [grid_coord, hd, hmin] using this
    · have := default_spacing_bounds _ _ _ c hle (hpos 2) hc
      simpa [grid_coord, hd, hmin] using this
  have hcoord : (state_at g i j k).coord = grid_coord g i j k :=
    state_at_coord_of_inside g i j k
      (fun m hm => hin i j m hi.le hj.le (le_of_lt (lt_trans hm hk)))
  have hbox := hin i j k hi.le hj.le hk.le
  refine ⟨hmin, hd, hbox, hcoord, by rw [hcoord]; exact hbox, ?_, ?_⟩
  · rw [qgrid3_fun_cell g i j k hi hj hk, cell_value, hcoord, hbox]
    rfl
  · simp only [qgrid3_fun_kw, hg]

theorem default_grid_inside_box_witness :
    ∃ g, grid_setup g_two.points g_two.func g_two.tetra_list 2 gkw_dimension = .ok g ∧
      (state_at g 1 1 1).coord = ![1/2, 1/2, 1/2] ∧
      is_outside_of_box (min_coord g) (max_coord g) (state_at g 1 1 1).coord = false :=
  ⟨_, rfl,
    by
      rw [(default_grid_inside_box g_two.points g_two.func g_two.tetra_list 2 gkw_dimension _
        rfl rfl rfl (by decide) 1 1 1 (by decide) (by decide) (by decide)).2.2.2.1]
      decide!,
    (default_grid_inside_box g_two.points g_two.func g_two.tetra_list 2 gkw_dimension _
      rfl rfl rfl (by decide) 1 1 1 (by decide) (by decide) (by decide)).2.2.2.2.1⟩

/-! ## The value returned for a zero vertex reference in the 2-D decode -/

/-- The value at the first zero vertex reference of a 2-D row: `-k - 1` when the point pair
is found at index `k` of the normals table, `-1` when it is not found. -/
theorem vdiag2_zero_value (tokens : List ℤ) (normsVertId : List (List ℤ)) (i : ℕ)
    (row : List ℤ) (hrow : (parse2 tokens)[i]? = some row) (hlen : row.length = 4) (j : ℕ)
    (hj : (j = 2 ∧ row.getD 2 0 = 0) ∨ (j = 3 ∧ row.getD 2 0 ≠ 0 ∧ row.getD 3 0 = 0)) :
    (qhull_vdiag2 tokens normsVertId).data[4 * i + j]? = some
      (match find_norm (row.getD 0 0) (row.getD 1 0) normsVertId with
        | some k => -(k : ℤ) - 1
        | none => -1) := by
  have hq : (unbounded2 normsVertId (parse2 tokens))[i]? =
      some (unbounded_row normsVertId 0 1 row [2, 3]) := by
    simp [unbounded2, List.getElem?_map, hrow]
  obtain ⟨h2, h3⟩ := vdiag2_output_get _ i _ hq
  unfold qhull_vdiag2
  rcases hj with ⟨rfl, hz⟩ | ⟨rfl, hnz, hz⟩
  · rw [h2]
    cases hk : find_norm (row.getD 0 0) (row.getD 1 0) normsVertId with
    | none =>
      simp only [unbounded_row, hz, if_true, hk]
      rfl
    | some k =>
      simp only [unbounded_row, hz, if_true, hk]
      rw [List.getD_eq_getElem?_getD, List.getElem?_set_self (by omega)]
      rfl
  · rw [h3]
    cases hk : find_norm (row.getD 0 0) (row.getD 1 0) normsVertId with
    | none =>
      simp only [unbounded_row, hnz, if_false, hz, if_true, hk]
      rfl
    | some k =>
      simp only [unbounded_row, hnz, if_false, hz, if_true, hk]
      rw [List.getD_eq_getElem?_getD, List.getElem?_set_self (by omega)]
      rfl

/-- C30, as stated, fails: with the normals table `[[2, 1, 2]]` the row `[1, 2, 0, 5]`
resolves its zero reference to the normals row `0`, the row `[3, 4, 0, 6]` has no matching
normals entry, and both return `-1` at the position of the zero reference. -/
theorem vdiag2_unresolved_counterexample :
    find_norm 1 2 [[2, 1, 2]] = some 0 ∧ find_norm 3 4 [[2, 1, 2]] = none ∧
      (qhull_vdiag2 [4, 1, 2, 0, 5, 4, 3, 4, 0, 6] [[2, 1, 2]]).data
        = [1, 2, -1, 4, 3, 4, -1, 5] ∧
      (qhull_vdiag2 [4, 1, 2, 0, 5, 4, 3, 4, 0, 6] [[2, 1, 2]]).data[4 * 0 + 2]?
        = (qhull_vdiag2 [4, 1, 2, 0, 5, 4, 3, 4, 0, 6] [[2, 1, 2]]).data[4 * 1 + 2]? := by
  decide

/-- C30, amended: in the 2-D Voronoi diagram decode, two rows whose first zero vertex
references resolve to the normals rows `k` and `k2` return `-k - 1` and `-k2 - 1` there,
two values that are equal only when `k = k2`; a row for which no normals entry matches the
point pair returns `-1` there, the value also returned for a zero reference resolved to
the normals row `0`, and different from the value of every zero reference resolved to a
row `k > 0`. -/
theorem vdiag2_zero_reference_determines_row (tokens : List ℤ) (normsVertId : List (List ℤ))
    (i i2 : ℕ) (row row2 : List ℤ)
    (hrow : (parse2 tokens)[i]? = some row) (hlen : row.length = 4)
    (hrow2 : (parse2 tokens)[i2]? = some row2) (hlen2 : row2.length = 4) (j j2 : ℕ)
    (hj : (j = 2 ∧ row.getD 2 0 = 0) ∨ (j = 3 ∧ row.getD 2 0 ≠ 0 ∧ row.getD 3 0 = 0))
    (hj2 : (j2 = 2 ∧ row2.getD 2 0 = 0) ∨ (j2 = 3 ∧ row2.getD 2 0 ≠ 0 ∧ row2.getD 3 0 = 0))
    (k : ℕ) (hk : find_norm (row.getD 0 0) (row.getD 1 0) normsVertId = some k) :
    (qhull_vdiag2 tokens normsVertId).data[4 * i + j]? = some (-(k : ℤ) - 1) ∧
      (∀ k2, find_norm (row2.getD 0 0) (row2.getD 1 0) normsVertId = some k2 →
        ((qhull_vdiag2 tokens normsVertId).data[4 * i + j]?
          = (qhull_vdiag2 tokens normsVertId).data[4 * i2 + j2]? ↔ k = k2)) ∧
      (find_norm (row2.getD 0 0) (row2.getD 1 0) normsVertId = none →
        (qhull_vdiag2 tokens normsVertId).data[4 * i2 + j2]? = some (-1) ∧
        ((qhull_vdiag2 tokens normsVertId).data[4 * i + j]?
          = (qhull_vdiag2 tokens normsVertId).data[4 * i2 + j2]? ↔ k = 0)) := by
  have h1 := vdiag2_zero_value tokens normsVertId i row hrow hlen j hj
  have h2 := vdiag2_zero_value tokens normsVertId i2 row2 hrow2 hlen2 j2 hj2
  simp only [hk] at h1
  refine ⟨h1, ?_, ?_⟩
  · intro k2 hk2
    simp only [hk2] at h2
    rw [h1, h2]
    simp only [Option.some.injEq]
    constructor
    · intro h
      have h4 : -(k : ℤ) - 1 = -(k2 : ℤ) - 1 := h
      have h3 : (k : ℤ) = k2 := by linarith
      exact_mod_cast h3
    · intro h
      rw [h]
  · intro hnone
    simp only [hnone] at h2
    refine ⟨h2, ?_⟩
    rw [h1, h2]
    simp only [Option.some.injEq]
    constructor
    · intro h
      have h4 : -(k : ℤ) - 1 = -1 := h
      have h3 : (k : ℤ) = 0 := by linarith
      exact_mod_cast h3
    · intro h
      rw [h]
      rfl

theorem vdiag2_zero_reference_determines_row_witness :
    (qhull_vdiag2 [4, 1, 2, 0, 5, 4, 7, 8, 5, 0] [[2, 1, 2], [2, 7, 8]]).data[4 * 0 + 2]?
        = some (-((0 : ℕ) : ℤ) - 1) ∧
      ((qhull_vdiag2 [4, 1, 2, 0, 5, 4, 7, 8, 5, 0] [[2, 1, 2], [2, 7, 8]]).data[4 * 0 + 2]?
        = (qhull_vdiag2 [4, 1, 2, 0, 5, 4, 7, 8, 5, 0] [[2, 1, 2], [2, 7, 8]]).data[4 * 1 + 3]?
        ↔ 0 = 1) :=
  ⟨(vdiag2_zero_reference_determines_row [4, 1, 2, 0, 5, 4, 7, 8, 5, 0] [[2, 1, 2], [2, 7, 8]]
      0 1 [1, 2, 0, 5] [7, 8, 5, 0] (by decide) (by decide) (by decide) (by decide) 2 3
      (Or.inl (by decide)) (Or.inr (by decide)) 0 (by decide)).1,
    (vdiag2_zero_reference_determines_row [4, 1, 2, 0, 5, 4, 7, 8, 5, 0] [[2, 1, 2], [2, 7, 8]]
      0 1 [1, 2, 0, 5] [7, 8, 5, 0] (by decide) (by decide) (by decide) (by decide) 2 3
      (Or.inl (by decide)) (Or.inr (by decide)) 0 (by decide)).2.1 1 (by decide)⟩

/-! ## `qhull`: the number of rows of the index result -/

/-- C22: when `qhull` returns, the number of rows of the index result is `nd + 1` if
`DELAUNAY` is set or one of the Voronoi outputs `VNORMALS`, `VDIAGRAM`, `VVERTICES` is
requested, and `nd` for a plain hull; this holds when no facet is non-good and when some
are (the number of columns is then the facet count less the non-good facets).  A Voronoi
output selects Delaunay behaviour, and the Voronoi engine options, whether or not
`DELAUNAY` is set. -/
theorem qhull_result_rows (kw : QhullKeywords) (nd np : ℕ) (p0 : List DDouble)
    (engine : QhullEngine) (out : QhullOutput) (h : qhull kw nd np p0 engine = .ok out) :
    out.res.dim0 =
        (if kw.DELAUNAY = true ∨ kw.VNORMALS = true ∨ kw.VDIAGRAM = true ∨ kw.VVERTICES = true
          then nd + 1 else nd) ∧
      out.res.dim1 = (engine nd np p0 (qhull_options kw)).facetCount
        - bad_count (engine nd np p0 (qhull_options kw)).facetList ∧
      (kw.isVoronoi = true →
        isDelaunay kw.DELAUNAY kw.isVoronoi = true ∧ isDelaunay false kw.isVoronoi = true ∧
          qhull_options kw = "QJ v Qbb Pp" ∧ out.res.dim0 = nd + 1) := by
  have hres : out.res = qhull_indices nd kw.DELAUNAY kw.isVoronoi
      (engine nd np p0 (qhull_options kw)).toQhullRun := by
    unfold qhull at h
    split at h
    · cases h
    · unfold qhull_results at h
      simp only at h
      split_ifs at h <;> (injection h with h; rw [← h])
  have hd := qhull_indices_dim nd kw.DELAUNAY kw.isVoronoi
    (engine nd np p0 (qhull_options kw)).toQhullRun
  rw [← hres, ndRes_eq] at hd
  refine ⟨?_, hd.2, ?_⟩
  · rw [hd.1]
    cases h1 : kw.DELAUNAY <;> cases h2 : kw.VNORMALS <;> cases h3 : kw.VDIAGRAM <;>
      cases h4 : kw.VVERTICES <;> simp [isDelaunay, QhullKeywords.isVoronoi, h2, h3, h4]
  · intro hv
    refine ⟨by simp [isDelaunay, hv], by simp [isDelaunay, hv], by simp [qhull_options, hv], ?_⟩
    rw [hd.1]
    simp [isDelaunay, hv]

theorem qhull_result_rows_witness :
    ∃ out, qhull { kw_none with VDIAGRAM := true } 2 4 [] engine_sample = .ok out ∧
      out.res.dim0 = 3 ∧ out.res.dim1 = 2 :=
  ⟨_, rfl,
    (qhull_result_rows { kw_none with VDIAGRAM := true } 2 4 [] engine_sample _ rfl).1,
    (qhull_result_rows { kw_none with VDIAGRAM := true } 2 4 [] engine_sample _ rfl).2.1⟩

/-! ## `qhull`: two points in the plane -/

/-- C23, as stated, fails: for the two points `(0, 0)` and `(1, 0)` of the plane with
`VDIAGRAM` and `VNORMALS` requested, `qhull` does not accept the input: the point-count
check `np <= nd` raises the insufficient-points error before the engine is called, so for
every engine the call ends in that error and no ridge, normal or diagram is returned. -/
theorem qhull_two_points_counterexample :
    qhull_checks { kw_none with VDIAGRAM := true, VNORMALS := true } 2 2
        [.finite 0, .finite 0, .finite 1, .finite 0] = some (.not_enough_points 2 3) ∧
      (QhullError.not_enough_points 2 3).text =
        "qhull input error: not enough points (2) to construct initial simplex (need 3)" ∧
      ∀ engine : QhullEngine,
        qhull { kw_none with VDIAGRAM := true, VNORMALS := true } 2 2
          [.finite 0, .finite 0, .finite 1, .finite 0] engine
          = .error (.not_enough_points 2 3) := by
  refine ⟨by decide, by decide, fun engine => ?_⟩
  exact qhull_of_checks_some _ _ _ _ _ _ (by decide)

/-- C23, amended: for an input of 2 points in 2-D with a Voronoi output requested (and
`SPHERE` absent), `qhull` rejects the input with the error "qhull input error: not enough
points (2) to construct initial simplex (need 3)", whatever the coordinates and whatever
the engine would report; no output is produced.  An input of 3 points in 2-D is rejected
with "qhull input error: not enough points available"; an input of at least 4 points
passes both point-count checks. -/
theorem qhull_two_points_rejected (kw : QhullKeywords) (p0 : List DDouble)
    (engine : QhullEngine) (hv : kw.isVoronoi = true) (hs : kw.SPHERE = false) :
    qhull kw 2 2 p0 engine = .error (.not_enough_points 2 3) ∧
      (QhullError.not_enough_points 2 3).text =
        "qhull input error: not enough points (2) to construct initial simplex (need 3)" ∧
      qhull kw 2 3 p0 engine = .error .not_enough_points_available ∧
      (∀ np, 4 ≤ np → (∀ a b, qhull kw 2 np p0 engine ≠ .error (.not_enough_points a b)) ∧
        qhull kw 2 np p0 engine ≠ .error .not_enough_points_available) := by
  have hd : isDelaunay kw.DELAUNAY kw.isVoronoi = true := by simp [isDelaunay, hv]
  refine ⟨?_, by decide, ?_, ?_⟩
  · apply qhull_of_checks_some
    simp [qhull_checks, hd, hs]
  · apply qhull_of_checks_some
    simp [qhull_checks, hd, hs]
  · intro np hnp
    have h0 : ¬ (np = 0) := by omega
    have h1 : ¬ (np ≤ 2) := by omega
    have h2 : ¬ (np ≤ 2 + 1) := by omega
    constructor
    · intro a b h
      rw [qhull_error_iff_checks _ _ _ _ _ _ (by simp)] at h
      simp only [qhull_checks, hd, hs, Bool.not_true, Bool.and_false, Bool.false_eq_true,
        if_false, h0, h1, h2, false_and, or_false, OfNat.ofNat_ne_zero] at h
      split_ifs at h
      simp at h
    · intro h
      rw [qhull_error_iff_checks _ _ _ _ _ _ (by simp)] at h
      simp only [qhull_checks, hd, hs, Bool.not_true, Bool.and_false, Bool.false_eq_true,
        if_false, h0, h1, h2, false_and, or_false, OfNat.ofNat_ne_zero] at h
      split_ifs at h
      simp at h

theorem qhull_two_points_rejected_witness :
    qhull { kw_none with VDIAGRAM := true } 2 2 [.finite 0, .finite 0, .finite 1, .finite 0]
      engine_sample = .error (.not_enough_points 2 3) :=
  (qhull_two_points_rejected { kw_none with VDIAGRAM := true }
    [.finite 0, .finite 0, .finite 1, .finite 0] engine_sample (by decide) (by decide)).1

/-! ## `qhull`: range of the accesses of the `CONNECTIVITY` block -/

theorem serial_state_at_spec (np connCount : ℕ) (connV : List (List ℤ))
    (hlen : connV.length = np) (hcount : connCount = (connV.map List.length).sum) (n : ℕ)
    (hn : n ≤ np) :
    (serial_state_at np connCount connV n).writeIx = conn_offset np connV n ∧
      (serial_state_at np connCount connV n).conn.length = np + 1 + connCount ∧
      (serial_state_at np connCount connV n).conn[np]? = some ((np + 1 + connCount : ℕ) : ℤ) ∧
      (∀ i, i < n → (serial_state_at np connCount connV n).conn[i]?
        = some ((conn_offset np connV i : ℕ) : ℤ)) := by
  obtain ⟨ha, hb, hc, hd, _⟩ := serial_loop_inv np connCount connV (le_of_eq hlen) hcount
    ((List.replicate (np + 1 + connCount) (0 : ℤ)).set np ((np + 1 + connCount : ℕ) : ℤ))
    (by simp) (by rw [List.getElem?_set_self (by simp; omega)]) n (by omega)
  exact ⟨ha, hb, hc, hd⟩

/-- C28: if the vertices reported by the engine have distinct point ids, all in
`0 .. np-1`, and the vertex count is `np`, then the `CONNECTIVITY` extraction makes no
out-of-range access: the range-checked `connV.at(vertexId)` never fails (the table sized by
the vertex count is indexed by point ids below it), and every position of the buffer
assigned by the serialization loop is below the buffer length `np + 1 + connCount`.  Every
header slot `x < np` is assigned exactly once, by iteration `x` (the trailer slot `np` is
not assigned by the loop), and the final write position is `np + 1 + connCount`, the total
length stored in the trailer slot. -/
theorem connectivity_accesses_in_range (np : ℕ) (vs : List QhullVertex)
    (hd : (vs.map fun v => v.id).Nodup) (hid : ∀ v ∈ vs, 0 ≤ v.id ∧ v.id < np) :
    ∃ g, conn_gather np vs = some g ∧
      qhull_conn np np vs = some (conn_serialize np g.connCount g.connV) ∧
      g.connV.length = np ∧
      conn_serialize np g.connCount g.connV = (serial_state_at np g.connCount g.connV np).conn ∧
      (∀ i, i < np → ∀ x ∈ serial_writes g.connV (serial_state_at np g.connCount g.connV i) i,
        x < (serial_state_at np g.connCount g.connV i).conn.length) ∧
      (∀ i, i < np → ∀ x, x ≤ np →
        (serial_writes g.connV (serial_state_at np g.connCount g.connV i) i).count x
          = if i = x then 1 else 0) ∧
      (serial_state_at np g.connCount g.connV np).writeIx = np + 1 + g.connCount ∧
      (conn_serialize np g.connCount g.connV)[np]? = some ((np + 1 + g.connCount : ℕ) : ℤ) := by
  obtain ⟨g, hg⟩ := conn_gather_some np vs hid
  obtain ⟨h1, _, _, h4⟩ := conn_gather_spec np vs g hd hg
  have hge : ∀ i, i ≤ np → np + 1 ≤ conn_offset np g.connV i := by
    intro i hi
    rw [← conn_offset_zero np g.connV]
    exact conn_offset_mono np g.connV 0 i (Nat.zero_le _) (by omega)
  have hend : ∀ i, i < np →
      conn_offset np g.connV i + (g.connV.getD i []).length ≤ np + 1 + g.connCount := by
    intro i hi
    rw [← conn_offset_succ np g.connV i (by omega), h4, ← conn_offset_length]
    exact conn_offset_mono np g.connV _ _ (by omega) (le_refl _)
  refine ⟨g, hg, by simp [qhull_conn, hg], h1, ?_, ?_, ?_, ?_, ?_⟩
  · simp only [conn_serialize, serial_state_at, h1]
  · intro i hi x hx
    obtain ⟨ha, hb, _, _⟩ := serial_state_at_spec np g.connCount g.connV h1 h4 i hi.le
    rw [hb]
    simp only [serial_writes, List.mem_append, List.mem_map, List.mem_range,
      List.mem_singleton] at hx
    rcases hx with ⟨j, hj, rfl⟩ | rfl
    · rw [ha]
      have := hend i hi
      omega
    · omega
  · intro i hi x hx
    obtain ⟨ha, _, _, _⟩ := serial_state_at_spec np g.connCount g.connV h1 h4 i hi.le
    have h0 : ((List.range (g.connV.getD i []).length).map fun j =>
        (serial_state_at np g.connCount g.connV i).writeIx + j).count x = 0 := by
      apply List.count_eq_zero_of_not_mem
      simp only [List.mem_map, List.mem_range, not_exists, not_and]
      intro j _ hjx
      have := hge i hi.le
      omega
    rw [serial_writes, List.count_append, h0, List.count_singleton]
    by_cases h : i = x
    · subst h
      simp
    · have h2 : ¬ x = i := fun e => h e.symm
      simp [h, h2]
  · obtain ⟨ha, _, _, _⟩ := serial_state_at_spec np g.connCount g.connV h1 h4 np (le_refl _)
    rw [ha, h4, ← conn_offset_length, h1]
  · exact (conn_serialize_spec np g.connCount g.connV h1 h4).2.1

theorem connectivity_accesses_in_range_witness :
    ∃ g, conn_gather 4 v_sample = some g ∧
      qhull_conn 4 4 v_sample = some (conn_serialize 4 g.connCount g.connV) ∧
      g.connV.length = 4 ∧
      conn_serialize 4 g.connCount g.connV = (serial_state_at 4 g.connCount g.connV 4).conn ∧
      (∀ i, i < 4 → ∀ x ∈ serial_writes g.connV (serial_state_at 4 g.connCount g.connV i) i,
        x < (serial_state_at 4 g.connCount g.connV i).conn.length) ∧
      (∀ i, i < 4 → ∀ x, x ≤ 4 →
        (serial_writes g.connV (serial_state_at 4 g.connCount g.connV i) i).count x
          = if i = x then 1 else 0) ∧
      (serial_state_at 4 g.connCount g.connV 4).writeIx = 4 + 1 + g.connCount ∧
      (conn_serialize 4 g.connCount g.connV)[4]? = some ((4 + 1 + g.connCount : ℕ) : ℤ) :=
  connectivity_accesses_in_range 4 v_sample (by decide) (by decide)

/-! ## Coordinates given as separate arrays -/

theorem copy_column_succ (n : ℕ) (par : DDoubleGDL) (i : ℕ) (p0 : List DDouble) (m : ℕ) :
    (List.range (m + 1)).foldl
        (fun p0 j => p0.set (i + j * n) (par.data.getD j (.finite 0))) p0 =
      ((List.range m).foldl
        (fun p0 j => p0.set (i + j * n) (par.data.getD j (.finite 0))) p0).set (i + m * n)
        (par.data.getD m (.finite 0)) := by
  simp [List.range_succ, List.foldl_append]

theorem copy_column_partial (n : ℕ) (par : DDoubleGDL) (i : ℕ) (p0 : List DDouble) (hn : 0 < n)
    (m : ℕ) :
    ((List.range m).foldl
        (fun p0 j => p0.set (i + j * n) (par.data.getD j (.finite 0))) p0).length
        = p0.length ∧
      (∀ x, (∀ j, j < m → x ≠ i + j * n) →
        ((List.range m).foldl
          (fun p0 j => p0.set (i + j * n) (par.data.getD j (.finite 0))) p0)[x]? = p0[x]?) ∧
      (∀ j, j < m → i + j * n < p0.length →
        ((List.range m).foldl
          (fun p0 j => p0.set (i + j * n) (par.data.getD j (.finite 0))) p0)[i + j * n]?
          = some (par.data.getD j (.finite 0))) := by
  induction m with
  | zero => simp
  | succ m ih =>
    obtain ⟨h1, h2, h3⟩ := ih
    rw [copy_column_succ]
    refine ⟨by rw [List.length_set, h1], ?_, ?_⟩
    · intro x hx
      rw [List.getElem?_set_ne (Ne.symm (hx m (Nat.lt_succ_self m))),
        h2 x (fun j hj => hx j (Nat.lt_succ_of_lt hj))]
    · intro j hj hlt
      by_cases hjm : j = m
      · subst hjm
        rw [List.getElem?_set_self (by rw [h1]; exact hlt)]
      · have hne : i + m * n ≠ i + j * n := by
          intro h
          have h5 : m * n = j * n := Nat.add_left_cancel h
          exact hjm (Nat.eq_of_mul_eq_mul_right hn h5).symm
        rw [List.getElem?_set_ne hne, h3 j (by omega) hlt]

theorem copy_column_spec (n inDim : ℕ) (par : DDoubleGDL) (i : ℕ) (p0 : List DDouble)
    (hn : 0 < n) :
    (copy_column n inDim par i p0).length = p0.length ∧
      (∀ x, (∀ j, j < inDim → x ≠ i + j * n) → (copy_column n inDim par i p0)[x]? = p0[x]?) ∧
      (∀ j, j < inDim → i + j * n < p0.length →
        (copy_column n inDim par i p0)[i + j * n]? = some (par.data.getD j (.finite 0))) :=
  copy_column_partial n par i p0 hn inDim

theorem separate_loop_succ (pars : List DDoubleGDL) (inDim : ℕ) (s : Option (List DDouble))
    (m : ℕ) :
    (List.range (m + 1)).foldl (separate_step pars inDim) s =
      separate_step pars inDim ((List.range m).foldl (separate_step pars inDim) s) m := by
  simp [List.range_succ, List.foldl_append]

theorem position_lt (n inDim i j : ℕ) (hi : i < n) (hj : j < inDim) :
    i + j * n < n * inDim := by
  calc i + j * n < n + j * n := by omega
    _ = (j + 1) * n := by ring
    _ ≤ inDim * n := Nat.mul_le_mul_right n hj
    _ = n * inDim := Nat.mul_comm _ _

theorem position_inj (n i j i2 j2 : ℕ) (hi : i < n) (hi2 : i2 < n)
    (h : i + j * n = i2 + j2 * n) : i = i2 ∧ j = j2 := by
  rw [Nat.mul_comm j n, Nat.mul_comm j2 n] at h
  exact radix_inj hi hi2 h

/-- The loop over the coordinate arrays after `m` iterations: it has ended with the error
when one of the first `m` arrays fails the check; otherwise the buffer holds the first `m`
arrays, element `j` of array `i` at position `i + j*n`. -/
theorem separate_loop_spec (pars : List DDoubleGDL) (inDim : ℕ) (p0 : List DDouble)
    (hlen : p0.length = pars.length * inDim) (m : ℕ) (hm : m ≤ pars.length) :
    ((∃ i, i < m ∧ ((pars.getD i ⟨[], []⟩).Dim 0 ≠ inDim ∨ (pars.getD i ⟨[], []⟩).Dim 1 ≠ 0)) →
        (List.range m).foldl (separate_step pars inDim) (some p0) = none) ∧
      ((∀ i, i < m → ¬ ((pars.getD i ⟨[], []⟩).Dim 0 ≠ inDim ∨ (pars.getD i ⟨[], []⟩).Dim 1 ≠ 0)) →
        ∃ data, (List.range m).foldl (separate_step pars inDim) (some p0) = some data ∧
          data.length = pars.length * inDim ∧
          ∀ i j, i < m → j < inDim →
            data[i + j * pars.length]? = some ((pars.getD i ⟨[], []⟩).data.getD j (.finite 0))) := by
  induction m with
  | zero =>
    refine ⟨?_, fun _ => ⟨p0, rfl, hlen, ?_⟩⟩
    · rintro ⟨i, hi, _⟩
      omega
    · intro i j hi
      omega
  | succ m ih =>
    obtain ⟨ih1, ih2⟩ := ih (by omega)
    rw [separate_loop_succ]
    by_cases hbad : ∃ i, i < m ∧
        ((pars.getD i ⟨[], []⟩).Dim 0 ≠ inDim ∨ (pars.getD i ⟨[], []⟩).Dim 1 ≠ 0)
    · rw [ih1 hbad]
      refine ⟨fun _ => rfl, fun hall => ?_⟩
      obtain ⟨i, hi, hb⟩ := hbad
      exact absurd hb (hall i (by omega))
    · have hall : ∀ i, i < m →
          ¬ ((pars.getD i ⟨[], []⟩).Dim 0 ≠ inDim ∨ (pars.getD i ⟨[], []⟩).Dim 1 ≠ 0) :=
        fun i hi hb => hbad ⟨i, hi, hb⟩
      obtain ⟨data, hd, hl, hdata⟩ := ih2 hall
      rw [hd]
      constructor
      · rintro ⟨i, hi, hb⟩
        have him : i = m := by
          by_contra hne
          exact hall i (by omega) hb
        subst him
        simp only [separate_step, Option.some_bind]
        rw [if_pos hb]
      · intro hall2
        have hok := hall2 m (Nat.lt_succ_self m)
        obtain ⟨c1, c2, c3⟩ := copy_column_spec pars.length inDim (pars.getD m ⟨[], []⟩) m data
          (by omega)
        refine ⟨copy_column pars.length inDim (pars.getD m ⟨[], []⟩) m data, ?_, ?_, ?_⟩
        · simp only [separate_step, Option.some_bind]
          rw [if_neg hok]
        · rw [c1, hl]
        · intro i j hi hj
          by_cases him : i = m
          · subst him
            exact c3 j hj (by rw [hl]; exact position_lt _ _ _ _ (by omega) hj)
          · rw [c2 _ (fun j2 _ h => him (position_inj _ _ _ _ _ (by omega) (by omega) h).1)]
            exact hdata i j (by omega) hj

theorem isArray_dim1 (a : DDoubleGDL) (h : a.isArray) : a.Dim 1 = 0 ↔ a.dim.length = 1 := by
  obtain ⟨h1, h2, _⟩ := h
  unfold DDoubleGDL.Dim
  cases hd : a.dim with
  | nil => exact absurd hd h1
  | cons d rest =>
    cases rest with
    | nil => simp
    | cons e rest2 =>
      have he : 1 ≤ e := h2 e (by rw [hd]; simp)
      simp only [List.getD_cons_succ, List.getD_cons_zero, List.length_cons]
      omega

theorem isArray_length (a : DDoubleGDL) (h : a.isArray) (h1 : a.dim.length = 1) :
    a.data.length = a.Dim 0 := by
  obtain ⟨_, _, h3⟩ := h
  unfold DDoubleGDL.Dim
  cases hd : a.dim with
  | nil => rw [hd] at h1; simp at h1
  | cons d rest =>
    cases rest with
    | nil => rw [h3, hd]; simp
    | cons e rest2 => rw [hd] at h1; simp at h1

theorem getD_mem_pars (pars : List DDoubleGDL) (i : ℕ) (hi : i < pars.length) :
    pars.getD i ⟨[], []⟩ ∈ pars := by
  rw [List.getD_eq_getElem?_getD, List.getElem?_eq_getElem hi]
  exact List.getElem_mem hi

/-- The check of the loop fails for some array exactly when some array has a length other
than that of the first one or is not one-dimensional. -/
theorem separate_check_iff (pars : List DDoubleGDL) (hn : 1 ≤ pars.length)
    (harr : ∀ a ∈ pars, a.isArray) :
    (∃ i, i < pars.length ∧
        ((pars.getD i ⟨[], []⟩).Dim 0 ≠ (pars.getD 0 ⟨[], []⟩).Dim 0 ∨
          (pars.getD i ⟨[], []⟩).Dim 1 ≠ 0)) ↔
      ∃ a ∈ pars, a.data.length ≠ (pars.getD 0 ⟨[], []⟩).data.length ∨ a.dim.length ≠ 1 := by
  have h0mem := getD_mem_pars pars 0 (by omega)
  have h0arr := harr _ h0mem
  constructor
  · rintro ⟨i, hi, hb⟩
    have hmem := getD_mem_pars pars i hi
    have harr_i := harr _ hmem
    by_cases h1 : (pars.getD i ⟨[], []⟩).dim.length = 1
    · by_cases h01 : (pars.getD 0 ⟨[], []⟩).dim.length = 1
      · refine ⟨_, hmem, Or.inl ?_⟩
        rw [isArray_length _ harr_i h1, isArray_length _ h0arr h01]
        rcases hb with hb | hb
        · exact hb
        · exact absurd ((isArray_dim1 _ harr_i).mpr h1) hb
      · exact ⟨_, h0mem, Or.inr h01⟩
    · exact ⟨_, hmem, Or.inr h1⟩
  · rintro ⟨a, ha, hb⟩
    obtain ⟨i, hi, rfl⟩ : ∃ i, i < pars.length ∧ pars.getD i ⟨[], []⟩ = a := by
      obtain ⟨i, hi, he⟩ := List.getElem_of_mem ha
      refine ⟨i, hi, ?_⟩
      rw [List.getD_eq_getElem?_getD, List.getElem?_eq_getElem hi]
      exact he
    have harr_i := harr _ ha
    by_cases h1 : (pars.getD i ⟨[], []⟩).dim.length = 1
    · by_cases h01 : (pars.getD 0 ⟨[], []⟩).dim.length = 1
      · refine ⟨i, hi, Or.inl ?_⟩
        rw [← isArray_length _ harr_i h1, ← isArray_length _ h0arr h01]
        rcases hb with hb | hb
        · exact hb
        · exact absurd h1 hb
      · exact ⟨0, by omega, Or.inr (fun h => h01 ((isArray_dim1 _ h0arr).mp h))⟩
    · exact ⟨i, hi, Or.inr (fun h => h1 ((isArray_dim1 _ harr_i).mp h))⟩

/-- The matrix built from coordinate arrays: the error when some array has another length
than the first or is not one-dimensional; otherwise an `n x np` matrix with element `j` of
array `i` at position `i + j*n`. -/
theorem separate_arrays_spec (pars : List DDoubleGDL) (hn : 1 ≤ pars.length)
    (harr : ∀ a ∈ pars, a.isArray) :
    ((∃ a ∈ pars, a.data.length ≠ (pars.getD 0 ⟨[], []⟩).data.length ∨ a.dim.length ≠ 1) →
        separate_arrays pars = none) ∧
      ((¬ ∃ a ∈ pars, a.data.length ≠ (pars.getD 0 ⟨[], []⟩).data.length ∨ a.dim.length ≠ 1) →
        ∃ p0, separate_arrays pars = some p0 ∧
          p0.dim = [pars.length, (pars.getD 0 ⟨[], []⟩).data.length] ∧
          p0.data.length = pars.length * (pars.getD 0 ⟨[], []⟩).data.length ∧
          ∀ i j, i < pars.length → j < (pars.getD 0 ⟨[], []⟩).data.length →
            p0.data[i + j * pars.length]? = (pars.getD i ⟨[], []⟩).data[j]?) := by
  obtain ⟨s1, s2⟩ := separate_loop_spec pars ((pars.getD 0 ⟨[], []⟩).Dim 0)
    (DDoubleGDL.zero pars.length ((pars.getD 0 ⟨[], []⟩).Dim 0)).data
    (by simp [DDoubleGDL.zero]) pars.length (le_refl _)
  have hiff := separate_check_iff pars hn harr
  constructor
  · intro hbad
    simp only [separate_arrays, s1 (hiff.mpr hbad), Option.map_none']
  · intro hgood
    have hall : ∀ i, i < pars.length →
        ¬ ((pars.getD i ⟨[], []⟩).Dim 0 ≠ (pars.getD 0 ⟨[], []⟩).Dim 0 ∨
          (pars.getD i ⟨[], []⟩).Dim 1 ≠ 0) :=
      fun i hi hb => hgood (hiff.mp ⟨i, hi, hb⟩)
    obtain ⟨data, hd, hl, hdata⟩ := s2 hall
    have h0mem := getD_mem_pars pars 0 (by omega)
    have h01 : (pars.getD 0 ⟨[], []⟩).dim.length = 1 := by
      by_contra h
      exact hgood ⟨_, h0mem, Or.inr h⟩
    have hlen0 := isArray_length _ (harr _ h0mem) h01
    refine ⟨{ DDoubleGDL.zero pars.length ((pars.getD 0 ⟨[], []⟩).Dim 0) with data := data },
      ?_, ?_, ?_, ?_⟩
    · simp only [separate_arrays, hd, Option.map_some']
    · simp only [DDoubleGDL.zero, hlen0]
    · simp only [hl, hlen0]
    · intro i j hi hj
      have hmem := getD_mem_pars pars i hi
      have hi1 : (pars.getD i ⟨[], []⟩).dim.length = 1 := by
        by_contra h
        exact hgood ⟨_, hmem, Or.inr h⟩
      have hleni : (pars.getD i ⟨[], []⟩).data.length = (pars.getD 0 ⟨[], []⟩).data.length := by
        by_contra h
        exact hgood ⟨_, hmem, Or.inl h⟩
      simp only
      rw [hdata i j hi (by rw [← hlen0]; exact hj), List.getD_eq_getElem?_getD,
        List.getElem?_eq_getElem (by rw [hleni]; exact hj)]
      rfl

/-- C21: when the coordinates are given to `qhull` as `nd >= 2` separate arrays (and the
two keyword checks that come first pass), the call fails with the input-shape error
"qhull input error: separated input arrays must have same length and be 1 dimensional"
exactly when some array's length differs from the first array's length or some array is
not one-dimensional.  Otherwise the normalized matrix is `nd x np`, `np` being the common
length, its entry (axis `i`, point `j`), at position `i + j*nd` of the buffer, is element
`j` of the `i`-th array, and `qhull` goes on with that matrix.  The same check and copy are
made by `qgrid3_fun` on its three coordinate arrays. -/
theorem qhull_separate_arrays (kw : QhullKeywords) (pars : List DDoubleGDL)
    (engine : QhullEngine) (hn : 2 ≤ pars.length) (harr : ∀ a ∈ pars, a.isArray)
    (hconn : (kw.CONNECTIVITY && !isDelaunay kw.DELAUNAY kw.isVoronoi) = false)
    (hsph : kw.SPHERE = false) :
    (qhull_call kw pars engine = .error .separated_arrays ↔
        ∃ a ∈ pars, a.data.length ≠ (pars.getD 0 ⟨[], []⟩).data.length ∨ a.dim.length ≠ 1) ∧
      QhullError.separated_arrays.text =
        "qhull input error: separated input arrays must have same length and be 1 dimensional" ∧
      ((¬ ∃ a ∈ pars, a.data.length ≠ (pars.getD 0 ⟨[], []⟩).data.length ∨ a.dim.length ≠ 1) →
        ∃ p0, qhull_normalize pars = .ok p0 ∧
          p0.Dim 0 = pars.length ∧ p0.Dim 1 = (pars.getD 0 ⟨[], []⟩).data.length ∧
          p0.data.length = pars.length * (pars.getD 0 ⟨[], []⟩).data.length ∧
          (∀ i j, i < pars.length → j < (pars.getD 0 ⟨[], []⟩).data.length →
            p0.data[i + j * pars.length]? = (pars.getD i ⟨[], []⟩).data[j]?) ∧
          qhull_call kw pars engine = qhull kw (p0.Dim 0) (p0.Dim 1) p0.data engine) ∧
      (∀ x y z : DDoubleGDL, x.isArray → y.isArray → z.isArray →
        ((qgrid3_normalize x y z
            = .error "separated input arrays must have same length and be 1 dimensional" ↔
          ∃ a ∈ [x, y, z], a.data.length ≠ x.data.length ∨ a.dim.length ≠ 1) ∧
        ((¬ ∃ a ∈ [x, y, z], a.data.length ≠ x.data.length ∨ a.dim.length ≠ 1) →
          ∃ p0, qgrid3_normalize x y z = .ok p0 ∧ p0.Dim 0 = 3 ∧ p0.Dim 1 = x.data.length ∧
            ∀ j, j < x.data.length → p0.data[0 + j * 3]? = x.data[j]? ∧
              p0.data[1 + j * 3]? = y.data[j]? ∧ p0.data[2 + j * 3]? = z.data[j]?))) := by
  obtain ⟨s1, s2⟩ := separate_arrays_spec pars (by omega) harr
  have hne1 : ¬ pars.length = 1 := by omega
  have hcall : qhull_call kw pars engine =
      match qhull_normalize pars with
      | .error e => .error e
      | .ok p0 => qhull kw (p0.Dim 0) (p0.Dim 1) p0.data engine := by
    simp only [qhull_call, hconn, hsph, Bool.false_eq_true, if_false]
  have hgood : (¬ ∃ a ∈ pars,
      a.data.length ≠ (pars.getD 0 ⟨[], []⟩).data.length ∨ a.dim.length ≠ 1) →
      ∃ p0, qhull_normalize pars = .ok p0 ∧
        p0.Dim 0 = pars.length ∧ p0.Dim 1 = (pars.getD 0 ⟨[], []⟩).data.length ∧
        p0.data.length = pars.length * (pars.getD 0 ⟨[], []⟩).data.length ∧
        (∀ i j, i < pars.length → j < (pars.getD 0 ⟨[], []⟩).data.length →
          p0.data[i + j * pars.length]? = (pars.getD i ⟨[], []⟩).data[j]?) ∧
        qhull_call kw pars engine = qhull kw (p0.Dim 0) (p0.Dim 1) p0.data engine := by
    intro hg
    obtain ⟨p0, hp, hdim, hl, hdata⟩ := s2 hg
    have hnorm : qhull_normalize pars = .ok p0 := by
      simp only [qhull_normalize, hne1, if_false, hp]
    refine ⟨p0, hnorm, by simp [DDoubleGDL.Dim, hdim], by simp [DDoubleGDL.Dim, hdim], hl,
      hdata, ?_⟩
    rw [hcall, hnorm]
  refine ⟨?_, rfl, hgood, ?_⟩
  · constructor
    · intro herr
      by_contra hg
      obtain ⟨p0, _, _, _, _, _, hq⟩ := hgood hg
      rw [hq, qhull_error_iff_checks _ _ _ _ _ _ (by simp)] at herr
      simp only [qhull_checks] at herr
      split_ifs at herr <;> simp at herr
    · intro hbad
      have hnorm : qhull_normalize pars = .error .separated_arrays := by
        simp only [qhull_normalize, hne1, if_false, s1 hbad]
      rw [hcall, hnorm]
  · intro x y z hx hy hz
    have harr3 : ∀ a ∈ [x, y, z], a.isArray := by
      intro a ha
      simp only [List.mem_cons, List.mem_singleton, List.not_mem_nil, or_false] at ha
      rcases ha with rfl | rfl | rfl <;> assumption
    obtain ⟨t1, t2⟩ := separate_arrays_spec [x, y, z] (by simp) harr3
    simp only [List.getD_cons_zero, List.length_cons, List.length_nil] at t1 t2
    constructor
    · constructor
      · intro herr
        by_contra hg
        obtain ⟨p0, hp, _⟩ := t2 hg
        simp [qgrid3_normalize, hp] at herr
      · intro hbad
        simp only [qgrid3_normalize, t1 hbad]
        rfl
    · intro hg
      obtain ⟨p0, hp, hdim, _, hdata⟩ := t2 hg
      refine ⟨p0, by simp only [qgrid3_normalize, hp], by simp [DDoubleGDL.Dim, hdim],
        by simp [DDoubleGDL.Dim, hdim], ?_⟩
      intro j hj
      exact ⟨hdata 0 j (by decide) hj, hdata 1 j (by decide) hj, hdata 2 j (by decide) hj⟩

theorem qhull_separate_arrays_witness :
    ∃ p0, qhull_normalize xyz_sample = .ok p0 ∧
      p0.Dim 0 = 3 ∧ p0.Dim 1 = 4 ∧ p0.data.length = 3 * 4 ∧
      (∀ i j, i < 3 → j < 4 →
        p0.data[i + j * 3]? = (xyz_sample.getD i ⟨[], []⟩).data[j]?) ∧
      qhull_call kw_none xyz_sample engine_sample
        = qhull kw_none (p0.Dim 0) (p0.Dim 1) p0.data engine_sample :=
  (qhull_separate_arrays kw_none xyz_sample engine_sample (by decide)
    (by
      intro a ha
      simp only [xyz_sample, List.mem_cons, List.mem_singleton, List.not_mem_nil,
        or_false] at ha
      rcases ha with rfl | rfl | rfl <;>
        exact ⟨by simp, by simp, by simp⟩)
    (by decide) (by decide)).2.2.1 (by decide)

/-! ## Double precision: where rounding departs from exact arithmetic -/

/-- A point of the closed tetrahedron has no negative barycentric coordinate (exact
arithmetic). -/
theorem mem_convexHull_bary_nonneg (a b c d p : Vec3)
    (h : scalar_triple_prod (vector_substract b a) (vector_substract c a)
      (vector_substract d a) ≠ 0)
    (hp : p ∈ convexHull ℚ ({a, b, c, d} : Set Vec3)) : ∀ x ∈ bary_tet a b c d p, 0 ≤ x :=
  convexHull_min (vertices_subset_nonneg a b c d h) (bary_convex a b c d) hp

/-- C2, as stated, fails in the arithmetic of the code: for the unit corner and the point
`p = (0.1, 0.1, 0.8)` (the `double` values of these literals) `bary_tet<double>` returns
`[0, 0.1, 0.1, 0.8]`, no coordinate negative, while `p` is not in the closed tetrahedron
(the sum of its coordinates exceeds `1` by `2^-54`, and its exact first barycentric
coordinate is negative). -/
theorem bary_tet_double_counterexample :
    scalar_triple_prod (vector_substract ![1, 0, 0] ![0, 0, 0])
        (vector_substract ![0, 1, 0] ![0, 0, 0]) (vector_substract ![0, 0, 1] ![0, 0, 0]) ≠ 0 ∧
      bary_tet_double (Vec3.toDouble ![0, 0, 0]) (Vec3.toDouble ![1, 0, 0])
          (Vec3.toDouble ![0, 1, 0]) (Vec3.toDouble ![0, 0, 1]) (Vec3.toDouble ![d01, d01, d08])
        = [some 0, some d01, some d01, some d08] ∧
      (∀ x ∈ [0, d01, d01, d08], (0 : ℚ) ≤ x) ∧
      d01 + d01 + d08 = 1 + 1 / 18014398509481984 ∧
      (![d01, d01, d08] : Vec3) ∉
        convexHull ℚ ({![0, 0, 0], ![1, 0, 0], ![0, 1, 0], ![0, 0, 1]} : Set Vec3) := by
  refine ⟨by decide!, by decide!, by decide!, by decide!, ?_⟩
  intro hp
  exact absurd (mem_convexHull_bary_nonneg _ _ _ _ _ (by decide!) hp) (by decide!)

/-- C3, as stated, fails in the arithmetic of the code: `g_round` has one non-degenerate
tetrahedron with valid vertex ids, its only cell has the coordinate `(0.1, 0.1, 0.8)`,
outside the convex hull of the input points; exact arithmetic would store `missing = -1`,
but in `double` the cell is located in the tetrahedron and stores `0.8`. -/
theorem qgrid3_fun_double_outside_hull_counterexample :
    1 ≤ g_round.n_tetra ∧ (∀ t < g_round.n_tetra, tetra_volume6 g_round t ≠ 0) ∧
      (∀ t < g_round.n_tetra, valid_vertices g_round t) ∧
      grid_coord g_round 0 0 0 = ![d01, d01, d08] ∧
      grid_coord g_round 0 0 0 ∉ convexHull ℚ {q : Vec3 | q ∈ g_round.points} ∧
      qgrid3_fun g_round = [g_round.missing] ∧
      qgrid3_fun_double g_round = some [d08] ∧ d08 ≠ g_round.missing := by
  refine ⟨by decide, by decide!, by decide!, by decide!, ?_, by decide!, by decide!, by decide!⟩
  have hset : {q : Vec3 | q ∈ g_round.points}
      = ({![0, 0, 0], ![1, 0, 0], ![0, 1, 0], ![0, 0, 1]} : Set Vec3) := by
    ext q
    simp [g_round]
  rw [hset]
  intro hp
  exact absurd (mem_convexHull_bary_nonneg _ _ _ _ _ (by decide!) hp) (by decide!)

/-- C4, as stated, fails in the arithmetic of the code: in `g_tiny` both tetrahedra are
non-degenerate and the point `p = (-2^-1074, 0, 0)` has computed barycentric coordinates
`[1, 0, 0, 0]` in tetrahedron `0` (none negative; the exact second coordinate `-2^-1076`
is rounded to zero) and a negative one in tetrahedron `1`, so it is contained in exactly
one tetrahedron in the sense of the claim; with the valid last-hit index `1` the last-hit
check fails, the scan rejects tetrahedron `0` by its bounding box (`p 0 < 0`), and point
location finds no tetrahedron. -/
theorem locate_double_counterexample :
    (∀ t < g_tiny.n_tetra, tetra_volume6 g_tiny t ≠ 0) ∧
      tetra_bary_double g_tiny 0 ![-d_min, 0, 0] = some [1, 0, 0, 0] ∧
      tetra_bary_double g_tiny 1 ![-d_min, 0, 0] = some [1/4, 1/2, 1/2, -1/4] ∧
      is_outside_of_box (box_limits ((tetra_data g_tiny).getD 0 [])).1
        (box_limits ((tetra_data g_tiny).getD 0 [])).2 ![-d_min, 0, 0] = true ∧
      locate_double g_tiny 1 ![-d_min, 0, 0] = some none := by
  decide!

/-- C25, as stated, fails in the arithmetic of the code: for the non-degenerate tetrahedron
`0` of `g_tiny` and `p = (-2^-1074, 0, 0)` the four computed barycentric coordinates are
`[1, 0, 0, 0]`, all `>= 0`, yet `is_outside_of_box(box_limits(tetrahedron), p)` is true;
the scan with the bounding-box rejection finds no tetrahedron, the same scan without it
selects tetrahedron `0`. -/
theorem scan_double_box_rejection_counterexample :
    tetra_volume6 g_tiny 0 ≠ 0 ∧
      bary_tet_double (Vec3.toDouble ![0, 0, 0]) (Vec3.toDouble ![1, 0, 0])
          (Vec3.toDouble ![0, 1/2, 0]) (Vec3.toDouble ![0, 0, 1/2])
          (Vec3.toDouble ![-d_min, 0, 0])
        = [some 1, some 0, some 0, some 0] ∧
      is_outside_of_box (box_limits [![0, 0, 0], ![1, 0, 0], ![0, 1/2, 0], ![0, 0, 1/2]]).1
        (box_limits [![0, 0, 0], ![1, 0, 0], ![0, 1/2, 0], ![0, 0, 1/2]]).2
        ![-d_min, 0, 0] = true ∧
      scan_double g_tiny ![-d_min, 0, 0] (List.range g_tiny.n_tetra) = some none ∧
      scan_without_box_double g_tiny ![-d_min, 0, 0] (List.range g_tiny.n_tetra)
        = some (some (0, 0)) := by
  decide!

/-- C6, as stated, fails in the arithmetic of the code: the field of `g_affine` is the
affine function `L = x + 2y + 3z` at the input points, and its only cell, at
`x = (0.1, 0.1, 0.1)`, is located in the non-degenerate tetrahedron `0`; the stored value
is `5404319552844596 / 2^53` (`0.6000000000000001`), not `L(x) = 10808639105689191 / 2^54`,
which is not a `double` at all. -/
theorem qgrid3_fun_double_affine_counterexample :
    (∀ n < g_affine.points.length, g_affine.func.getD n 0 =
        0 + 1 * (g_affine.points.getD n 0) 0 + 2 * (g_affine.points.getD n 0) 1
          + 3 * (g_affine.points.getD n 0) 2) ∧
      tetra_volume6 g_affine 0 ≠ 0 ∧ valid_vertices g_affine 0 ∧
      locate_double g_affine 0 (grid_coord g_affine 0 0 0)
        = some (some (0, 5404319552844596 / 9007199254740992)) ∧
      qgrid3_fun_double g_affine = some [5404319552844596 / 9007199254740992] ∧
      0 + 1 * grid_coord g_affine 0 0 0 0 + 2 * grid_coord g_affine 0 0 0 1
          + 3 * grid_coord g_affine 0 0 0 2 = 10808639105689191 / 18014398509481984 ∧
      round_double (10808639105689191 / 18014398509481984)
        ≠ 10808639105689191 / 18014398509481984 ∧
      qgrid3_fun g_affine = [10808639105689191 / 18014398509481984] := by
  decide!
end GDL
